import Mathlib

/-!
# ankrctl wallet commands: keystore directory and endpoint selection

A shallow embedding of `commands/wallet.go`.

* `Shuffle` is embedded over an explicit backing array, because the Go code
  deletes the drawn element with `append(slice[:k], slice[k+1:]...)`, which
  writes into the array shared with the caller.
* The endpoint probing loop of `RunWalletSendCoins` / `RunWalletGetbalance`
  is embedded with the HTTP client as a function from URL to probe result.
* The keystore commands are embedded as functions from the home directory
  listing and the outcomes of the interactions with the outside world
  (terminal, clock, file system errors) to the new listing, a trace of
  events and the returned error.
* `RunWalletSendCoins` is embedded in three stages (flags and keystore lookup;
  password, decryption and manual entry; confirmation, endpoint selection and
  submission), with its own trace of events.
* The password cipher behind `EncryptDataV3` and `DecryptDataV3` is not part of
  `wallet.go`; it is modelled from the specification over abstract primitives.
* An argument of a command is a Go string, a sequence of bytes that need not be
  valid UTF-8. Where the bytes matter, in the JSON encoding of the name of a
  record, a string is read one character per byte (`stringOfBytes`,
  `bytesOfString`), and `jsonString` is what `encoding/json` makes of it.
* `RunWalletGenAddress` and the domain commands of `commands/domains.go` are
  embedded with the remote service as the source of the errors of its calls.
-/

namespace Ankrctl

/-! ## Shuffle -/

/-- The random source `r`: the `i`-th call `r.Intn(m)` of a run returns
`r i % m`, so every value of `[0, m)` is possible at every call. -/
abbrev Rand := Nat → Nat

/-- The effect of `slice = append(slice[:k], slice[k+1:]...)` on the backing
array `arr` of a slice of length `len`: the elements at `k+1 .. len-1` are
copied down to `k .. len-2`; position `len-1` and everything above keep
their old contents. -/
def removeAt (arr : List String) (len k : Nat) : List String :=
  arr.take k ++ (arr.drop (k + 1)).take (len - (k + 1)) ++ arr.drop (len - 1)

/-- The loop `for i := 0; i < n; i++` of `Shuffle`, with `todo = n - i`
iterations left. `arr` is the backing array of `slice`, `len` its current
length, `ret` the result array. `none` is a run-time panic
(`r.Intn` of a non-positive bound, or an index out of range). -/
def shuffleLoop (r : Rand) : Nat → Nat → List String → Nat → List String →
    Option (List String × List String)
  | 0, _, arr, _, ret => some (ret, arr)
  | todo + 1, i, arr, len, ret =>
    if len = 0 then none
    else
      let randIndex := r i % len
      if randIndex < len ∧ i < ret.length then
        match arr[randIndex]? with
        | none => none
        | some v => shuffleLoop r todo (i + 1) (removeAt arr len randIndex) (len - 1) (ret.set i v)
      else none

/-- The function `Shuffle(slice []string) []string`. The first component is
the returned slice `ret`, the second the contents of the caller's array
(seen through the caller's slice) when `Shuffle` returns. -/
def Shuffle (r : Rand) (slice : List String) : Option (List String × List String) :=
  shuffleLoop r slice.length 0 slice slice.length (List.replicate slice.length "")

/-- The random source that answers the `i`-th call with `ds[i]`. -/
def drawsOf (ds : List Nat) : Rand := fun i => ds.getD i 0

/-- Admissible draws for a slice of `n` elements: the `i`-th draw lies in
`[0, n - i)`. -/
def Admissible : Nat → List Nat → Prop
  | 0, ds => ds = []
  | _ + 1, [] => False
  | n + 1, d :: ds => d < n + 1 ∧ Admissible n ds

instance : (n : Nat) → (ds : List Nat) → Decidable (Admissible n ds)
  | 0, ds => by unfold Admissible; exact inferInstance
  | _ + 1, [] => by unfold Admissible; exact inferInstance
  | n + 1, d :: ds => by
    unfold Admissible
    exact @instDecidableAnd _ _ _ (instDecidableAdmissible n ds)

/-- Functional reading of the loop of `Shuffle`: draw an index of the remaining list,
emit the element there, continue on the list without it. -/
def pick (r : Rand) : Nat → Nat → List String → List String
  | 0, _, _ => []
  | t + 1, i, l =>
    match l[r i % l.length]? with
    | some v => v :: pick r t (i + 1) (l.eraseIdx (r i % l.length))
    | none => []

/-! ## Endpoint selection -/

/-- Outcome of `http.Get`: a transport error, or a response with a status. -/
inductive ProbeResult where
  | transportError
  | status (code : Nat)
  deriving DecidableEq

/-- The test `err == nil && rsp.StatusCode == 200`. -/
def probeOk : ProbeResult → Bool
  | .status code => code == 200
  | .transportError => false

/-- The probed address `url + ":" + tendermintPort + "/net_info"`. -/
def netinfoURL (port url : String) : String := url ++ ":" ++ port ++ "/net_info"

/-- The loop `for _, url := range randomUrls` of the selection: `cur` is
the current value of `tendermintURL`, `log` the addresses probed so far. -/
def probeLoop (get : String → ProbeResult) (port : String) :
    List String → String → List String → String × List String
  | [], cur, log => (cur, log)
  | url :: rest, cur, log =>
    if probeOk (get (netinfoURL port url)) then (url, log ++ [netinfoURL port url])
    else probeLoop get port rest cur (log ++ [netinfoURL port url])

/-- The endpoint selection of `RunWalletSendCoins` and `RunWalletGetbalance`
on the candidate list `urls`: the selected `tendermintURL` and the list of
probed addresses, in order. `none` is a panic. -/
def selectEndpoint (r : Rand) (get : String → ProbeResult) (port : String)
    (urls : List String) : Option (String × List String) :=
  match Shuffle r urls with
  | none => none
  | some (randomUrls, _) =>
    match randomUrls with
    | [] => none
    | u0 :: _ => some (probeLoop get port randomUrls u0 [])

/-- A candidate is live when its probe succeeds. -/
def live (get : String → ProbeResult) (port url : String) : Bool :=
  probeOk (get (netinfoURL port url))

/-! ## Keystore records and the home directory -/

/-- File contents. -/
abbrev Bytes := List Nat

/-- Modelled from the spec: the type of the field `Crypto` of a keystore record
(the result type of `EncryptDataV3`), whose declaration is not in `wallet.go`:
cipher name, cipher text and iv, kdf name, salt, cost parameters and derived key
length, and the mac. -/
structure CryptoJSON where
  cipher : String
  cipherText : Bytes
  iv : Bytes
  kdf : String
  salt : Bytes
  costN : Nat
  costR : Nat
  costP : Nat
  dkLen : Nat
  mac : Bytes
  deriving DecidableEq

/-- The record type `EncryptedKeyJSONV3`, with the fields `wallet.go` uses. -/
structure EncryptedKeyJSONV3 where
  Name : String
  Address : String
  PublicKey : String
  Crypto : CryptoJSON
  KeyJSONVersion : Nat
  deriving DecidableEq

/-- The entry type `displayers.KeyStore` of the key list, with the fields
`RunWalletKeylist` fills. -/
structure KeyStore where
  Name : String
  Address : String
  PublicKey : String
  deriving DecidableEq

/-- What `wallet.go` uses and does not define: the JSON codec of
`EncryptedKeyJSONV3` (`json.Marshal`, and `json.Unmarshal` into a fresh record),
`DecryptDataV3`, the constant `keyJSONVersion` and the value of `configHome()`. -/
structure Ext where
  Marshal : EncryptedKeyJSONV3 → Except String Bytes
  Unmarshal : Bytes → Except String EncryptedKeyJSONV3
  DecryptDataV3 : CryptoJSON → String → Except String Bytes
  keyJSONVersion : Nat
  configHome : String

instance instDecidableEqExcept {ε α : Type} [DecidableEq ε] [DecidableEq α] :
    DecidableEq (Except ε α)
  | .ok a, .ok b =>
    if h : a = b then isTrue (congrArg Except.ok h)
    else isFalse (fun h' => h (Except.ok.inj h'))
  | .error a, .error b =>
    if h : a = b then isTrue (congrArg Except.error h)
    else isFalse (fun h' => h (Except.error.inj h'))
  | .ok _, .error _ => isFalse (fun h => Except.noConfusion h)
  | .error _, .ok _ => isFalse (fun h => Except.noConfusion h)

/-- A directory entry: its name and what `ioutil.ReadFile` returns for it (an
error for an entry that cannot be read, such as a subdirectory). -/
structure File where
  name : String
  content : Except String Bytes
  deriving DecidableEq

/-- The home directory as `ioutil.ReadDir(configHome())` lists it (sorted by file
name). The commands are embedded on a home directory that can be listed. -/
abbrev Dir := List File

/-- The test `filepath.Match("UTC*", f.Name())`. The pattern is well formed, so
the error result is always nil; a directory entry name holds no path separator,
so `*` matches whatever follows the three letters. -/
def matchUTC (name : String) : Bool := "UTC".toList.isPrefixOf name.toList

/-- Lexicographic order on character codes. -/
def ltCodes : List Nat → List Nat → Bool
  | _, [] => false
  | [], _ :: _ => true
  | a :: as, b :: bs => a < b || (a == b && ltCodes as bs)

/-- The order in which `ioutil.ReadDir` sorts file names. -/
def nameLt (a b : String) : Bool :=
  ltCodes (a.toList.map Char.toNat) (b.toList.map Char.toNat)

/-- Modelled from the spec: `KeyFileWriter(name)` followed by a `Write` of
`content` (the function `KeyFileWriter` is not in `wallet.go`): the file of that
name under the home directory is created, or replaced when it exists. -/
def putFile (name : String) (content : Bytes) : Dir → Dir
  | [] => [⟨name, .ok content⟩]
  | g :: gs =>
    if g.name = name then ⟨name, .ok content⟩ :: gs
    else if nameLt name g.name then ⟨name, .ok content⟩ :: g :: gs
    else g :: putFile name content gs

/-- The call `os.Remove(path + name)` when it succeeds. -/
def removeFile (name : String) (d : Dir) : Dir := d.eraseP (fun f => f.name == name)

/-- The command configuration `c`: arguments and namespace. -/
structure CmdConfig where
  Args : List String
  NS : String

/-- Errors returned by a command. -/
inductive CmdErr where
  | missingArgs (ns : String)
  | flag (msg : String)
  | display (msg : String)
  deriving DecidableEq

/-- What a command does to the outside world, in order. -/
inductive Event where
  | stderr (msg : String)
  | stdout (msg : String)
  | askForConfirm (prompt : String)
  | readPassword
  | genAccount
  | encryptDataV3 (data password : String)
  | keyFileWriter (name : String)
  | write (name : String) (data : Bytes)
  | osRemove (path : String)
  | display (keys : List KeyStore)
  deriving DecidableEq

/-- What the outside world answers during one run of a command. -/
structure Env where
  /-- Whether `AskForConfirm(...)` returned nil. -/
  confirm : Bool
  /-- The private key and address returned by `GenAccount()`. -/
  account : String × String
  /-- The first `terminal.ReadPassword` of the run. -/
  password : Except String String
  /-- The second `terminal.ReadPassword` of the run. -/
  confirmPassword : Except String String
  /-- The result of `EncryptDataV3(...)`, which draws a fresh salt and iv. -/
  encrypted : Except String CryptoJSON
  /-- The value of `toISO8601(time.Now().UTC())`. -/
  now : String
  /-- The error of `KeyFileWriter(...)`, or nil. -/
  create : Except String Unit
  /-- The outcome of `kfw.Write(...)`: `none` when all bytes are written, `some k`
  when it fails after `k` bytes (fewer than all). -/
  writeFail : Option Nat
  /-- The result of `c.Ankr.GetString(c.NS, types.ArgKeyFileSlug)`. -/
  keyFileFlag : Except String String
  /-- The result of `ioutil.ReadFile(ks)` on the key file to import. -/
  keyFile : Except String Bytes
  /-- The error of `os.Remove(...)`, or nil. -/
  remove : Except String Unit
  /-- The error of `c.Display(item)`, or nil. -/
  displayErr : Option String

/-- Result of a command: the home directory afterwards, the events, and the
returned error (`none` is nil). -/
structure Result where
  dir : Dir
  trace : List Event
  err : Option CmdErr

/-- The line `fmt.Fprintf(os.Stderr, "\nERROR: %s\n", msg)`. -/
def errorLine (msg : String) : Event := .stderr ("\nERROR: " ++ msg ++ "\n")

/-- Outcome of the scan `for _, f := range files` that looks for a record of a
given name. -/
inductive Scan where
  | readErr (msg : String)
  | decodeErr (msg : String)
  | found (f : File) (key : EncryptedKeyJSONV3)
  | absent
  deriving DecidableEq

/-- The scan loop shared by `RunWalletGenkey`, `RunWalletImportkey` and
`RunWalletDeletekey`: entries are visited in order; an entry matching `UTC*` is
read and decoded, a failure of either ends the command, and the first record
whose `Name` equals `name` ends the scan. -/
def scanName (x : Ext) (name : String) : Dir → Scan
  | [] => .absent
  | f :: fs =>
    if matchUTC f.name then
      match f.content with
      | .error e => .readErr e
      | .ok kf =>
        match x.Unmarshal kf with
        | .error e => .decodeErr e
        | .ok key => if key.Name = name then .found f key else scanName x name fs
    else scanName x name fs

/-- The bytes left in the file by `kfw.Write(jsonKey)`. -/
def written (env : Env) (jsonKey : Bytes) : Bytes :=
  match env.writeFail with
  | none => jsonKey
  | some k => jsonKey.take (min k (jsonKey.length - 1))

/-- The confirmation prompt of `RunWalletGenkey`. -/
def genkeyPrompt : String :=
  "please record and backup keystore once it is generated, we don’t store your private key! \n\t type \x27yes\x27 to confirm that you understood the result of this action: "

/-- The part of `RunWalletGenkey` after the scan found no record of the name. -/
def genkeyCreate (x : Ext) (env : Env) (name : String) (d : Dir) : Result :=
  let t0 := [Event.askForConfirm genkeyPrompt]
  if env.confirm then
    let t1 := t0 ++ [.stdout "\ngenerating keys...\n", .genAccount]
    let privateKey := env.account.1
    let address := env.account.2
    if privateKey = "" ∨ address = "" then
      ⟨d, t1 ++ [.stderr "generated keys error: got empty secrets"], none⟩
    else
      let t2 := t1 ++ [.stdout ("private key:  " ++ privateKey ++ " \naddress:  " ++ address ++ "\n"),
        .stdout "\nabout to export to keystore...\nplease input the keystore encryption password: ",
        .readPassword]
      match env.password with
      | .error e => ⟨d, t2 ++ [errorLine e], none⟩
      | .ok password =>
        let t3 := t2 ++ [.stdout "\nplease input password again: ", .readPassword]
        match env.confirmPassword with
        | .error e => ⟨d, t3 ++ [errorLine e], none⟩
        | .ok confirmPassword =>
          if password ≠ confirmPassword then
            ⟨d, t3 ++ [errorLine "password and confirm password not match"], none⟩
          else
            let t4 := t3 ++ [.encryptDataV3 privateKey password]
            match env.encrypted with
            | .error e => ⟨d, t4 ++ [errorLine e], none⟩
            | .ok cryptoStruct =>
              let encryptedKeyJSONV3 : EncryptedKeyJSONV3 :=
                { Name := name, Address := address, PublicKey := "",
                  Crypto := cryptoStruct, KeyJSONVersion := x.keyJSONVersion }
              match x.Marshal encryptedKeyJSONV3 with
              | .error e => ⟨d, t4 ++ [errorLine e], none⟩
              | .ok jsonKey =>
                let file := "UTC--" ++ env.now ++ "--" ++ address
                let t5 := t4 ++ [.stdout "\n\nexporting to keystore...\n", .keyFileWriter file]
                match env.create with
                | .error e => ⟨d, t5 ++ [errorLine e], none⟩
                | .ok _ =>
                  let created := .stderr ("\ncreated keystore: " ++ x.configHome ++ "/" ++ file ++ "\n\n")
                  let t6 := t5 ++ [.write file jsonKey]
                  match env.writeFail with
                  | some _ =>
                    ⟨putFile file (written env jsonKey) d,
                      t6 ++ [errorLine "unable to write keystore", created], none⟩
                  | none => ⟨putFile file (written env jsonKey) d, t6 ++ [created], none⟩
  else ⟨d, t0, none⟩

/-- The command `RunWalletGenkey(c)` on the home directory `d`. -/
def RunWalletGenkey (x : Ext) (env : Env) (c : CmdConfig) (d : Dir) : Result :=
  match c.Args with
  | [] => ⟨d, [], some (.missingArgs c.NS)⟩
  | name :: _ =>
    match scanName x name d with
    | .readErr e => ⟨d, [errorLine e], none⟩
    | .decodeErr e => ⟨d, [errorLine e], none⟩
    | .found _ _ => ⟨d, [errorLine "key name already exists"], none⟩
    | .absent => genkeyCreate x env name d

/-- The part of `RunWalletImportkey` after the scan found no record of the name:
`key` is the record decoded from the key file. -/
def importkeyCreate (x : Ext) (env : Env) (name : String) (key : EncryptedKeyJSONV3)
    (d : Dir) : Result :=
  let t0 := [Event.stdout "please input the keystore password: ", .readPassword]
  match env.password with
  | .error e => ⟨d, t0 ++ [errorLine e], none⟩
  | .ok password =>
    match x.DecryptDataV3 key.Crypto password with
    | .error e => ⟨d, t0 ++ [errorLine e], none⟩
    | .ok _ =>
      let key := { key with Name := name }
      match x.Marshal key with
      | .error e => ⟨d, t0 ++ [errorLine e], none⟩
      | .ok jsonKey =>
        let file := "UTC--" ++ env.now ++ "--" ++ key.Address
        let t1 := t0 ++ [.keyFileWriter file]
        match env.create with
        | .error e => ⟨d, t1 ++ [errorLine e], none⟩
        | .ok _ =>
          let t2 := t1 ++ [.write file jsonKey]
          match env.writeFail with
          | some _ =>
            ⟨putFile file (written env jsonKey) d,
              t2 ++ [errorLine "unable to write keystore"], none⟩
          | none =>
            ⟨putFile file (written env jsonKey) d,
              t2 ++ [.stdout ("\nkeystore imported: " ++ x.configHome ++ "/" ++ file ++ "\n\n")],
              none⟩

/-- The command `RunWalletImportkey(c)` on the home directory `d`. -/
def RunWalletImportkey (x : Ext) (env : Env) (c : CmdConfig) (d : Dir) : Result :=
  match c.Args with
  | [] => ⟨d, [], some (.missingArgs c.NS)⟩
  | name :: _ =>
    match env.keyFileFlag with
    | .error e => ⟨d, [], some (.flag e)⟩
    | .ok _ =>
      match env.keyFile with
      | .error e => ⟨d, [errorLine e], none⟩
      | .ok kf =>
        match x.Unmarshal kf with
        | .error e => ⟨d, [errorLine e], none⟩
        | .ok key =>
          match scanName x name d with
          | .readErr e => ⟨d, [errorLine e], none⟩
          | .decodeErr e => ⟨d, [errorLine e], none⟩
          | .found _ ks =>
            ⟨d, [.stderr ("\nERROR: key \x27" ++ ks.Name ++ "\x27 already exists.\n")], none⟩
          | .absent => importkeyCreate x env name key d

/-- The command `RunWalletDeletekey(c)` on the home directory `d`. -/
def RunWalletDeletekey (x : Ext) (env : Env) (c : CmdConfig) (d : Dir) : Result :=
  match c.Args with
  | [] => ⟨d, [], some (.missingArgs c.NS)⟩
  | name :: _ =>
    let t0 := [Event.askForConfirm ("about to delete keystore \x27" ++ name
      ++ "\x27, type \x27yes\x27 to confirm, \x27no\x27 to cancel: ")]
    if env.confirm then
      match scanName x name d with
      | .readErr e => ⟨d, t0 ++ [errorLine e], none⟩
      | .decodeErr e => ⟨d, t0 ++ [errorLine e], none⟩
      | .found f _ =>
        let t1 := t0 ++ [.osRemove (x.configHome ++ "/" ++ f.name)]
        match env.remove with
        | .error e => ⟨d, t1 ++ [errorLine e], none⟩
        | .ok _ =>
          ⟨removeFile f.name d, t1 ++ [.stderr ("\nkeystore \x27" ++ name ++ "\x27 deleted\n")], none⟩
      | .absent =>
        ⟨d, t0 ++ [.stderr ("\nERROR: no keystore found with name \x27" ++ name ++ "\x27\n")], none⟩
    else ⟨d, t0, none⟩

/-- The loop of `RunWalletKeylist`: `keylist` is the list built so far; the
result is the final list or the error that ended the command. -/
def keylistLoop (x : Ext) : Dir → List KeyStore → Except String (List KeyStore)
  | [], keylist => .ok keylist
  | f :: fs, keylist =>
    if matchUTC f.name then
      match f.content with
      | .error e => .error e
      | .ok kf =>
        match x.Unmarshal kf with
        | .error e => .error e
        | .ok key =>
          keylistLoop x fs (keylist ++ [⟨key.Name, key.Address, key.PublicKey⟩])
    else keylistLoop x fs keylist

/-- The command `RunWalletKeylist(c)` on the home directory `d`. -/
def RunWalletKeylist (x : Ext) (env : Env) (d : Dir) : Result :=
  match keylistLoop x d [] with
  | .error e => ⟨d, [errorLine e], none⟩
  | .ok keylist => ⟨d, [.display keylist], env.displayErr.map CmdErr.display⟩

/-- A call of one of the three commands that change the keystore. -/
inductive Call where
  | genkey (env : Env) (c : CmdConfig)
  | importkey (env : Env) (c : CmdConfig)
  | deletekey (env : Env) (c : CmdConfig)

/-- The home directory after a call. -/
def Call.run (x : Ext) (d : Dir) : Call → Dir
  | .genkey env c => (RunWalletGenkey x env c d).dir
  | .importkey env c => (RunWalletImportkey x env c d).dir
  | .deletekey env c => (RunWalletDeletekey x env c d).dir

/-- The home directory after a sequence of calls. -/
def runCalls (x : Ext) (d : Dir) (calls : List Call) : Dir :=
  calls.foldl (Call.run x) d

/-- The record stored in a directory entry, when the entry matches `UTC*`, can
be read and decodes. -/
def recordOf (x : Ext) (f : File) : Option EncryptedKeyJSONV3 :=
  if matchUTC f.name then
    match f.content with
    | .error _ => none
    | .ok kf =>
      match x.Unmarshal kf with
      | .error _ => none
      | .ok key => some key
  else none

/-- The records of the keystore directory, in directory order. -/
def records (x : Ext) (d : Dir) : List EncryptedKeyJSONV3 := d.filterMap (recordOf x)

/-- No two records of the directory have the same name. -/
def UniqueNames (x : Ext) (d : Dir) : Prop := ((records x d).map (·.Name)).Nodup

/-- The entry holds a record of the given name. -/
def isNamed (x : Ext) (name : String) (f : File) : Bool :=
  match recordOf x f with
  | some key => key.Name == name
  | none => false

/-- The entry does not stop a scan: it does not match `UTC*`, or it can be read
and decodes. -/
def scannable (x : Ext) (f : File) : Bool := !matchUTC f.name || (recordOf x f).isSome

/-- Decoding an encoded record gives a record of the same name, whatever the name.
`encoding/json` does not have this property: see `Ext.Keeps` for the property of
one name and `jsonString` for what becomes of a name that is not valid UTF-8. -/
def Ext.KeepsName (x : Ext) : Prop :=
  ∀ r b, x.Marshal r = .ok b → ∃ r', x.Unmarshal b = .ok r' ∧ r'.Name = r.Name

/-- A truncated encoding does not decode. -/
def Ext.TruncationFails (x : Ext) : Prop :=
  ∀ r b k, x.Marshal r = .ok b → ∃ e, x.Unmarshal (b.take (min k (b.length - 1))) = .error e

/-- A codec for examples: a record is encoded as the lengths of its name and address
followed by their characters and a closing 0; decoding fails unless the lengths
fit. -/
def demoExt : Ext where
  Marshal r := .ok (r.Name.toList.length :: r.Address.toList.length
    :: (r.Name.toList.map Char.toNat ++ r.Address.toList.map Char.toNat ++ [0]))
  Unmarshal b :=
    match b with
    | n :: m :: rest =>
      if rest.length = n + m + 1 then
        .ok { Name := String.mk ((rest.take n).map Char.ofNat),
              Address := String.mk (((rest.drop n).take m).map Char.ofNat),
              PublicKey := "",
              Crypto := ⟨"", [], [], "", [], 0, 0, 0, 0, []⟩,
              KeyJSONVersion := 3 }
      else .error "unexpected end of JSON input"
    | _ => .error "unexpected end of JSON input"
  DecryptDataV3 c password :=
    if c.mac = password.toList.map Char.toNat then .ok c.cipherText
    else .error "could not decrypt key with given passphrase"
  keyJSONVersion := 3
  configHome := "/home/u/.ankr"

/-- An environment for examples: the user confirms and types the password `pw`,
and nothing fails. -/
def demoEnv : Env where
  confirm := true
  account := ("k1", "A1")
  password := .ok "pw"
  confirmPassword := .ok "pw"
  encrypted := .ok ⟨"aes-128-ctr", [7], [1], "scrypt", [2], 262144, 8, 1, 32, [112, 119]⟩
  now := "2020-01-01T00-00-00Z"
  create := .ok ()
  writeFail := none
  keyFileFlag := .ok "key.json"
  keyFile := .ok [3, 2, 98, 111, 98, 65, 49, 0]
  remove := .ok ()
  displayErr := none

/-- A directory for examples: the records al and bob, and a file that does not
match `UTC*`. -/
def demoDir : Dir :=
  [⟨"UTC--2018--A9", .ok [2, 2, 97, 108, 65, 57, 0]⟩,
    ⟨"UTC--2019--A0", .ok [3, 2, 98, 111, 98, 65, 48, 0]⟩,
    ⟨"notes.txt", .ok [1]⟩]

/-! ## Transfers: `RunWalletSendCoins` -/

/-- The value of a decimal digit. -/
def digitVal (c : Char) : Option Nat :=
  if 48 ≤ c.toNat ∧ c.toNat ≤ 57 then some (c.toNat - 48) else none

/-- Reads a run of decimal digits that must reach the end of the input. -/
def scanDigits : List Char → Nat → Option Nat
  | [], acc => some acc
  | c :: cs, acc =>
    match digitVal c with
    | some v => scanDigits cs (acc * 10 + v)
    | none => none

/-- The call `new(big.Int).SetString(s, 10)`: an optional sign, then at least one
decimal digit, up to the end of the string; `none` is `ok == false`. -/
def SetString10 (s : String) : Option Int :=
  match s.toList with
  | [] => none
  | c :: cs =>
    if c = '-' then
      if cs = [] then none else (scanDigits cs 0).map (fun n => -(n : Int))
    else if c = '+' then
      if cs = [] then none else (scanDigits cs 0).map (fun n => (n : Int))
    else (scanDigits (c :: cs) 0).map (fun n => (n : Int))

/-- Big-endian base-256 digits of `n`, most significant first, in front of `acc`. -/
def bytesAux : Nat → Nat → Bytes → Bytes
  | 0, _, acc => acc
  | fuel + 1, n, acc => if n = 0 then acc else bytesAux fuel (n / 256) (n % 256 :: acc)

/-- The method `(*big.Int).Bytes()`: the big-endian bytes of the absolute value. -/
def bigBytes (z : Int) : Bytes := bytesAux z.natAbs z.natAbs []

/-- Splits at every semicolon; `cur` holds the characters of the current piece,
last first. -/
def splitSemi : List Char → List Char → List String
  | [], cur => [String.mk cur.reverse]
  | c :: cs, cur =>
    if c = ';' then String.mk cur.reverse :: splitSemi cs [] else splitSemi cs (c :: cur)

/-- The call `strings.Split(s, ";")`. -/
def Split (s : String) : List String := splitSemi s.toList []

/-- The type `common.Currency`. -/
structure Currency where
  Symbol : String
  Decimal : Nat
  deriving DecidableEq

/-- The type `common.Amount`. -/
structure Amount where
  Cur : Currency
  Value : Bytes
  deriving DecidableEq

/-- The type `client.TxMsgHeader`, with the fields `RunWalletSendCoins` sets. -/
structure TxMsgHeader where
  ChID : String
  GasLimit : Bytes
  GasPrice : Amount
  Memo : String
  Version : String
  deriving DecidableEq

/-- The type `token.TransferMsg`. -/
structure TransferMsg where
  FromAddr : String
  ToAddr : String
  Amounts : List Amount
  deriving DecidableEq

/-- The package variable `ankrChainId`. -/
def ankrChainId : String := "ankr-chain"

/-- The package variable `ankrCurrency`. -/
def ankrCurrency : Currency := ⟨"ANKR", 18⟩

/-- The package variable `ankrGasLimit`. -/
def ankrGasLimit : Int := 20000

/-- The initial value of the package variable `tendermintURL`. -/
def defaultTendermintURL : String :=
  "https://chain-01.dccn.ankr.com;https://chain-02.dccn.ankr.com;https://chain-03.dccn.ankr.com"

/-- What `RunWalletSendCoins` does to the outside world, in order. -/
inductive SendEvent where
  | stderr (msg : String)
  | stdout (msg : String)
  | readPassword
  | retrieveUserInput
  | askForConfirm (prompt : String)
  | httpGet (url : String)
  | buildAndCommit (node : String) (header : TxMsgHeader) (msg : TransferMsg)
      (privateKey : String)
  | panic
  deriving DecidableEq

/-- What the outside world answers during one run of `RunWalletSendCoins`. -/
structure SendEnv where
  /-- The flag `types.ArgTargetAddressSlug`. -/
  target : Except String String
  /-- The flag `types.ArgTxAmount`. -/
  amount : Except String String
  /-- The flag `types.ArgTxVersion`. -/
  txVersion : Except String String
  /-- The flag `types.ArgTxMemo`. -/
  txMemo : Except String String
  /-- The flag `types.ArgGasPrice`. -/
  gasPrice : Except String String
  /-- The flag `types.ArgKeyFileSlug`. -/
  keystore : Except String String
  /-- The result of `ioutil.ReadFile` on a path outside the scan. -/
  readFile : String → Except String Bytes
  /-- The result of `terminal.ReadPassword`. -/
  password : Except String String
  /-- The first `retrieveUserInput()`: the address. -/
  inputAddress : Except String String
  /-- The second `retrieveUserInput()`: the private key. -/
  inputPrivateKey : Except String String
  /-- Whether `AskForConfirm(...)` returned nil. -/
  confirm : Bool
  /-- The random source of `Shuffle`. -/
  rand : Rand
  /-- The HTTP client: the outcome of `http.Get` on an address. -/
  get : String → ProbeResult
  /-- The package variable `tendermintURL` when the command starts. -/
  tendermintURL : String
  /-- The package variable `tendermintPort` when the command starts. -/
  tendermintPort : String
  /-- The result of `builder.BuildAndCommit(cl)`: hash and height, or the error. -/
  commit : Except String (String × Int)

/-- Result of `RunWalletSendCoins`: the events and the returned error. -/
structure SendResult where
  trace : List SendEvent
  err : Option CmdErr

/-- The line `fmt.Fprintf(os.Stderr, "\nERROR: %s\n", msg)` of a transfer. -/
def sendErrorLine (msg : String) : SendEvent := .stderr ("\nERROR: " ++ msg ++ "\n")

/-- The conversion `string(b)` of a byte slice. -/
def stringOfBytes (b : Bytes) : String := String.mk (b.map Char.ofNat)

/-- The keystore lookup of `RunWalletSendCoins`: `ksf` starts as the value of the
key file flag; the scan replaces it by the path of the first entry holding a
record of that name; then the file at `ksf` is read and decoded. The error is the
message that the command prints before it returns. -/
def loadKeystore (x : Ext) (readFile : String → Except String Bytes) (keystore : String)
    (d : Dir) : Except String EncryptedKeyJSONV3 :=
  match scanName x keystore d with
  | .readErr e => .error e
  | .decodeErr e => .error e
  | .found f _ =>
    match f.content with
    | .error e => .error e
    | .ok ks => x.Unmarshal ks
  | .absent =>
    match readFile keystore with
    | .error e => .error e
    | .ok ks => x.Unmarshal ks

/-- The events of the probing loop: one `http.Get` per probed address. -/
def probeEvents (probed : List String) : List SendEvent := probed.map SendEvent.httpGet

/-- The value of `tendermintURL` after the test `len(tendermintURL) == 0`. -/
def effectiveURL (env : SendEnv) : String :=
  if env.tendermintURL.length = 0 then defaultTendermintURL else env.tendermintURL

/-- The value of `tendermintPort` after the test `len(tendermintPort) == 0`. -/
def effectivePort (env : SendEnv) : String :=
  if env.tendermintPort.length = 0 then "443" else env.tendermintPort

/-- The header `txMsgHeader` filled by `RunWalletSendCoins`. -/
def headerOf (txVersion txMemo : String) (gasPriceInt : Int) : TxMsgHeader :=
  { ChID := ankrChainId, GasLimit := bigBytes ankrGasLimit,
    GasPrice := ⟨ankrCurrency, bigBytes gasPriceInt⟩,
    Memo := txMemo, Version := txVersion }

/-- The message `transferMsg` filled by `RunWalletSendCoins`. -/
def messageOf (txSymbol address target : String) (tokenAmount : Int) : TransferMsg :=
  { FromAddr := address, ToAddr := target,
    Amounts := [⟨⟨txSymbol, 0⟩, bigBytes tokenAmount⟩] }

/-- The part of `RunWalletSendCoins` from the confirmation on: endpoint selection,
then header, message and `BuildAndCommit`. `t` holds the events so far. -/
def sendSubmit (env : SendEnv) (txSymbol target txVersion txMemo : String)
    (tokenAmount gasPriceInt : Int) (address privateKey : String)
    (t : List SendEvent) : SendResult :=
  let t0 := t ++ [.stdout "\n", .askForConfirm ("about to send " ++ txSymbol
    ++ " tokens from address \x27" ++ address ++ "\x27 to address \x27" ++ target
    ++ "\x27, type \x27yes\x27 to confirm this action: ")]
  if env.confirm then
    match selectEndpoint env.rand env.get (effectivePort env) (Split (effectiveURL env)) with
    | none => ⟨t0 ++ [.panic], none⟩
    | some (url, probed) =>
      let t1 := t0 ++ probeEvents probed ++ [.stderr ("\nsending " ++ toString tokenAmount
        ++ " " ++ txSymbol ++ " from address \x27" ++ address ++ "\x27 to address \x27"
        ++ target ++ "\x27\n")]
      let t2 := t1 ++ [.buildAndCommit (url ++ ":" ++ effectivePort env)
        (headerOf txVersion txMemo gasPriceInt)
        (messageOf txSymbol address target tokenAmount) privateKey]
      match env.commit with
      | .error e => ⟨t2 ++ [sendErrorLine e], none⟩
      | .ok (txHash, txHeight) =>
        ⟨t2 ++ [.stderr "\nTransaction commit success.",
          .stderr ("\ntx hash: " ++ txHash ++ "\n"),
          .stderr ("\ntx height: " ++ toString txHeight ++ "\n")], none⟩
  else ⟨t0, none⟩

/-- The part of `RunWalletSendCoins` after the record `key` is loaded: password,
decryption, the manual entry of address and private key when either is empty. -/
def sendWithKey (x : Ext) (env : SendEnv) (txSymbol target txVersion txMemo : String)
    (tokenAmount gasPriceInt : Int) (key : EncryptedKeyJSONV3) : SendResult :=
  let address := key.Address
  let t0 := [SendEvent.stdout "please input the keystore password: ", .readPassword]
  match env.password with
  | .error e => ⟨t0 ++ [sendErrorLine e], none⟩
  | .ok password =>
    match x.DecryptDataV3 key.Crypto password with
    | .error e => ⟨t0 ++ [sendErrorLine e], none⟩
    | .ok privateKeyDecrypt =>
      let privateKey := stringOfBytes privateKeyDecrypt
      if address.length = 0 ∨ privateKey.length = 0 then
        let t1 := t0 ++ [.stdout "\nno key found, please sign this transaction with your wallet address and private key\n",
          .stdout "\naddress: ", .retrieveUserInput]
        match env.inputAddress with
        | .error e => ⟨t1 ++ [sendErrorLine e], none⟩
        | .ok address =>
          let t2 := t1 ++ [.stdout "\nprivate key: ", .retrieveUserInput]
          match env.inputPrivateKey with
          | .error e => ⟨t2 ++ [sendErrorLine e], none⟩
          | .ok privateKey =>
            let t3 := t2 ++ [.stdout "\n"]
            if address.length = 0 ∨ privateKey.length = 0 then
              ⟨t3 ++ [sendErrorLine "empty wallet address or private key"], none⟩
            else
              sendSubmit env txSymbol target txVersion txMemo tokenAmount gasPriceInt
                address privateKey t3
      else
        sendSubmit env txSymbol target txVersion txMemo tokenAmount gasPriceInt
          address privateKey (t0 ++ [.stdout "\n"])

/-- The command `RunWalletSendCoins(c)` on the home directory `d`. -/
def RunWalletSendCoins (x : Ext) (env : SendEnv) (c : CmdConfig) (d : Dir) : SendResult :=
  match c.Args with
  | [] => ⟨[], some (.missingArgs c.NS)⟩
  | txSymbol :: _ =>
    match env.target with
    | .error e => ⟨[], some (.flag e)⟩
    | .ok target =>
      match env.amount with
      | .error e => ⟨[], some (.flag e)⟩
      | .ok amount =>
        match SetString10 amount with
        | none =>
          ⟨[.stderr ("\nERROR: can not parsing amount \x27" ++ amount ++ "\x27\n")], none⟩
        | some tokenAmount =>
          match env.txVersion with
          | .error e => ⟨[sendErrorLine e], none⟩
          | .ok txVersion =>
            match env.txMemo with
            | .error e => ⟨[sendErrorLine e], none⟩
            | .ok txMemo =>
              match env.gasPrice with
              | .error e => ⟨[sendErrorLine e], none⟩
              | .ok txGasPrice =>
                match SetString10 txGasPrice with
                | none =>
                  ⟨[.stderr ("\nERROR: can not parsing amount \x27" ++ amount ++ "\x27\n")],
                    none⟩
                | some gasPriceInt =>
                  match env.keystore with
                  | .error e => ⟨[sendErrorLine e], none⟩
                  | .ok keystore =>
                    match loadKeystore x env.readFile keystore d with
                    | .error e => ⟨[sendErrorLine e], none⟩
                    | .ok key =>
                      sendWithKey x env txSymbol target txVersion txMemo tokenAmount
                        gasPriceInt key

/-- The submissions of a run: its `BuildAndCommit` events. -/
def commits (t : List SendEvent) : List SendEvent :=
  t.filter (fun e => match e with | .buildAndCommit _ _ _ _ => true | _ => false)

/-- The probes of a run: its `http.Get` events. -/
def probes (t : List SendEvent) : List SendEvent :=
  t.filter (fun e => match e with | .httpGet _ => true | _ => false)

/-- The result `res` of a run that went through every stage: flags read, amount
and gas price parsed, record loaded and decrypted, address and private key
non-empty (those of the record, or those typed by the user when one of the
record's is empty), confirmation given; its probes are those of the selection and
its one submission carries the header and message built from these values. -/
def SubmittedOnce (x : Ext) (env : SendEnv) (c : CmdConfig) (d : Dir) (res : SendResult) :
    Prop :=
  ∃ txSymbol rest target amount a txVersion txMemo gasPrice g keystore key pw pk
    address privateKey url probed,
    c.Args = txSymbol :: rest ∧ env.target = .ok target ∧ env.amount = .ok amount
    ∧ SetString10 amount = some a ∧ env.txVersion = .ok txVersion
    ∧ env.txMemo = .ok txMemo ∧ env.gasPrice = .ok gasPrice
    ∧ SetString10 gasPrice = some g ∧ env.keystore = .ok keystore
    ∧ loadKeystore x env.readFile keystore d = .ok key
    ∧ env.password = .ok pw ∧ x.DecryptDataV3 key.Crypto pw = .ok pk
    ∧ address.length ≠ 0 ∧ privateKey.length ≠ 0
    ∧ ((key.Address.length ≠ 0 ∧ (stringOfBytes pk).length ≠ 0
          ∧ address = key.Address ∧ privateKey = stringOfBytes pk)
        ∨ ((key.Address.length = 0 ∨ (stringOfBytes pk).length = 0)
          ∧ env.inputAddress = .ok address ∧ env.inputPrivateKey = .ok privateKey))
    ∧ env.confirm = true
    ∧ selectEndpoint env.rand env.get (effectivePort env) (Split (effectiveURL env))
        = some (url, probed)
    ∧ commits res.trace
        = [.buildAndCommit (url ++ ":" ++ effectivePort env) (headerOf txVersion txMemo g)
            (messageOf txSymbol address target a) privateKey]
    ∧ probes res.trace = probeEvents probed

/-- An environment for examples of transfers: 100 ANKR to the address B, the
keystore named bob, the password `pw`; of the three default endpoints only the
second answers 200. -/
def demoSendEnv : SendEnv where
  target := .ok "B"
  amount := .ok "100"
  txVersion := .ok "1.0"
  txMemo := .ok ""
  gasPrice := .ok "10000000000000000"
  keystore := .ok "bob"
  readFile := fun _ => .error "no such file or directory"
  password := .ok "pw"
  inputAddress := .ok "A7"
  inputPrivateKey := .ok "k7"
  confirm := true
  rand := drawsOf [0, 0, 0]
  get := fun u => if u = "https://chain-02.dccn.ankr.com:443/net_info" then .status 200
    else .transportError
  tendermintURL := ""
  tendermintPort := ""
  commit := .ok ("F00D", 7)

/-- A codec for examples of transfers: the codec `demoExt`, except that a decoded
record carries a crypto section that the password `pw` decrypts to the key `k1`. -/
def demoSendExt : Ext :=
  { demoExt with
    Unmarshal := fun b =>
      match demoExt.Unmarshal b with
      | .ok r =>
        .ok { r with Crypto := ⟨"aes-128-ctr", [107, 49], [1], "scrypt", [2], 262144, 8, 1, 32,
          [112, 119]⟩ }
      | .error e => .error e }

/-! ## Shuffle, instrumented -/

/-- The loop of `Shuffle` once more, recording for every iteration it enters the
index `i`, the bound passed to `r.Intn` and the length of `ret`, and, when the
bound is positive, the index drawn. -/
def shuffleTrace (r : Rand) : Nat → Nat → List String → Nat → List String →
    List (Nat × Nat × Nat × Option Nat)
  | 0, _, _, _, _ => []
  | todo + 1, i, arr, len, ret =>
    if len = 0 then [(i, len, ret.length, none)]
    else
      let randIndex := r i % len
      (i, len, ret.length, some randIndex) ::
        (if randIndex < len ∧ i < ret.length then
          match arr[randIndex]? with
          | none => []
          | some v =>
            shuffleTrace r todo (i + 1) (removeAt arr len randIndex) (len - 1) (ret.set i v)
        else [])

/-- The iterations of `Shuffle(slice)`. -/
def ShuffleTrace (r : Rand) (slice : List String) : List (Nat × Nat × Nat × Option Nat) :=
  shuffleTrace r slice.length 0 slice slice.length (List.replicate slice.length "")

/-! ## The password cipher -/

/-- Modelled from the spec: the primitives behind the password cipher of §4.2,
none of which is in `wallet.go`: the key derivation function on password, salt,
cost parameters N, r, p and key length; the keystream byte of the stream cipher
at a position under a key and an iv; the tag function; and the two names stored
in a record. -/
structure Primitives where
  kdf : String → Bytes → Nat → Nat → Nat → Nat → Bytes
  keystream : Bytes → Bytes → Nat → Nat
  tag : Bytes → Bytes → Bytes
  cipherName : String
  kdfName : String

/-- Modelled from the spec: cost parameters are structurally valid when they are
positive and N is a power of two. -/
def validCost (n r p : Nat) : Bool :=
  decide (0 < n) && (n &&& (n - 1) == 0) && decide (0 < r) && decide (0 < p)

/-- Modelled from the spec: `DeriveKey(password, salt, costParams)`, deterministic,
failing with `KDFError` on structurally invalid cost parameters. -/
def DeriveKey (P : Primitives) (password : String) (salt : Bytes) (n r p dkLen : Nat) :
    Except String Bytes :=
  if validCost n r p then .ok (P.kdf password salt n r p dkLen) else .error "KDFError"

/-- Modelled from the spec: the stream cipher from position `i` on: each byte is
combined with the keystream byte of its position. -/
def xorStream (P : Primitives) (key iv : Bytes) : Nat → Bytes → Bytes
  | _, [] => []
  | i, b :: bs => (b ^^^ P.keystream key iv i) :: xorStream P key iv (i + 1) bs

/-- Modelled from the spec: `Encrypt(plaintext, key, iv)`. -/
def Encrypt (P : Primitives) (plaintext key iv : Bytes) : Bytes := xorStream P key iv 0 plaintext

/-- Modelled from the spec: `ComputeMAC(secondaryKeyHalf, cipherText)`. -/
def ComputeMAC (P : Primitives) (secondaryKeyHalf cipherText : Bytes) : Bytes :=
  P.tag secondaryKeyHalf cipherText

/-- Modelled from the spec: `Decrypt(cipherText, key, iv, mac)` on the derived key
`key` of length `dkLen`: the tag is recomputed from the second half of the key and
compared with `mac` before anything is decrypted; on mismatch the result is
`IntegrityError` and no data. -/
def Decrypt (P : Primitives) (cipherText key iv mac : Bytes) (dkLen : Nat) :
    Except String Bytes :=
  if ComputeMAC P (key.drop (dkLen / 2)) cipherText = mac then
    .ok (xorStream P (key.take (dkLen / 2)) iv 0 cipherText)
  else .error "IntegrityError"

/-- Modelled from the spec: `EncryptDataV3(data, auth, scryptN, scryptP)`, which is
not in `wallet.go`, with the fresh salt and iv and the constants r and key length
as arguments: the key is derived, its first half encrypts the data, its second
half authenticates the cipher text. -/
def EncryptDataV3 (P : Primitives) (salt iv : Bytes) (scryptR dkLen : Nat) (data : Bytes)
    (auth : String) (scryptN scryptP : Nat) : Except String CryptoJSON :=
  match DeriveKey P auth salt scryptN scryptR scryptP dkLen with
  | .error e => .error e
  | .ok derivedKey =>
    let cipherText := Encrypt P data (derivedKey.take (dkLen / 2)) iv
    .ok { cipher := P.cipherName, cipherText := cipherText, iv := iv,
          kdf := P.kdfName, salt := salt, costN := scryptN, costR := scryptR,
          costP := scryptP, dkLen := dkLen,
          mac := ComputeMAC P (derivedKey.drop (dkLen / 2)) cipherText }

/-- Modelled from the spec: `DecryptDataV3(crypto, auth)`, which is not in
`wallet.go`: the key is derived again from the stored salt and cost parameters,
then `Decrypt` checks the tag and decrypts. -/
def DecryptDataV3 (P : Primitives) (c : CryptoJSON) (auth : String) : Except String Bytes :=
  match DeriveKey P auth c.salt c.costN c.costR c.costP c.dkLen with
  | .error e => .error e
  | .ok derivedKey => Decrypt P c.cipherText derivedKey c.iv c.mac c.dkLen

/-- Primitives for examples. -/
def demoPrimitives : Primitives where
  kdf password salt n _ _ dkLen :=
    (List.range dkLen).map (fun i => (password.length + salt.length + n + i) % 256)
  keystream key iv i := (key.length + iv.length + 7 * i) % 256
  tag k c := [(k.foldl (· + ·) 0 + c.foldl (· + ·) 0) % 256]
  cipherName := "aes-128-ctr"
  kdfName := "scrypt"

/-! ## `RunWalletGenAddress` -/

/-- What `RunWalletGenAddress` does to the outside world, in order. -/
inductive GenAddressEvent where
  | stderr (msg : String)
  | readAuthResult
  | dial (target : String)
  | createAddress (addressType addressPurpose : String)
  deriving DecidableEq

/-- What the outside world answers during one run of `RunWalletGenAddress`. -/
structure GenAddressEnv where
  /-- The flag `types.ArgAddressTypeSlug`. -/
  addressType : Except String String
  /-- The flag `types.ArgAddressPurposeSlug`. -/
  addressPurpose : Except String String
  /-- The access token that `viper.UnmarshalKey("AuthResult", ...)` finds. -/
  accessToken : String
  /-- The value of `viper.GetString("hub-url")` followed by the package variable
  `port`. -/
  hubTarget : String
  /-- The error of `grpc.Dial(...)`, or nil. -/
  dialErr : Option String
  /-- The result of `userClient.CreateAddress(...)`: the generated address, or the
  error. -/
  created : Except String String

/-- Result of `RunWalletGenAddress`: the events and the returned error. -/
structure GenAddressResult where
  trace : List GenAddressEvent
  err : Option CmdErr

/-- The keys of the map `s` of `RunWalletGenAddress`. -/
def addressKinds : List String := ["MAINNET", "ERC20", "BEP2"]

/-- The command `RunWalletGenAddress(c)`. -/
def RunWalletGenAddress (env : GenAddressEnv) : GenAddressResult :=
  match env.addressType with
  | .error e => ⟨[], some (.flag e)⟩
  | .ok addressType =>
    match env.addressPurpose with
    | .error e => ⟨[], some (.flag e)⟩
    | .ok addressPurpose =>
      let typeOk := decide (addressType ∈ addressKinds)
      let purposeOk := decide (addressPurpose ∈ addressKinds)
      if !typeOk || !purposeOk then
        ⟨[.stderr "\nERROR: type or purpose not one of MAINNET/ERC20/BEP2..\n"], none⟩
      else
        let t0 := [GenAddressEvent.readAuthResult]
        if env.accessToken.length = 0 then
          ⟨t0 ++ [.stderr "\nERROR: no ankr network access token found\n"], none⟩
        else
          let t1 := t0 ++ [.dial env.hubTarget]
          match env.dialErr with
          | some e => ⟨t1 ++ [.stderr ("\nERROR: did not connect, " ++ e ++ " \n")], none⟩
          | none =>
            let t2 := t1 ++ [.createAddress addressType addressPurpose]
            match env.created with
            | .error e => ⟨t2 ++ [.stderr ("\nERROR: " ++ e ++ "\n")], none⟩
            | .ok typeaddress =>
              ⟨t2 ++ [.stderr ("\ngenerated address type " ++ addressType ++ " \x27"
                ++ typeaddress ++ "\x27 for purpose " ++ addressPurpose ++ " \n")], none⟩

/-- An environment for examples of `RunWalletGenAddress`. -/
def demoGenAddressEnv : GenAddressEnv where
  addressType := .ok "ERC20"
  addressPurpose := .ok "MAINNET"
  accessToken := "token"
  hubTarget := "hub.example:50051"
  dialErr := none
  created := .ok "0xabc"

/-! ## Domain commands (`domains.go`) -/

/-- The call `strconv.Atoi(s)` on a platform whose `int` has 64 bits: an optional
sign, then at least one decimal digit, up to the end of the string, and a value
within the range of `int`; `none` is a non-nil error. -/
def Atoi (s : String) : Option Int :=
  match SetString10 s with
  | none => none
  | some z => if -(2 ^ 63 : Int) ≤ z ∧ z < (2 ^ 63 : Int) then some z else none

/-- The type `godo.DomainRecordEditRequest`; its field `Type` is `RecordType`
here. -/
structure DomainRecordEditRequest where
  RecordType : String
  Name : String
  Data : String
  Priority : Int
  Port : Int
  TTL : Int
  Weight : Int
  Flags : Int
  Tag : String
  deriving DecidableEq

/-- Errors returned by a domain command: the missing-arguments error, the error
of a flag, an error made by `errors.New` or `fmt.Errorf` with a fixed text, the
error `fmt.Errorf("invalid record id %q", i)`, an error of the remote service,
and an error of `c.Display`. -/
inductive DomainErr where
  | missingArgs (ns : String)
  | flag (msg : String)
  | message (msg : String)
  | invalidRecordId (i : String)
  | remote (msg : String)
  | display (msg : String)
  deriving DecidableEq

/-- What a domain command does, in order: the confirmation prompt, the
construction of the service `c.Domains()`, the calls of the remote service, and
the display of the result. -/
inductive DomainEvent where
  | askForConfirm (prompt : String)
  | domains
  | create (name ipAddress : String)
  | get (id : String)
  | records (name : String)
  | createRecord (name : String) (req : DomainRecordEditRequest)
  | deleteRecord (domain : String) (id : Int)
  | display
  deriving DecidableEq

/-- What the outside world answers during one run of a domain command. -/
structure DomainEnv where
  /-- The flag `ip-address`. -/
  ipAddress : Except String String
  /-- The flag `dccncli.ArgForce`. -/
  force : Except String Bool
  /-- Whether `AskForConfirm(...)` returned nil. -/
  confirm : Bool
  /-- The flag `dccncli.ArgRecordType`. -/
  rType : Except String String
  /-- The flag `dccncli.ArgRecordName`. -/
  rName : Except String String
  /-- The flag `dccncli.ArgRecordData`. -/
  rData : Except String String
  /-- The flag `dccncli.ArgRecordPriority`. -/
  rPriority : Except String Int
  /-- The flag `dccncli.ArgRecordPort`. -/
  rPort : Except String Int
  /-- The flag `dccncli.ArgRecordTTL`. -/
  rTTL : Except String Int
  /-- The flag `dccncli.ArgRecordWeight`. -/
  rWeight : Except String Int
  /-- The flag `dccncli.ArgRecordFlags`. -/
  rFlags : Except String Int
  /-- The flag `dccncli.ArgRecordTag`. -/
  rTag : Except String String
  /-- The error of `ds.Create(req)`, or nil. -/
  createErr : Option String
  /-- The error of `ds.Get(id)`, or nil. -/
  getErr : Option String
  /-- The error of `ds.Records(name)`, or nil. -/
  recordsErr : Option String
  /-- The error of `ds.CreateRecord(name, drcr)`, or nil. -/
  createRecordErr : Option String
  /-- The error of the `n`-th call `ds.DeleteRecord(domainName, id)` of the run
  (counted from 0), or nil. -/
  deleteRecordErr : Nat → String → Int → Option String
  /-- The error of `c.Display(item)`, or nil. -/
  displayErr : Option String

/-- Result of a domain command: the events and the returned error. -/
structure DomainResult where
  trace : List DomainEvent
  err : Option DomainErr

/-- The end of a command that displays what the remote service returned. -/
def displayResult (env : DomainEnv) (t : List DomainEvent) : DomainResult :=
  ⟨t ++ [.display], env.displayErr.map DomainErr.display⟩

/-- The command `RunDomainCreate(c)`. -/
def RunDomainCreate (env : DomainEnv) (c : CmdConfig) : DomainResult :=
  match c.Args with
  | [domainName] =>
    match env.ipAddress with
    | .error e => ⟨[.domains], some (.flag e)⟩
    | .ok ipAddress =>
      match env.createErr with
      | some e => ⟨[.domains, .create domainName ipAddress], some (.remote e)⟩
      | none => displayResult env [.domains, .create domainName ipAddress]
  | _ => ⟨[], some (.missingArgs c.NS)⟩

/-- The command `RunDomainGet(c)`. -/
def RunDomainGet (env : DomainEnv) (c : CmdConfig) : DomainResult :=
  match c.Args with
  | [id] =>
    if id.length < 1 then ⟨[.domains], some (.message "invalid domain name")⟩
    else
      match env.getErr with
      | some e => ⟨[.domains, .get id], some (.remote e)⟩
      | none => displayResult env [.domains, .get id]
  | _ => ⟨[], some (.missingArgs c.NS)⟩

/-- The command `RunRecordList(c)`. -/
def RunRecordList (env : DomainEnv) (c : CmdConfig) : DomainResult :=
  match c.Args with
  | [name] =>
    if name.length < 1 then ⟨[.domains], some (.message "domain name is missing")⟩
    else
      match env.recordsErr with
      | some e => ⟨[.domains, .records name], some (.remote e)⟩
      | none => displayResult env [.domains, .records name]
  | _ => ⟨[], some (.missingArgs c.NS)⟩

/-- The reading of the nine record flags of `RunRecordCreate`, in the order of
the source; the error is the first one met. -/
def recordFlags (env : DomainEnv) : Except String DomainRecordEditRequest :=
  match env.rType with
  | .error e => .error e
  | .ok rType =>
    match env.rName with
    | .error e => .error e
    | .ok rName =>
      match env.rData with
      | .error e => .error e
      | .ok rData =>
        match env.rPriority with
        | .error e => .error e
        | .ok rPriority =>
          match env.rPort with
          | .error e => .error e
          | .ok rPort =>
            match env.rTTL with
            | .error e => .error e
            | .ok rTTL =>
              match env.rWeight with
              | .error e => .error e
              | .ok rWeight =>
                match env.rFlags with
                | .error e => .error e
                | .ok rFlags =>
                  match env.rTag with
                  | .error e => .error e
                  | .ok rTag =>
                    .ok ⟨rType, rName, rData, rPriority, rPort, rTTL, rWeight, rFlags, rTag⟩

/-- The command `RunRecordCreate(c)`. -/
def RunRecordCreate (env : DomainEnv) (c : CmdConfig) : DomainResult :=
  match c.Args with
  | [name] =>
    match recordFlags env with
    | .error e => ⟨[.domains], some (.flag e)⟩
    | .ok drcr =>
      if drcr.RecordType.length = 0 then
        ⟨[.domains], some (.message "record request is missing type")⟩
      else
        match env.createRecordErr with
        | some e => ⟨[.domains, .createRecord name drcr], some (.remote e)⟩
        | none => displayResult env [.domains, .createRecord name drcr]
  | _ => ⟨[], some (.missingArgs c.NS)⟩

/-- The loop `for _, i := range ids` of `RunRecordDelete`: `n` counts the calls of
`ds.DeleteRecord` made so far, `t` holds the events so far. -/
def deleteLoop (env : DomainEnv) (domainName : String) :
    List String → Nat → List DomainEvent → DomainResult
  | [], _, t => ⟨t, none⟩
  | i :: rest, n, t =>
    match Atoi i with
    | none => ⟨t, some (.invalidRecordId i)⟩
    | some id =>
      match env.deleteRecordErr n domainName id with
      | some e => ⟨t ++ [.deleteRecord domainName id], some (.remote e)⟩
      | none => deleteLoop env domainName rest (n + 1) (t ++ [.deleteRecord domainName id])

/-- The command `RunRecordDelete(c)`. -/
def RunRecordDelete (env : DomainEnv) (c : CmdConfig) : DomainResult :=
  match c.Args with
  | domainName :: id0 :: ids =>
    match env.force with
    | .error e => ⟨[], some (.flag e)⟩
    | .ok force =>
      if force then deleteLoop env domainName (id0 :: ids) 0 [.domains]
      else if env.confirm then
        deleteLoop env domainName (id0 :: ids) 0 [.askForConfirm "delete record(s)", .domains]
      else ⟨[.askForConfirm "delete record(s)"], some (.message "opertaion aborted")⟩
  | _ => ⟨[], some (.missingArgs c.NS)⟩

/-- The calls of `ds.DeleteRecord` of a run, in order. -/
def deleteCalls (t : List DomainEvent) : List DomainEvent :=
  t.filter (fun e => match e with | .deleteRecord _ _ => true | _ => false)

/-- The record id at position `j` of `ids` is deleted: it parses and the `j`-th
call of the remote deletion returns nil. -/
def deletesAt (env : DomainEnv) (domainName : String) (ids : List String) (j : Nat) : Prop :=
  ∃ i id, ids[j]? = some i ∧ Atoi i = some id ∧ env.deleteRecordErr j domainName id = none

/-- The deletion calls for the record ids `ids`, in order. -/
def callsOf (domainName : String) (ids : List String) : List DomainEvent :=
  ids.filterMap (fun i => (Atoi i).map (DomainEvent.deleteRecord domainName))

/-- An environment for examples of domain commands: no flag fails, the record
type is empty, the user confirms, and every remote call succeeds. -/
def demoDomainEnv : DomainEnv where
  ipAddress := .ok "10.0.0.1"
  force := .ok false
  confirm := true
  rType := .ok ""
  rName := .ok "www"
  rData := .ok "10.0.0.1"
  rPriority := .ok 0
  rPort := .ok 0
  rTTL := .ok 1800
  rWeight := .ok 0
  rFlags := .ok 0
  rTag := .ok ""
  createErr := none
  getErr := none
  recordsErr := none
  createRecordErr := none
  deleteRecordErr := fun _ _ _ => none
  displayErr := none


/-! ## Names that are not valid UTF-8 -/

/-- The conversion `[]byte(s)` of a string, the inverse of `stringOfBytes`: a
string of the program is a sequence of bytes, each written here as the character
of that code. -/
def bytesOfString (s : String) : Bytes := s.toList.map Char.toNat

/-- Whether `b` is a UTF-8 continuation byte, `0x80` to `0xBF`. -/
def isCont (b : Nat) : Bool := 128 ≤ b && b ≤ 191

/-- The size that `utf8.DecodeRuneInString` reports at the start of `p` when a
valid UTF-8 sequence starts there, and 0 when none does (`DecodeRuneInString`
then returns `RuneError` with size 1) or `p` is empty. The ranges are those of the
library: no overlong forms, no surrogates, nothing above U+10FFFF. -/
def runeSize : Bytes → Nat
  | [] => 0
  | b0 :: rest =>
    if b0 < 128 then 1
    else if 194 ≤ b0 ∧ b0 ≤ 223 then
      match rest with
      | b1 :: _ => if isCont b1 then 2 else 0
      | _ => 0
    else if 224 ≤ b0 ∧ b0 ≤ 239 then
      match rest with
      | b1 :: b2 :: _ =>
        let lo := if b0 = 224 then 160 else 128
        let hi := if b0 = 237 then 159 else 191
        if lo ≤ b1 ∧ b1 ≤ hi ∧ isCont b2 = true then 3 else 0
      | _ => 0
    else if 240 ≤ b0 ∧ b0 ≤ 244 then
      match rest with
      | b1 :: b2 :: b3 :: _ =>
        let lo := if b0 = 240 then 144 else 128
        let hi := if b0 = 244 then 143 else 191
        if lo ≤ b1 ∧ b1 ≤ hi ∧ isCont b2 = true ∧ isCont b3 = true then 4 else 0
      | _ => 0
    else 0

/-- What `encoding/json` makes of the bytes of a string, from `json.Marshal` to
`json.Unmarshal`: a valid UTF-8 sequence is kept, and every byte at which none
starts becomes the replacement character U+FFFD, the bytes `EF BF BD`. `skip`
counts the bytes still to copy of the sequence being read. -/
def coerceLoop : Bytes → Nat → Bytes
  | [], _ => []
  | b :: rest, skip + 1 => b :: coerceLoop rest skip
  | b :: rest, 0 =>
    match runeSize (b :: rest) with
    | 0 => 239 :: 191 :: 189 :: coerceLoop rest 0
    | size + 1 => b :: coerceLoop rest size

/-- A string after a passage through `encoding/json`. -/
def jsonString (s : String) : String := stringOfBytes (coerceLoop (bytesOfString s) 0)

/-- A codec for examples that treats the strings of a record as `encoding/json`
does: the layout is that of `demoExt`, and the name and the address pass through
`jsonString` when a record is encoded and when it is decoded. -/
def jsonExt : Ext :=
  { demoExt with
    Marshal := fun r =>
      demoExt.Marshal { r with Name := jsonString r.Name, Address := jsonString r.Address }
    Unmarshal := fun b =>
      match demoExt.Unmarshal b with
      | .ok r => .ok { r with Name := jsonString r.Name, Address := jsonString r.Address }
      | .error e => .error e }

/-- The environment `demoEnv` one second later, with another generated account. -/
def demoEnvLater : Env :=
  { demoEnv with account := ("k2", "A2"), now := "2020-01-01T00-00-01Z" }

/-- Decoding the encoding of a record of the name `name` gives a record of that
name. Of `encoding/json` this holds for the names that are valid UTF-8. -/
def Ext.Keeps (x : Ext) (name : String) : Prop :=
  ∀ r b, r.Name = name → x.Marshal r = .ok b → ∃ r', x.Unmarshal b = .ok r' ∧ r'.Name = name

/-- The codec keeps the name that the call creates a record for. -/
def Call.Kept (x : Ext) : Call → Prop
  | .genkey _ c => ∀ name ∈ c.Args.head?, x.Keeps name
  | .importkey _ c => ∀ name ∈ c.Args.head?, x.Keeps name
  | .deletekey _ _ => True
/-! ## Shuffle: the loop against its functional reading -/

theorem length_removeAt (arr : List String) (len k : Nat) (hk : k < len)
    (hlen : len ≤ arr.length) : (removeAt arr len k).length = arr.length := by
  simp only [removeAt, List.length_append, List.length_take, List.length_drop]
  omega

theorem take_removeAt (arr : List String) (len k : Nat) (hk : k < len)
    (hlen : len ≤ arr.length) :
    (removeAt arr len k).take (len - 1) = (arr.take len).eraseIdx k := by
  have h1 : (arr.take k ++ (arr.drop (k + 1)).take (len - (k + 1))).length = len - 1 := by
    simp only [List.length_append, List.length_take, List.length_drop]
    omega
  unfold removeAt
  rw [List.take_append_of_le_length (by omega), List.take_of_length_le (by omega)]
  rw [List.eraseIdx_eq_take_drop_succ, List.take_take, List.drop_take]
  congr 2
  omega

theorem mem_removeAt (arr : List String) (len k : Nat) (x : String)
    (hx : x ∈ removeAt arr len k) : x ∈ arr := by
  simp only [removeAt, List.mem_append] at hx
  rcases hx with (h | h) | h
  · exact List.mem_of_mem_take h
  · exact List.mem_of_mem_drop (List.mem_of_mem_take h)
  · exact List.mem_of_mem_drop h

theorem removeAt_last (arr : List String) (len : Nat) (hpos : 0 < len) :
    removeAt arr len (len - 1) = arr := by
  unfold removeAt
  have : len - (len - 1 + 1) = 0 := by omega
  rw [this]
  simp

theorem shuffleLoop_spec (r : Rand) : ∀ (todo i : Nat) (arr ret : List String),
    todo ≤ arr.length → ret.length = i + todo →
    ∃ a, shuffleLoop r todo i arr todo ret
        = some (ret.take i ++ pick r todo i (arr.take todo), a)
      ∧ a.length = arr.length ∧ (∀ x ∈ a, x ∈ arr)
      ∧ ((∀ j, j < todo → r (i + j) % (todo - j) = todo - j - 1) → a = arr) := by
  intro todo
  induction todo with
  | zero =>
    intro i arr ret _ hret
    refine ⟨arr, ?_, rfl, fun x hx => hx, fun _ => rfl⟩
    have hle : ret.length ≤ i := by omega
    simp [shuffleLoop, pick, List.take_of_length_le hle]
  | succ t ih =>
    intro i arr ret harr hret
    have hk : r i % (t + 1) < t + 1 := Nat.mod_lt _ (Nat.succ_pos t)
    have hk' : r i % (t + 1) < arr.length := by omega
    have hi : i < ret.length := by omega
    have hget : arr[r i % (t + 1)]? = some (arr[r i % (t + 1)]) := List.getElem?_eq_getElem hk'
    have hlen' := length_removeAt arr (t + 1) (r i % (t + 1)) hk harr
    obtain ⟨a, ha, hal, ham, hau⟩ := ih (i + 1) (removeAt arr (t + 1) (r i % (t + 1)))
      (ret.set i arr[r i % (t + 1)]) (by omega) (by simp; omega)
    refine ⟨a, ?_, by omega, fun x hx => mem_removeAt _ _ _ _ (ham x hx), ?_⟩
    · have htk := take_removeAt arr (t + 1) (r i % (t + 1)) hk harr
      simp only [Nat.add_sub_cancel] at htk
      have hlt : (arr.take (t + 1)).length = t + 1 := by simp; omega
      have hget2 : (arr.take (t + 1))[r i % (arr.take (t + 1)).length]?
          = some (arr[r i % (t + 1)]) := by
        rw [hlt, List.getElem?_take_of_lt hk, hget]
      have hset : (ret.set i arr[r i % (t + 1)]).take (i + 1)
          = ret.take i ++ [arr[r i % (t + 1)]] := by
        rw [List.set_eq_take_cons_drop _ hi, List.take_append_eq_append_take]
        simp [List.take_take, Nat.min_eq_left (le_of_lt hi)]
      rw [shuffleLoop, if_neg (Nat.succ_ne_zero t)]
      simp only [hk, hi, and_self, if_true, hget, Nat.add_sub_cancel]
      rw [ha, htk, hset]
      conv_rhs => rw [pick, hget2, hlt]
      simp
    · intro hall
      have h0 := hall 0 (Nat.succ_pos t)
      simp only [Nat.add_zero, Nat.sub_zero, Nat.add_sub_cancel] at h0
      have hrest := hau (fun j hj => by
        have := hall (j + 1) (by omega)
        have e1 : i + (j + 1) = i + 1 + j := by omega
        have e2 : t + 1 - (j + 1) = t - j := by omega
        rw [e1, e2] at this
        exact this)
      rw [hrest, h0]
      have := removeAt_last arr (t + 1) (Nat.succ_pos t)
      simpa using this


theorem Shuffle_eq (r : Rand) (l : List String) :
    ∃ a, Shuffle r l = some (pick r l.length 0 l, a)
      ∧ a.length = l.length ∧ (∀ x ∈ a, x ∈ l)
      ∧ ((∀ j, j < l.length → r j % (l.length - j) = l.length - j - 1) → a = l) := by
  obtain ⟨a, ha, hal, ham, hau⟩ := shuffleLoop_spec r l.length 0 l
    (List.replicate l.length "") (le_refl _) (by simp)
  refine ⟨a, ?_, hal, ham, fun h => hau (fun j hj => by simpa using h j hj)⟩
  simpa [Shuffle] using ha

theorem cons_eraseIdx_perm (l : List String) (k : Nat) (hk : k < l.length) :
    (l[k] :: l.eraseIdx k).Perm l := by
  have hl : l = l.take k ++ l[k] :: l.drop (k + 1) := by simp
  rw [List.eraseIdx_eq_take_drop_succ]
  conv_rhs => rw [hl]
  exact List.perm_middle.symm

theorem pick_perm (r : Rand) : ∀ (t i : Nat) (l : List String), l.length = t →
    (pick r t i l).Perm l := by
  intro t
  induction t with
  | zero =>
    intro i l hl
    rw [List.length_eq_zero.mp hl]
    simp [pick]
  | succ t ih =>
    intro i l hl
    have hk : r i % l.length < l.length := Nat.mod_lt _ (by omega)
    rw [pick, List.getElem?_eq_getElem hk]
    have hlen : (l.eraseIdx (r i % l.length)).length = t := by
      rw [List.length_eraseIdx, if_pos hk]
      omega
    exact ((ih (i + 1) _ hlen).cons _).trans (cons_eraseIdx_perm l _ hk)

theorem pick_drawsOf_cons (d : Nat) (ds : List Nat) : ∀ (t i : Nat) (l : List String),
    pick (drawsOf (d :: ds)) t (i + 1) l = pick (drawsOf ds) t i l := by
  intro t
  induction t with
  | zero => intro i l; simp [pick]
  | succ t ih =>
    intro i l
    have h : drawsOf (d :: ds) (i + 1) = drawsOf ds i := by simp [drawsOf]
    rw [pick, pick, h, ih]

theorem pick_cons (d : Nat) (ds : List Nat) (t : Nat) (l : List String)
    (hd : d < l.length) :
    pick (drawsOf (d :: ds)) (t + 1) 0 l = l[d] :: pick (drawsOf ds) t 0 (l.eraseIdx d) := by
  have h : drawsOf (d :: ds) 0 = d := by simp [drawsOf]
  rw [pick, h, Nat.mod_eq_of_lt hd, List.getElem?_eq_getElem hd, pick_drawsOf_cons]

theorem pick_injective : ∀ (t : Nat) (l : List String) (ds₁ ds₂ : List Nat),
    l.Nodup → l.length = t → Admissible t ds₁ → Admissible t ds₂ →
    pick (drawsOf ds₁) t 0 l = pick (drawsOf ds₂) t 0 l → ds₁ = ds₂ := by
  intro t
  induction t with
  | zero =>
    intro l ds₁ ds₂ _ _ h₁ h₂ _
    simp only [Admissible] at h₁ h₂
    rw [h₁, h₂]
  | succ t ih =>
    intro l ds₁ ds₂ hnd hl h₁ h₂ heq
    cases ds₁ with
    | nil => simp [Admissible] at h₁
    | cons d₁ ds₁ =>
      cases ds₂ with
      | nil => simp [Admissible] at h₂
      | cons d₂ ds₂ =>
        simp only [Admissible] at h₁ h₂
        have hd₁ : d₁ < l.length := by omega
        have hd₂ : d₂ < l.length := by omega
        rw [pick_cons d₁ ds₁ t l hd₁, pick_cons d₂ ds₂ t l hd₂] at heq
        injection heq with hhead htail
        have hdd : d₁ = d₂ := (List.Nodup.getElem_inj_iff hnd).mp hhead
        subst hdd
        have hlen : (l.eraseIdx d₁).length = t := by
          rw [List.length_eraseIdx, if_pos hd₁]
          omega
        have hnd' : (l.eraseIdx d₁).Nodup := hnd.sublist (List.eraseIdx_sublist l d₁)
        rw [ih (l.eraseIdx d₁) ds₁ ds₂ hnd' hlen h₁.2 h₂.2 htail]

theorem pick_surjective : ∀ (t : Nat) (l p : List String),
    l.length = t → p.Perm l →
    ∃ ds, Admissible t ds ∧ pick (drawsOf ds) t 0 l = p := by
  intro t
  induction t with
  | zero =>
    intro l p hl hp
    refine ⟨[], by simp [Admissible], ?_⟩
    have : p = [] := by
      rw [List.length_eq_zero.mp hl] at hp
      exact hp.eq_nil
    simp [pick, this]
  | succ t ih =>
    intro l p hl hp
    cases p with
    | nil =>
      have := hp.length_eq
      simp at this
      omega
    | cons x p =>
      have hx : x ∈ l := hp.subset (List.mem_cons_self x p)
      obtain ⟨d, hd, hdx⟩ := List.getElem_of_mem hx
      have hlen : (l.eraseIdx d).length = t := by
        rw [List.length_eraseIdx, if_pos hd]
        omega
      have hp' : p.Perm (l.eraseIdx d) := by
        have h2 := hp.trans (cons_eraseIdx_perm l d hd).symm
        rw [hdx] at h2
        exact h2.cons_inv
      obtain ⟨ds, hadm, hpick⟩ := ih (l.eraseIdx d) p hlen hp'
      refine ⟨d :: ds, ⟨by omega, hadm⟩, ?_⟩
      rw [pick_cons d ds t l hd, hpick, hdx]

/-! ## Endpoint selection: the probing loop -/

theorem probeLoop_dead (get : String → ProbeResult) (port : String) :
    ∀ (us : List String) (cur : String) (log : List String),
    (∀ u ∈ us, live get port u = false) →
    probeLoop get port us cur log = (cur, log ++ us.map (netinfoURL port)) := by
  intro us
  induction us with
  | nil => intro cur log _; simp [probeLoop]
  | cons u us ih =>
    intro cur log h
    have hu : probeOk (get (netinfoURL port u)) = false := h u (List.mem_cons_self u us)
    rw [probeLoop, hu]
    simp only [Bool.false_eq_true, if_false]
    rw [ih cur _ (fun v hv => h v (List.mem_cons_of_mem u hv))]
    simp

theorem probeLoop_first (get : String → ProbeResult) (port : String)
    (pre : List String) (e : String) (post : List String) (cur : String) (log : List String)
    (hpre : ∀ u ∈ pre, live get port u = false) (he : live get port e = true) :
    probeLoop get port (pre ++ e :: post) cur log
      = (e, log ++ (pre ++ [e]).map (netinfoURL port)) := by
  induction pre generalizing log with
  | nil =>
    have he' : probeOk (get (netinfoURL port e)) = true := he
    simp [probeLoop, he']
  | cons u pre ih =>
    have hu : probeOk (get (netinfoURL port u)) = false := hpre u (List.mem_cons_self u pre)
    rw [List.cons_append, probeLoop, hu]
    simp only [Bool.false_eq_true, if_false]
    rw [ih _ (fun v hv => hpre v (List.mem_cons_of_mem u hv))]
    simp

theorem exists_first_live (get : String → ProbeResult) (port : String) :
    ∀ (order : List String), (∃ u ∈ order, live get port u = true) →
    ∃ pre e post, order = pre ++ e :: post ∧ (∀ u ∈ pre, live get port u = false)
      ∧ live get port e = true := by
  intro order
  induction order with
  | nil => rintro ⟨u, hu, _⟩; simp at hu
  | cons x xs ih =>
    intro h
    by_cases hx : live get port x = true
    · exact ⟨[], x, xs, rfl, by simp, hx⟩
    · have hx' : live get port x = false := by simpa using hx
      obtain ⟨u, hu, hlu⟩ := h
      have hu' : u ∈ xs := by
        rcases List.mem_cons.mp hu with rfl | h'
        · rw [hlu] at hx'; cases hx'
        · exact h'
      obtain ⟨pre, e, post, hsplit, hpre, he⟩ := ih ⟨u, hu', hlu⟩
      refine ⟨x :: pre, e, post, by simp [hsplit], ?_, he⟩
      intro v hv
      rcases List.mem_cons.mp hv with rfl | h'
      · exact hx'
      · exact hpre v h'

theorem selectEndpoint_of_Shuffle (r : Rand) (get : String → ProbeResult) (port : String)
    (urls : List String) (u0 : String) (rest a : List String)
    (h : Shuffle r urls = some (u0 :: rest, a)) :
    selectEndpoint r get port urls = some (probeLoop get port (u0 :: rest) u0 []) := by
  simp [selectEndpoint, h]

/-- The selection against the shuffled order: with a live element in the order, the
selected endpoint is the first live one and the probes stop there. -/
theorem selectEndpoint_first_live (r : Rand) (get : String → ProbeResult) (port : String)
    (urls : List String) :
    ∃ order a, Shuffle r urls = some (order, a) ∧ order.Perm urls ∧
      ((∃ u ∈ order, live get port u = true) →
        ∃ pre e post, order = pre ++ e :: post
          ∧ (∀ u ∈ pre, live get port u = false) ∧ live get port e = true
          ∧ order.find? (live get port) = some e
          ∧ selectEndpoint r get port urls
              = some (e, (pre ++ [e]).map (netinfoURL port))) := by
  obtain ⟨a, ha, -, -, -⟩ := Shuffle_eq r urls
  refine ⟨_, a, ha, pick_perm r _ 0 urls rfl, fun hex => ?_⟩
  obtain ⟨pre, e, post, hsplit, hpre, he⟩ := exists_first_live get port _ hex
  refine ⟨pre, e, post, hsplit, hpre, he, ?_, ?_⟩
  · rw [hsplit, List.find?_append, List.find?_eq_none.mpr (fun u hu => by simp [hpre u hu])]
    simp [he]
  · cases hord : pick r urls.length 0 urls with
    | nil =>
      rw [hord] at hsplit
      simp at hsplit
    | cons u0 rest =>
      rw [hord] at ha hsplit
      rw [selectEndpoint_of_Shuffle r get port urls u0 rest a ha, hsplit,
        probeLoop_first get port pre e post u0 [] hpre he]
      simp

/-! ## Claims on endpoint selection and Shuffle -/

/-- C3: for every candidate list, random source and probe outcome, Shuffle returns
a permutation of the candidates, and if some element of that order is live (its
GET to the net_info address returns status 200 without transport error) the
selected endpoint is the earliest live element of the order, and the probed
addresses are exactly those of the elements up to and including it, so nothing
after it is probed. -/
theorem select_first_responsive (r : Rand) (get : String → ProbeResult) (port : String)
    (urls : List String) :
    ∃ order a, Shuffle r urls = some (order, a) ∧ order.Perm urls ∧
      ((∃ u ∈ order, live get port u = true) →
        ∃ pre e post, order = pre ++ e :: post
          ∧ (∀ u ∈ pre, live get port u = false) ∧ live get port e = true
          ∧ order.find? (live get port) = some e
          ∧ selectEndpoint r get port urls
              = some (e, (pre ++ [e]).map (netinfoURL port))) :=
  selectEndpoint_first_live r get port urls

/-- C3 at three candidates of which only the second is live, drawn in the order
c, b, a: some element of the order is live, and the statement holds there. -/
theorem select_first_responsive_witness :
    (∃ u ∈ ["c", "b", "a"], live (fun u => if u = "b:443/net_info" then .status 200
        else .status 503) "443" u = true)
    ∧ ∃ order a, Shuffle (drawsOf [2, 1, 0]) ["a", "b", "c"] = some (order, a)
      ∧ order.Perm ["a", "b", "c"] ∧
      ((∃ u ∈ order, live (fun u => if u = "b:443/net_info" then .status 200
          else .status 503) "443" u = true) →
        ∃ pre e post, order = pre ++ e :: post
          ∧ (∀ u ∈ pre, live (fun u => if u = "b:443/net_info" then .status 200
              else .status 503) "443" u = false)
          ∧ live (fun u => if u = "b:443/net_info" then .status 200
              else .status 503) "443" e = true
          ∧ order.find? (live (fun u => if u = "b:443/net_info" then .status 200
              else .status 503) "443") = some e
          ∧ selectEndpoint (drawsOf [2, 1, 0]) (fun u => if u = "b:443/net_info"
              then .status 200 else .status 503) "443" ["a", "b", "c"]
              = some (e, (pre ++ [e]).map (netinfoURL "443"))) :=
  ⟨by decide, select_first_responsive (drawsOf [2, 1, 0])
    (fun u => if u = "b:443/net_info" then .status 200 else .status 503) "443"
    ["a", "b", "c"]⟩

/-- C4: when the probe of every candidate fails, the selection does not panic and
returns the first element of the shuffled order, which is one of the candidates
(so a non-empty string when the candidates are); every candidate has been probed. -/
theorem select_degraded (r : Rand) (get : String → ProbeResult) (port : String)
    (urls : List String) (hne : urls ≠ [])
    (hdead : ∀ u ∈ urls, live get port u = false) :
    ∃ e rest a, Shuffle r urls = some (e :: rest, a) ∧ (e :: rest).Perm urls
      ∧ selectEndpoint r get port urls = some (e, (e :: rest).map (netinfoURL port))
      ∧ e ∈ urls ∧ ((∀ u ∈ urls, u ≠ "") → e ≠ "") := by
  obtain ⟨a, ha, -, -, -⟩ := Shuffle_eq r urls
  have hperm := pick_perm r _ 0 urls rfl
  cases hord : pick r urls.length 0 urls with
  | nil =>
    rw [hord] at hperm
    exact absurd hperm.symm.eq_nil hne
  | cons e rest =>
    rw [hord] at ha hperm
    have hmem : e ∈ urls := hperm.subset (List.mem_cons_self e rest)
    refine ⟨e, rest, a, ha, hperm, ?_, hmem, fun h => h e hmem⟩
    rw [selectEndpoint_of_Shuffle r get port urls e rest a ha,
      probeLoop_dead get port (e :: rest) e [] (fun u hu => hdead u (hperm.subset hu))]
    simp

/-- C4 at three candidates that all answer 503, drawn in the order b, c, a. -/
theorem select_degraded_witness :
    ∃ e rest a, Shuffle (drawsOf [1, 1, 0]) ["a", "b", "c"] = some (e :: rest, a)
      ∧ (e :: rest).Perm ["a", "b", "c"]
      ∧ selectEndpoint (drawsOf [1, 1, 0]) (fun _ => .status 503) "443" ["a", "b", "c"]
          = some (e, (e :: rest).map (netinfoURL "443"))
      ∧ e ∈ ["a", "b", "c"] ∧ ((∀ u ∈ ["a", "b", "c"], u ≠ "") → e ≠ "") :=
  select_degraded (drawsOf [1, 1, 0]) (fun _ => .status 503) "443" ["a", "b", "c"]
    (by decide) (by decide)

/-- C5: when exactly one candidate is live, the selection returns it whatever the
random source draws. (Distinctness of the candidates is not needed.) -/
theorem select_unique_live (get : String → ProbeResult) (port : String)
    (urls : List String) (e : String) (he : e ∈ urls) (hlive : live get port e = true)
    (honly : ∀ u ∈ urls, live get port u = true → u = e) :
    ∀ r : Rand, ∃ log, selectEndpoint r get port urls = some (e, log) := by
  intro r
  obtain ⟨order, a, hs, hperm, h⟩ := selectEndpoint_first_live r get port urls
  obtain ⟨pre, e', post, hsplit, -, he', -, hsel⟩ := h ⟨e, hperm.symm.subset he, hlive⟩
  have hmem : e' ∈ urls := hperm.subset (by rw [hsplit]; simp)
  rw [honly e' hmem he'] at hsel
  exact ⟨_, hsel⟩

/-- C5 at the three candidates a, b, c of which only b answers 200, with every
draw 0: b is a candidate, it is live, and it is selected. -/
theorem select_unique_live_witness :
    "b" ∈ ["a", "b", "c"]
    ∧ live (fun u => if u = "b:443/net_info" then .status 200 else .transportError)
        "443" "b" = true
    ∧ ∃ log, selectEndpoint (drawsOf [0, 0, 0])
        (fun u => if u = "b:443/net_info" then .status 200 else .transportError) "443"
        ["a", "b", "c"] = some ("b", log) :=
  ⟨by decide, by decide,
    select_unique_live (fun u => if u = "b:443/net_info" then .status 200 else .transportError)
      "443" ["a", "b", "c"] "b" (by decide) (by decide) (by decide) (drawsOf [0, 0, 0])⟩

/-- C6: for every input and every random source, Shuffle returns, and the returned
list is a permutation of the input: same length, same elements, same
multiplicities. -/
theorem Shuffle_permutation (r : Rand) (l : List String) :
    ∃ p a, Shuffle r l = some (p, a) ∧ p.length = l.length ∧ p.Perm l
      ∧ ∀ x, p.count x = l.count x := by
  obtain ⟨a, ha, -, -, -⟩ := Shuffle_eq r l
  have hperm := pick_perm r _ 0 l rfl
  exact ⟨_, a, ha, hperm.length_eq, hperm, fun x => hperm.count_eq x⟩

/-- C7 fails: with every draw 0 on the list a, b, c the returned list is a, b, c
but the caller's array holds c, c, c afterwards. -/
theorem Shuffle_mutates_input :
    ¬ ∀ (r : Rand) (l p a : List String), Shuffle r l = some (p, a) → a = l := by
  intro h
  have h1 : Shuffle (drawsOf [0, 0, 0]) ["a", "b", "c"]
      = some (["a", "b", "c"], ["c", "c", "c"]) := by decide
  exact absurd (h _ _ _ _ h1) (by decide)

/-- C7 as amended: Shuffle returns, the caller's array keeps its length and holds
only elements of the original list, and it is unchanged when every draw selects
the last index of the remaining slice. -/
theorem Shuffle_input_frame (r : Rand) (l : List String) :
    ∃ p a, Shuffle r l = some (p, a) ∧ a.length = l.length ∧ (∀ x ∈ a, x ∈ l)
      ∧ ((∀ j, j < l.length → r j % (l.length - j) = l.length - j - 1) → a = l) := by
  obtain ⟨a, ha, hal, ham, hau⟩ := Shuffle_eq r l
  exact ⟨_, a, ha, hal, ham, hau⟩

/-- C7 as amended, at the list a, b, c with the draws 2, 1, 0, which select the last
index each time. -/
theorem Shuffle_input_frame_witness :
    (∀ j, j < ["a", "b", "c"].length →
        drawsOf [2, 1, 0] j % (["a", "b", "c"].length - j) = ["a", "b", "c"].length - j - 1)
    ∧ ∃ p a, Shuffle (drawsOf [2, 1, 0]) ["a", "b", "c"] = some (p, a)
      ∧ a.length = ["a", "b", "c"].length ∧ (∀ x ∈ a, x ∈ ["a", "b", "c"])
      ∧ ((∀ j, j < ["a", "b", "c"].length →
          drawsOf [2, 1, 0] j % (["a", "b", "c"].length - j) = ["a", "b", "c"].length - j - 1)
        → a = ["a", "b", "c"]) :=
  ⟨by decide, Shuffle_input_frame (drawsOf [2, 1, 0]) ["a", "b", "c"]⟩

/-- C8: on pairwise distinct candidates the map from admissible draw sequences to
output orders is a bijection onto the permutations of the input, of which there are
n!: every admissible sequence yields a permutation, two admissible sequences with
the same output are equal, and every permutation is the output of one. -/
theorem Shuffle_bijection (l : List String) (hnd : l.Nodup) :
    (∀ ds, Admissible l.length ds →
      ∃ p a, Shuffle (drawsOf ds) l = some (p, a) ∧ p ∈ l.permutations)
    ∧ (∀ ds₁ ds₂, Admissible l.length ds₁ → Admissible l.length ds₂ →
        (Shuffle (drawsOf ds₁) l).map Prod.fst = (Shuffle (drawsOf ds₂) l).map Prod.fst →
        ds₁ = ds₂)
    ∧ (∀ p, p ∈ l.permutations →
        ∃ ds, Admissible l.length ds ∧ (Shuffle (drawsOf ds) l).map Prod.fst = some p)
    ∧ l.permutations.Nodup ∧ l.permutations.length = l.length.factorial := by
  refine ⟨fun ds _ => ?_, fun ds₁ ds₂ h₁ h₂ heq => ?_, fun p hp => ?_,
    List.nodup_permutations l hnd, List.length_permutations l⟩
  · obtain ⟨a, ha, -, -, -⟩ := Shuffle_eq (drawsOf ds) l
    exact ⟨_, a, ha, List.mem_permutations.mpr (pick_perm _ _ 0 l rfl)⟩
  · obtain ⟨a₁, ha₁, -, -, -⟩ := Shuffle_eq (drawsOf ds₁) l
    obtain ⟨a₂, ha₂, -, -, -⟩ := Shuffle_eq (drawsOf ds₂) l
    rw [ha₁, ha₂] at heq
    simp only [Option.map_some', Option.some.injEq] at heq
    exact pick_injective l.length l ds₁ ds₂ hnd rfl h₁ h₂ heq
  · obtain ⟨ds, hadm, hpick⟩ := pick_surjective l.length l p rfl (List.mem_permutations.mp hp)
    obtain ⟨a, ha, -, -, -⟩ := Shuffle_eq (drawsOf ds) l
    exact ⟨ds, hadm, by rw [ha, ← hpick]; rfl⟩

/-- C8 at the three distinct candidates a, b, c. -/
theorem Shuffle_bijection_witness :
    ["a", "b", "c"].Nodup
    ∧ (∀ p, p ∈ ["a", "b", "c"].permutations →
        ∃ ds, Admissible 3 ds ∧ (Shuffle (drawsOf ds) ["a", "b", "c"]).map Prod.fst = some p) :=
  ⟨by decide, (Shuffle_bijection ["a", "b", "c"] (by decide)).2.2.1⟩
/-! ## Keystore: the scan -/

theorem recordOf_eq_some (x : Ext) (f : File) (key : EncryptedKeyJSONV3) :
    recordOf x f = some key ↔
      matchUTC f.name = true ∧ ∃ kf, f.content = .ok kf ∧ x.Unmarshal kf = .ok key := by
  unfold recordOf
  cases hm : matchUTC f.name with
  | false => simp
  | true =>
    cases hc : f.content with
    | error e => simp
    | ok kf =>
      cases hu : x.Unmarshal kf with
      | error e => simp [hu]
      | ok k => simp [hu]

theorem scanName_cons_skip (x : Ext) (name : String) (f : File) (fs : Dir)
    (hs : scannable x f = true) (hn : isNamed x name f = false) :
    scanName x name (f :: fs) = scanName x name fs := by
  unfold scannable at hs
  unfold isNamed at hn
  rw [scanName]
  cases hm : matchUTC f.name with
  | false => simp
  | true =>
    rw [hm] at hs
    simp only [Bool.not_true, Bool.false_or] at hs
    obtain ⟨key, hkey⟩ := Option.isSome_iff_exists.mp hs
    rw [hkey] at hn
    obtain ⟨-, kf, hc, hu⟩ := (recordOf_eq_some x f key).mp hkey
    have hne : key.Name ≠ name := by simpa using hn
    simp [hc, hu, hne]

theorem scanName_cons_named (x : Ext) (name : String) (f : File) (fs : Dir)
    (hn : isNamed x name f = true) :
    ∃ key, scanName x name (f :: fs) = .found f key ∧ key.Name = name := by
  unfold isNamed at hn
  cases hr : recordOf x f with
  | none => rw [hr] at hn; cases hn
  | some key =>
    rw [hr] at hn
    obtain ⟨hm, kf, hc, hu⟩ := (recordOf_eq_some x f key).mp hr
    have hname : key.Name = name := by simpa using hn
    exact ⟨key, by rw [scanName]; simp [hm, hc, hu, hname], hname⟩

/-- A record of the name in the directory keeps the scan from ending without a
verdict. -/
theorem scanName_ne_absent (x : Ext) (name : String) :
    ∀ d : Dir, (∃ f ∈ d, isNamed x name f = true) → scanName x name d ≠ .absent := by
  intro d
  induction d with
  | nil => rintro ⟨f, hf, _⟩; simp at hf
  | cons g gs ih =>
    rintro ⟨f, hf, hnamed⟩ habs
    by_cases hg : isNamed x name g = true
    · obtain ⟨key, hk, -⟩ := scanName_cons_named x name g gs hg
      rw [hk] at habs
      cases habs
    · have hg' : isNamed x name g = false := by simpa using hg
      have hfs : f ∈ gs := by
        rcases List.mem_cons.mp hf with rfl | h
        · rw [hnamed] at hg'; cases hg'
        · exact h
      cases hm : matchUTC g.name with
      | false =>
        simp only [scanName, hm, Bool.false_eq_true, if_false] at habs
        exact ih ⟨f, hfs, hnamed⟩ habs
      | true =>
        cases hc : g.content with
        | error e => simp [scanName, hm, hc] at habs
        | ok kf =>
          cases hu : x.Unmarshal kf with
          | error e => simp [scanName, hm, hc, hu] at habs
          | ok key =>
            by_cases hkn : key.Name = name
            · simp [scanName, hm, hc, hu, hkn] at habs
            · simp only [scanName, hm, hc, hu, if_true, hkn, if_false] at habs
              exact ih ⟨f, hfs, hnamed⟩ habs

theorem isNamed_of_mem_records (x : Ext) (name : String) (d : Dir)
    (h : name ∈ (records x d).map (·.Name)) : ∃ f ∈ d, isNamed x name f = true := by
  obtain ⟨r, hr, hname⟩ := List.mem_map.mp h
  obtain ⟨f, hf, hrec⟩ := List.mem_filterMap.mp hr
  exact ⟨f, hf, by simp [isNamed, hrec, hname]⟩

theorem not_mem_names_of_absent (x : Ext) (name : String) (d : Dir)
    (h : scanName x name d = .absent) : name ∉ (records x d).map (·.Name) :=
  fun hmem => scanName_ne_absent x name d (isNamed_of_mem_records x name d hmem) h

/-- With a record of the name present, `RunWalletGenkey` prints one error line and
leaves the directory alone. -/
theorem genkey_dup (x : Ext) (env : Env) (c : CmdConfig) (d : Dir) (name : String)
    (rest : List String) (hargs : c.Args = name :: rest)
    (hdup : ∃ f ∈ d, isNamed x name f = true) :
    (RunWalletGenkey x env c d).dir = d
      ∧ ∀ e ∈ (RunWalletGenkey x env c d).trace, ∃ m, e = .stderr m := by
  have hne := scanName_ne_absent x name d hdup
  unfold RunWalletGenkey
  rw [hargs]
  dsimp only
  cases hs : scanName x name d with
  | absent => exact absurd hs hne
  | readErr e => simp [errorLine]
  | decodeErr e => simp [errorLine]
  | found f key => simp [errorLine]

/-- With a record of the name present, `RunWalletImportkey` prints at most one
error line and leaves the directory alone. -/
theorem importkey_dup (x : Ext) (env : Env) (c : CmdConfig) (d : Dir) (name : String)
    (rest : List String) (hargs : c.Args = name :: rest)
    (hdup : ∃ f ∈ d, isNamed x name f = true) :
    (RunWalletImportkey x env c d).dir = d
      ∧ ∀ e ∈ (RunWalletImportkey x env c d).trace, ∃ m, e = .stderr m := by
  have hne := scanName_ne_absent x name d hdup
  unfold RunWalletImportkey
  rw [hargs]
  dsimp only
  cases hflag : env.keyFileFlag with
  | error e => simp
  | ok ks =>
    cases hkf : env.keyFile with
    | error e => simp [errorLine]
    | ok kf =>
      cases hu : x.Unmarshal kf with
      | error e => simp [hu, errorLine]
      | ok key =>
        cases hs : scanName x name d with
        | absent => exact absurd hs hne
        | readErr e => simp [hu, errorLine]
        | decodeErr e => simp [hu, errorLine]
        | found f k => simp [hu]

/-! ## Claim C1 -/

/-- C1: when some entry matching `UTC*` decodes to a record of the requested name,
`RunWalletGenkey` and `RunWalletImportkey` leave the directory as it was, and all
they do is print to stderr: no confirmation or password prompt, no key generation,
no file creation or write. -/
theorem create_existing_name_changes_nothing (x : Ext) (env : Env) (c : CmdConfig)
    (d : Dir) (name : String) (rest : List String) (hargs : c.Args = name :: rest)
    (hdup : ∃ f ∈ d, matchUTC f.name = true
      ∧ ∃ kf key, f.content = .ok kf ∧ x.Unmarshal kf = .ok key ∧ key.Name = name) :
    ((RunWalletGenkey x env c d).dir = d
      ∧ ∀ e ∈ (RunWalletGenkey x env c d).trace, ∃ m, e = .stderr m)
    ∧ ((RunWalletImportkey x env c d).dir = d
      ∧ ∀ e ∈ (RunWalletImportkey x env c d).trace, ∃ m, e = .stderr m) := by
  obtain ⟨f, hf, hm, kf, key, hc, hu, hname⟩ := hdup
  have hrec : recordOf x f = some key := (recordOf_eq_some x f key).mpr ⟨hm, kf, hc, hu⟩
  have hdup' : ∃ f ∈ d, isNamed x name f = true := ⟨f, hf, by simp [isNamed, hrec, hname]⟩
  exact ⟨genkey_dup x env c d name rest hargs hdup',
    importkey_dup x env c d name rest hargs hdup'⟩

/-- C1 on a directory that holds one record named bob, at a request for bob. -/
theorem create_existing_name_changes_nothing_witness :
    (RunWalletGenkey demoExt demoEnv ⟨["bob"], "wallet"⟩
        [⟨"UTC--2019--A0", .ok [3, 2, 98, 111, 98, 65, 48, 0]⟩]).dir
      = [⟨"UTC--2019--A0", .ok [3, 2, 98, 111, 98, 65, 48, 0]⟩]
    ∧ (RunWalletImportkey demoExt demoEnv ⟨["bob"], "wallet"⟩
        [⟨"UTC--2019--A0", .ok [3, 2, 98, 111, 98, 65, 48, 0]⟩]).dir
      = [⟨"UTC--2019--A0", .ok [3, 2, 98, 111, 98, 65, 48, 0]⟩] :=
  have h := create_existing_name_changes_nothing demoExt demoEnv ⟨["bob"], "wallet"⟩
    [⟨"UTC--2019--A0", .ok [3, 2, 98, 111, 98, 65, 48, 0]⟩] "bob" [] rfl
    ⟨⟨"UTC--2019--A0", .ok [3, 2, 98, 111, 98, 65, 48, 0]⟩, by simp, by decide,
      [3, 2, 98, 111, 98, 65, 48, 0], _, rfl, rfl, by decide⟩
  ⟨h.1.1, h.2.1⟩
/-! ## Keystore: writes, removals and the names of the records -/

theorem records_cons (x : Ext) (g : File) (gs : Dir) :
    records x (g :: gs) = (recordOf x g).toList ++ records x gs := by
  unfold records
  cases h : recordOf x g with
  | none => simp [List.filterMap_cons, h]
  | some r => simp [List.filterMap_cons, h]

theorem records_putFile (x : Ext) (file : String) (content : Bytes) :
    ∀ d : Dir, ∃ pre post,
      records x (putFile file content d)
        = pre ++ (recordOf x ⟨file, .ok content⟩).toList ++ post
      ∧ (pre ++ post).Sublist (records x d) := by
  intro d
  induction d with
  | nil =>
    refine ⟨[], [], ?_, by simp⟩
    cases h : recordOf x ⟨file, .ok content⟩ <;> simp [putFile, records, h]
  | cons g gs ih =>
    by_cases hg : g.name = file
    · refine ⟨[], records x gs, ?_, ?_⟩
      · simp [putFile, hg, records_cons]
      · rw [records_cons]
        simp
    · by_cases hlt : nameLt file g.name = true
      · refine ⟨[], records x (g :: gs), ?_, by simp⟩
        simp [putFile, hg, hlt, records_cons]
      · obtain ⟨pre, post, heq, hsub⟩ := ih
        refine ⟨(recordOf x g).toList ++ pre, post, ?_, ?_⟩
        · simp [putFile, hg, hlt, records_cons, heq]
        · rw [records_cons, List.append_assoc]
          exact List.Sublist.append_left hsub _

theorem uniqueNames_putFile (x : Ext) (file : String) (content : Bytes) (d : Dir)
    (h : UniqueNames x d)
    (hnew : ∀ r, recordOf x ⟨file, .ok content⟩ = some r →
      r.Name ∉ (records x d).map (·.Name)) :
    UniqueNames x (putFile file content d) := by
  obtain ⟨pre, post, heq, hsub⟩ := records_putFile x file content d
  have hsubn : ((pre ++ post).map (·.Name)).Sublist ((records x d).map (·.Name)) :=
    hsub.map _
  unfold UniqueNames at h ⊢
  rw [heq]
  cases hr : recordOf x ⟨file, .ok content⟩ with
  | none =>
    simp only [Option.toList, List.append_nil]
    exact h.sublist hsubn
  | some r =>
    have hnot := hnew r hr
    simp only [Option.toList, List.append_assoc, List.singleton_append, List.map_append,
      List.map_cons]
    rw [List.nodup_middle, List.nodup_cons, ← List.map_append]
    exact ⟨fun hmem => hnot (hsubn.subset hmem), h.sublist hsubn⟩

theorem uniqueNames_removeFile (x : Ext) (name : String) (d : Dir) (h : UniqueNames x d) :
    UniqueNames x (removeFile name d) := by
  unfold UniqueNames at h ⊢
  have hsub : (removeFile name d).Sublist d := List.eraseP_sublist d
  exact h.sublist ((hsub.filterMap _).map _)

/-- What the file written for a record holds, when the codec keeps the name of
the record: nothing that decodes, or a record of that name. -/
theorem recordOf_written (x : Ext) (htrunc : x.TruncationFails)
    (env : Env) (file : String) (key : EncryptedKeyJSONV3) (jsonKey : Bytes)
    (hm : x.Marshal key = .ok jsonKey) (r : EncryptedKeyJSONV3)
    (hr : recordOf x ⟨file, .ok (written env jsonKey)⟩ = some r)
    (hkeep : x.Keeps key.Name) : r.Name = key.Name := by
  obtain ⟨-, kf, hc, hu⟩ := (recordOf_eq_some x _ r).mp hr
  have hkf : kf = written env jsonKey := by
    have := Except.ok.inj hc
    exact this.symm
  subst hkf
  unfold written at hu
  cases hw : env.writeFail with
  | none =>
    rw [hw] at hu
    obtain ⟨r', hr', hname⟩ := hkeep key jsonKey rfl hm
    rw [hr'] at hu
    rw [← Except.ok.inj hu]
    exact hname
  | some k =>
    rw [hw] at hu
    obtain ⟨e, he⟩ := htrunc key jsonKey k hm
    rw [he] at hu
    cases hu

theorem genkeyCreate_unique (x : Ext) (htrunc : x.TruncationFails)
    (env : Env) (name : String) (hkeep : x.Keeps name) (d : Dir) (h : UniqueNames x d)
    (hnot : name ∉ (records x d).map (·.Name)) :
    UniqueNames x (genkeyCreate x env name d).dir := by
  unfold genkeyCreate
  dsimp only
  repeat' split
  all_goals first
    | exact h
    | (apply uniqueNames_putFile x _ _ d h
       intro r hr
       have hname := recordOf_written x htrunc env _ _ _ (by assumption) r hr
       rw [hname hkeep]
       exact hnot)

theorem importkeyCreate_unique (x : Ext) (htrunc : x.TruncationFails)
    (env : Env) (name : String) (hkeep : x.Keeps name) (key : EncryptedKeyJSONV3) (d : Dir)
    (h : UniqueNames x d) (hnot : name ∉ (records x d).map (·.Name)) :
    UniqueNames x (importkeyCreate x env name key d).dir := by
  unfold importkeyCreate
  dsimp only
  repeat' split
  all_goals first
    | exact h
    | (apply uniqueNames_putFile x _ _ d h
       intro r hr
       have hname := recordOf_written x htrunc env _ _ _ (by assumption) r hr
       rw [hname hkeep]
       exact hnot)
theorem genkey_unique (x : Ext) (htrunc : x.TruncationFails)
    (env : Env) (c : CmdConfig) (hkeep : ∀ name ∈ c.Args.head?, x.Keeps name)
    (d : Dir) (h : UniqueNames x d) :
    UniqueNames x (RunWalletGenkey x env c d).dir := by
  unfold RunWalletGenkey
  cases hargs : c.Args with
  | nil => exact h
  | cons name rest =>
    dsimp only
    cases hs : scanName x name d with
    | readErr e => exact h
    | decodeErr e => exact h
    | found f key => exact h
    | absent =>
      exact genkeyCreate_unique x htrunc env name (hkeep name (by simp [hargs])) d h
        (not_mem_names_of_absent x name d hs)

theorem importkey_unique (x : Ext) (htrunc : x.TruncationFails)
    (env : Env) (c : CmdConfig) (hkeep : ∀ name ∈ c.Args.head?, x.Keeps name)
    (d : Dir) (h : UniqueNames x d) :
    UniqueNames x (RunWalletImportkey x env c d).dir := by
  unfold RunWalletImportkey
  cases hargs : c.Args with
  | nil => exact h
  | cons name rest =>
    dsimp only
    cases hflag : env.keyFileFlag with
    | error e => exact h
    | ok ks =>
      cases hkf : env.keyFile with
      | error e => exact h
      | ok kf =>
        cases hu : x.Unmarshal kf with
        | error e => simpa [hu] using h
        | ok key =>
          cases hs : scanName x name d with
          | readErr e => simpa [hu] using h
          | decodeErr e => simpa [hu] using h
          | found f k => simpa [hu] using h
          | absent =>
            simpa [hu] using importkeyCreate_unique x htrunc env name
              (hkeep name (by simp [hargs])) key d h (not_mem_names_of_absent x name d hs)

theorem deletekey_unique (x : Ext) (env : Env) (c : CmdConfig) (d : Dir)
    (h : UniqueNames x d) : UniqueNames x (RunWalletDeletekey x env c d).dir := by
  unfold RunWalletDeletekey
  cases hargs : c.Args with
  | nil => exact h
  | cons name rest =>
    dsimp only
    cases hconf : env.confirm with
    | false => simpa using h
    | true =>
      cases hs : scanName x name d with
      | readErr e => simpa using h
      | decodeErr e => simpa using h
      | absent => simpa using h
      | found f key =>
        cases hrm : env.remove with
        | error e => simpa using h
        | ok u => simpa using uniqueNames_removeFile x f.name d h

theorem runCalls_unique (x : Ext) (htrunc : x.TruncationFails)
    (calls : List Call) (hkeep : ∀ call ∈ calls, call.Kept x) :
    ∀ d : Dir, UniqueNames x d → UniqueNames x (runCalls x d calls) := by
  induction calls with
  | nil => intro d h; exact h
  | cons call calls ih =>
    intro d h
    have hstep : UniqueNames x (call.run x d) := by
      have hk := hkeep call (List.mem_cons_self _ _)
      cases call with
      | genkey env c => exact genkey_unique x htrunc env c hk d h
      | importkey env c => exact importkey_unique x htrunc env c hk d h
      | deletekey env c => exact deletekey_unique x env c d h
    exact ih (fun call hmem => hkeep call (List.mem_cons_of_mem _ hmem)) _ hstep

theorem keeps_of_keepsName (x : Ext) (hkeep : x.KeepsName) (name : String) : x.Keeps name :=
  fun r b hn hm => by
    obtain ⟨r', hr', hname⟩ := hkeep r b hm
    exact ⟨r', hr', hname.trans hn⟩

theorem kept_of_keepsName (x : Ext) (hkeep : x.KeepsName) (call : Call) : call.Kept x := by
  cases call with
  | genkey env c => exact fun name _ => keeps_of_keepsName x hkeep name
  | importkey env c => exact fun name _ => keeps_of_keepsName x hkeep name
  | deletekey env c => exact True.intro

theorem count_name_eq_one (x : Ext) (d : Dir) (name : String) (h : UniqueNames x d)
    (hmem : name ∈ (records x d).map (·.Name)) :
    ((records x d).map (·.Name)).count name = 1 :=
  List.count_eq_one_of_mem h hmem

theorem demoExt_Unmarshal (n m : Nat) (rest : List Nat) (h : rest.length = n + m + 1) :
    demoExt.Unmarshal (n :: m :: rest)
      = .ok { Name := String.mk ((rest.take n).map Char.ofNat),
              Address := String.mk (((rest.drop n).take m).map Char.ofNat),
              PublicKey := "",
              Crypto := ⟨"", [], [], "", [], 0, 0, 0, 0, []⟩,
              KeyJSONVersion := 3 } := by
  show (if rest.length = n + m + 1 then _ else _) = _
  rw [if_pos h]

theorem demoExt_Unmarshal_short (n m : Nat) (rest : List Nat) (h : rest.length ≠ n + m + 1) :
    demoExt.Unmarshal (n :: m :: rest) = .error "unexpected end of JSON input" := by
  show (if rest.length = n + m + 1 then _ else _) = _
  rw [if_neg h]

theorem demoExt_Marshal (r : EncryptedKeyJSONV3) :
    demoExt.Marshal r = .ok (r.Name.toList.length :: r.Address.toList.length
      :: (r.Name.toList.map Char.toNat ++ r.Address.toList.map Char.toNat ++ [0])) := rfl

theorem demoExt_keepsName : demoExt.KeepsName := by
  intro r b hm
  rw [demoExt_Marshal] at hm
  have hb := (Except.ok.inj hm).symm
  subst hb
  have hlen : (List.map Char.toNat r.Name.toList ++ List.map Char.toNat r.Address.toList
      ++ [0]).length = r.Name.toList.length + r.Address.toList.length + 1 := by
    simp only [List.length_append, List.length_map, List.length_singleton]
  have htake : (List.map Char.toNat r.Name.toList ++ List.map Char.toNat r.Address.toList
      ++ [0]).take r.Name.toList.length = List.map Char.toNat r.Name.toList := by
    rw [List.append_assoc, List.take_left']
    simp only [List.length_map]
  refine ⟨_, demoExt_Unmarshal _ _ _ hlen, ?_⟩
  simp only [htake, List.map_map]
  have hid : (Char.ofNat ∘ Char.toNat) = id := by
    funext c
    simp
  rw [hid, List.map_id]
  rfl

theorem demoExt_truncationFails : demoExt.TruncationFails := by
  intro r b k hm
  rw [demoExt_Marshal] at hm
  have hb := (Except.ok.inj hm).symm
  subst hb
  have hlen : (List.map Char.toNat r.Name.toList ++ List.map Char.toNat r.Address.toList
      ++ [0]).length = r.Name.toList.length + r.Address.toList.length + 1 := by
    simp only [List.length_append, List.length_map, List.length_singleton]
  generalize List.map Char.toNat r.Name.toList ++ List.map Char.toNat r.Address.toList
      ++ [0] = rest at hlen
  simp only [List.length_cons, Nat.add_sub_cancel]
  rcases k with _ | _ | k
  · exact ⟨_, rfl⟩
  · have hmin : min (0 + 1) (rest.length + 1) = 1 := by omega
    rw [hmin]
    exact ⟨"unexpected end of JSON input", rfl⟩
  · have hmin : min (k + 1 + 1) (rest.length + 1) = (min k (rest.length - 1)) + 1 + 1 := by
      omega
    rw [hmin, List.take_succ_cons, List.take_succ_cons]
    refine ⟨_, demoExt_Unmarshal_short _ _ _ ?_⟩
    simp only [List.length_take]
    omega

theorem stringOfBytes_bytesOfString (s : String) : stringOfBytes (bytesOfString s) = s := by
  unfold stringOfBytes bytesOfString
  rw [List.map_map]
  have hid : (Char.ofNat ∘ Char.toNat) = id := by
    funext c
    simp
  rw [hid, List.map_id]
  rfl

theorem jsonExt_Marshal (r : EncryptedKeyJSONV3) :
    jsonExt.Marshal r
      = demoExt.Marshal { r with Name := jsonString r.Name, Address := jsonString r.Address } :=
  rfl

theorem jsonExt_Unmarshal (b : Bytes) :
    jsonExt.Unmarshal b
      = match demoExt.Unmarshal b with
        | .ok r => .ok { r with Name := jsonString r.Name, Address := jsonString r.Address }
        | .error e => .error e :=
  rfl

theorem jsonExt_truncationFails : jsonExt.TruncationFails := by
  intro r b k hm
  rw [jsonExt_Marshal] at hm
  obtain ⟨e, he⟩ := demoExt_truncationFails _ b k hm
  exact ⟨e, by rw [jsonExt_Unmarshal, he]⟩

/-- The codec `jsonExt` keeps the names that are valid UTF-8. -/
theorem jsonExt_keeps (name : String)
    (hvalid : coerceLoop (bytesOfString name) 0 = bytesOfString name) : jsonExt.Keeps name := by
  have hfix : jsonString name = name := by
    unfold jsonString
    rw [hvalid, stringOfBytes_bytesOfString]
  intro r b hn hm
  rw [jsonExt_Marshal] at hm
  obtain ⟨r', hr', hname⟩ := demoExt_keepsName _ b hm
  refine ⟨_, by rw [jsonExt_Unmarshal, hr'], ?_⟩
  show jsonString r'.Name = name
  rw [hname]
  show jsonString (jsonString r.Name) = name
  rw [hn, hfix, hfix]

/-! ## Name uniqueness -/

/-- For a codec under which a truncated encoding does not decode, and a sequence
of `RunWalletGenkey`, `RunWalletImportkey` and `RunWalletDeletekey` calls in which
the codec keeps every name to create, name uniqueness is preserved; and once a
record of a name is present, another attempt to create that name leaves exactly
one record of it. -/
theorem name_uniqueness_invariant (x : Ext) (htrunc : x.TruncationFails) (d : Dir)
    (h : UniqueNames x d) (calls : List Call) (hkeep : ∀ call ∈ calls, call.Kept x) :
    UniqueNames x (runCalls x d calls)
    ∧ ∀ (env : Env) (c : CmdConfig) (name : String) (rest : List String),
        c.Args = name :: rest →
        name ∈ (records x (runCalls x d calls)).map (·.Name) →
        ((records x (RunWalletGenkey x env c (runCalls x d calls)).dir).map (·.Name)).count name
            = 1
        ∧ ((records x (RunWalletImportkey x env c (runCalls x d calls)).dir).map
            (·.Name)).count name = 1 := by
  have hu := runCalls_unique x htrunc calls hkeep d h
  refine ⟨hu, fun env c name rest hargs hmem => ?_⟩
  have hdup := isNamed_of_mem_records x name _ hmem
  rw [(genkey_dup x env c _ name rest hargs hdup).1,
    (importkey_dup x env c _ name rest hargs hdup).1]
  exact ⟨count_name_eq_one x _ name hu hmem, count_name_eq_one x _ name hu hmem⟩

/-- From the empty directory, creating bob and then attempting bob again: the
directory holds the one record written by the first call. -/
theorem name_uniqueness_invariant_witness :
    demoExt.TruncationFails ∧ UniqueNames demoExt []
    ∧ (∀ call ∈ [Call.genkey demoEnv ⟨["bob"], "wallet"⟩,
          Call.genkey demoEnv ⟨["bob"], "wallet"⟩], call.Kept demoExt)
    ∧ runCalls demoExt [] [.genkey demoEnv ⟨["bob"], "wallet"⟩,
          .genkey demoEnv ⟨["bob"], "wallet"⟩]
        = [⟨"UTC--2020-01-01T00-00-00Z--A1", .ok [3, 2, 98, 111, 98, 65, 49, 0]⟩]
    ∧ UniqueNames demoExt (runCalls demoExt [] [.genkey demoEnv ⟨["bob"], "wallet"⟩,
          .genkey demoEnv ⟨["bob"], "wallet"⟩]) :=
  ⟨demoExt_truncationFails, by simp [UniqueNames, records],
    fun call _ => kept_of_keepsName demoExt demoExt_keepsName call, by decide,
    (name_uniqueness_invariant demoExt demoExt_truncationFails []
      (by simp [UniqueNames, records])
      [.genkey demoEnv ⟨["bob"], "wallet"⟩, .genkey demoEnv ⟨["bob"], "wallet"⟩]
      (fun call _ => kept_of_keepsName demoExt demoExt_keepsName call)).1⟩

/-! ## Claim C2 -/

/-- C2 at a failing input: `RunWalletGenkey` run twice on the empty directory with
the argument of the bytes `62 6F 62 FF`, which are not valid UTF-8, under a codec
that treats names as `encoding/json` does. Names are unique in the empty
directory. The second run finds no record of the name of its argument, because
the stored record decodes to the name of the bytes `62 6F 62 EF BF BD`; it writes
a second record, and the two records of the directory have the same name. With
the argument bob the second run stops at the duplicate and the directory holds one
record. -/
theorem genkey_twice_same_decoded_name :
    UniqueNames jsonExt []
    ∧ runCalls jsonExt [] [.genkey demoEnv ⟨[stringOfBytes [98, 111, 98, 255]], "wallet"⟩,
          .genkey demoEnvLater ⟨[stringOfBytes [98, 111, 98, 255]], "wallet"⟩]
        = [⟨"UTC--2020-01-01T00-00-00Z--A1",
              .ok [6, 2, 98, 111, 98, 239, 191, 189, 65, 49, 0]⟩,
            ⟨"UTC--2020-01-01T00-00-01Z--A2",
              .ok [6, 2, 98, 111, 98, 239, 191, 189, 65, 50, 0]⟩]
    ∧ (records jsonExt (runCalls jsonExt []
          [.genkey demoEnv ⟨[stringOfBytes [98, 111, 98, 255]], "wallet"⟩,
            .genkey demoEnvLater ⟨[stringOfBytes [98, 111, 98, 255]], "wallet"⟩])).map
          (fun r => bytesOfString r.Name)
        = [[98, 111, 98, 239, 191, 189], [98, 111, 98, 239, 191, 189]]
    ∧ ¬ UniqueNames jsonExt (runCalls jsonExt []
          [.genkey demoEnv ⟨[stringOfBytes [98, 111, 98, 255]], "wallet"⟩,
            .genkey demoEnvLater ⟨[stringOfBytes [98, 111, 98, 255]], "wallet"⟩])
    ∧ scanName jsonExt (stringOfBytes [98, 111, 98, 255])
          [⟨"UTC--2020-01-01T00-00-00Z--A1",
            .ok [6, 2, 98, 111, 98, 239, 191, 189, 65, 49, 0]⟩] = .absent
    ∧ (RunWalletGenkey jsonExt demoEnvLater ⟨[stringOfBytes [98, 111, 98, 255]], "wallet"⟩
          [⟨"UTC--2020-01-01T00-00-00Z--A1",
            .ok [6, 2, 98, 111, 98, 239, 191, 189, 65, 49, 0]⟩]).trace.drop 11
        = [.write "UTC--2020-01-01T00-00-01Z--A2"
              [6, 2, 98, 111, 98, 239, 191, 189, 65, 50, 0],
            .stderr "\ncreated keystore: /home/u/.ankr/UTC--2020-01-01T00-00-01Z--A2\n\n"]
    ∧ runCalls jsonExt [] [.genkey demoEnv ⟨["bob"], "wallet"⟩,
          .genkey demoEnvLater ⟨["bob"], "wallet"⟩]
        = [⟨"UTC--2020-01-01T00-00-00Z--A1", .ok [3, 2, 98, 111, 98, 65, 49, 0]⟩]
    ∧ (RunWalletGenkey jsonExt demoEnvLater ⟨["bob"], "wallet"⟩
          [⟨"UTC--2020-01-01T00-00-00Z--A1", .ok [3, 2, 98, 111, 98, 65, 49, 0]⟩]).trace
        = [errorLine "key name already exists"] := by
  refine ⟨by simp [UniqueNames, records], by decide, by decide, ?_, by decide, by decide,
    by decide, by decide⟩
  unfold UniqueNames
  decide
/-! ## Keystore: deletion and listing -/

/-- The scan of `RunWalletDeletekey` on a directory with distinct file names whose
scanned entries read and decode: it finds the first entry holding a record of the
name, and removing the file of that name removes exactly that entry; with no such
entry it ends without a verdict. -/
theorem scanName_spec (x : Ext) (name : String) : ∀ d : Dir,
    (d.map (·.name)).Nodup →
    (∀ f ∈ d.takeWhile (fun f => !isNamed x name f), scannable x f = true) →
    (d.any (isNamed x name) = true →
      ∃ f key, f ∈ d ∧ scanName x name d = .found f key
        ∧ removeFile f.name d = d.eraseP (isNamed x name))
    ∧ (d.any (isNamed x name) = false → scanName x name d = .absent) := by
  intro d
  induction d with
  | nil =>
    intro _ _
    exact ⟨fun h => by simp at h, fun _ => rfl⟩
  | cons g gs ih =>
    intro hnd hscan
    by_cases hg : isNamed x name g = true
    · refine ⟨fun _ => ?_, fun h => by simp [hg] at h⟩
      obtain ⟨key, hk, -⟩ := scanName_cons_named x name g gs hg
      refine ⟨g, key, List.mem_cons_self g gs, hk, ?_⟩
      simp [removeFile, List.eraseP_cons, hg]
    · have hg' : isNamed x name g = false := by simpa using hg
      have hsg : scannable x g = true :=
        hscan g (by simp [List.takeWhile_cons, hg'])
      have hskip := scanName_cons_skip x name g gs hsg hg'
      have hnd' : (gs.map (·.name)).Nodup := (List.nodup_cons.mp hnd).2
      have hnotin : g.name ∉ gs.map (·.name) := (List.nodup_cons.mp hnd).1
      have hscan' : ∀ f ∈ gs.takeWhile (fun f => !isNamed x name f), scannable x f = true := by
        intro f hf
        exact hscan f (by simp [List.takeWhile_cons, hg', hf])
      obtain ⟨ihf, iha⟩ := ih hnd' hscan'
      refine ⟨fun h => ?_, fun h => ?_⟩
      · have hany : gs.any (isNamed x name) = true := by simpa [hg'] using h
        obtain ⟨f, key, hf, hfound, hrm⟩ := ihf hany
        refine ⟨f, key, List.mem_cons_of_mem g hf, by rw [hskip, hfound], ?_⟩
        have hne : g.name ≠ f.name := fun heq =>
          hnotin (heq ▸ List.mem_map_of_mem (·.name) hf)
        unfold removeFile at hrm ⊢
        have hbeq : (g.name == f.name) = false := by simpa using hne
        rw [List.eraseP_cons, List.eraseP_cons, hrm, hbeq, hg']
      · have hany : gs.any (isNamed x name) = false := by simpa [hg'] using h
        rw [hskip, iha hany]

/-! ## Claim C9 -/

/-- C9 fails as stated: when `os.Remove` returns an error, a confirmed
`RunWalletDeletekey` on a directory whose only entry holds the record bob leaves
the directory as it was. -/
theorem deletekey_remove_may_fail :
    ¬ ∀ (x : Ext) (env : Env) (c : CmdConfig) (d : Dir) (name : String)
        (rest : List String),
        c.Args = name :: rest → (d.map (·.name)).Nodup → env.confirm = true →
        (∀ f ∈ d.takeWhile (fun f => !isNamed x name f), scannable x f = true) →
        d.any (isNamed x name) = true →
        (RunWalletDeletekey x env c d).dir = d.eraseP (isNamed x name) := by
  intro h
  have h1 := h demoExt { demoEnv with remove := .error "permission denied" }
    ⟨["bob"], "wallet"⟩ [⟨"UTC--2019--A0", .ok [3, 2, 98, 111, 98, 65, 48, 0]⟩] "bob" []
    rfl (by decide) rfl (by decide) (by decide)
  revert h1
  decide

/-- C9 as amended: after a confirmed `RunWalletDeletekey(name)` on a directory with
distinct file names in which every scanned file reads and decodes: if some entry
holds a record of the name and `os.Remove` succeeds, the directory is the original
one without the first such entry, every other entry unchanged; if `os.Remove`
fails, the directory is unchanged and the error is printed; if no entry holds a
record of the name, the directory is unchanged and the not-found line is printed. -/
theorem deletekey_frame (x : Ext) (env : Env) (c : CmdConfig) (d : Dir) (name : String)
    (rest : List String) (hargs : c.Args = name :: rest)
    (hnd : (d.map (·.name)).Nodup) (hconf : env.confirm = true)
    (hscan : ∀ f ∈ d.takeWhile (fun f => !isNamed x name f), scannable x f = true) :
    (d.any (isNamed x name) = true →
      (env.remove = .ok () →
        (RunWalletDeletekey x env c d).dir = d.eraseP (isNamed x name)
        ∧ .stderr ("\nkeystore \x27" ++ name ++ "\x27 deleted\n")
            ∈ (RunWalletDeletekey x env c d).trace)
      ∧ (∀ e, env.remove = .error e →
        (RunWalletDeletekey x env c d).dir = d
        ∧ errorLine e ∈ (RunWalletDeletekey x env c d).trace))
    ∧ (d.any (isNamed x name) = false →
      (RunWalletDeletekey x env c d).dir = d
      ∧ .stderr ("\nERROR: no keystore found with name \x27" ++ name ++ "\x27\n")
          ∈ (RunWalletDeletekey x env c d).trace)
    ∧ (RunWalletDeletekey x env c d).err = none := by
  obtain ⟨hf, ha⟩ := scanName_spec x name d hnd hscan
  unfold RunWalletDeletekey
  rw [hargs]
  dsimp only
  rw [hconf]
  refine ⟨fun hany => ?_, fun hany => ?_, ?_⟩
  · obtain ⟨f, key, -, hfound, hrm⟩ := hf hany
    rw [hfound]
    refine ⟨fun hok => ?_, fun e herr => ?_⟩
    · rw [hok]
      simp [hrm]
    · rw [herr]
      simp
  · rw [ha hany]
    simp
  · cases hs : scanName x name d with
    | readErr e => simp
    | decodeErr e => simp
    | absent => simp
    | found f key => cases hrm : env.remove <;> simp

/-- C9 as amended, on a directory holding the records al and bob, deleting bob:
the file of bob is gone and the two other entries are as before. -/
theorem deletekey_frame_witness :
    (RunWalletDeletekey demoExt demoEnv ⟨["bob"], "wallet"⟩ demoDir).dir
      = [⟨"UTC--2018--A9", .ok [2, 2, 97, 108, 65, 57, 0]⟩, ⟨"notes.txt", .ok [1]⟩] := by
  have h := (deletekey_frame demoExt demoEnv ⟨["bob"], "wallet"⟩ demoDir "bob" [] rfl
    (by decide) rfl (by decide)).1 (by decide)
  rw [(h.1 rfl).1]
  decide

theorem keylistLoop_spec (x : Ext) : ∀ (d : Dir) (keylist : List KeyStore),
    (∀ f ∈ d, scannable x f = true) →
    keylistLoop x d keylist
      = .ok (keylist ++ (records x d).map (fun r => ⟨r.Name, r.Address, r.PublicKey⟩)) := by
  intro d
  induction d with
  | nil => intro keylist _; simp [keylistLoop, records]
  | cons g gs ih =>
    intro keylist h
    have hg : scannable x g = true := h g (List.mem_cons_self g gs)
    have hgs : ∀ f ∈ gs, scannable x f = true := fun f hf => h f (List.mem_cons_of_mem g hf)
    unfold scannable at hg
    rw [keylistLoop, records_cons]
    cases hm : matchUTC g.name with
    | false =>
      have hr : recordOf x g = none := by simp [recordOf, hm]
      simp [hr, ih keylist hgs]
    | true =>
      rw [hm] at hg
      simp only [Bool.not_true, Bool.false_or] at hg
      obtain ⟨key, hkey⟩ := Option.isSome_iff_exists.mp hg
      obtain ⟨-, kf, hc, hu⟩ := (recordOf_eq_some x g key).mp hkey
      simp [hc, hu, hkey, ih _ hgs]

theorem records_forall₂ (x : Ext) : ∀ d : Dir, (∀ f ∈ d, scannable x f = true) →
    List.Forall₂ (fun f r => recordOf x f = some r)
      (d.filter (fun f => matchUTC f.name)) (records x d) := by
  intro d
  induction d with
  | nil => intro _; simp [records]
  | cons g gs ih =>
    intro h
    have hg : scannable x g = true := h g (List.mem_cons_self g gs)
    have hgs : ∀ f ∈ gs, scannable x f = true := fun f hf => h f (List.mem_cons_of_mem g hf)
    unfold scannable at hg
    rw [records_cons]
    cases hm : matchUTC g.name with
    | false =>
      have hr : recordOf x g = none := by simp [recordOf, hm]
      simpa [List.filter_cons, hm, hr] using ih hgs
    | true =>
      rw [hm] at hg
      simp only [Bool.not_true, Bool.false_or] at hg
      obtain ⟨key, hkey⟩ := Option.isSome_iff_exists.mp hg
      simp only [List.filter_cons, hm, if_true, hkey, Option.toList, List.singleton_append]
      exact List.Forall₂.cons hkey (ih hgs)

/-! ## Claim C10 -/

/-- C10: on a directory whose entries matching `UTC*` all read and decode,
`RunWalletKeylist` displays one entry per file matching `UTC*`, in directory order,
the i-th made of the name, address and public key of the record in the i-th such
file (the entry type has no other field); other files contribute nothing, and the
directory is unchanged. -/
theorem keylist_metadata_in_order (x : Ext) (env : Env) (d : Dir)
    (hdec : ∀ f ∈ d, matchUTC f.name = true →
      ∃ kf key, f.content = .ok kf ∧ x.Unmarshal kf = .ok key) :
    ∃ recs, List.Forall₂ (fun f r => recordOf x f = some r)
        (d.filter (fun f => matchUTC f.name)) recs
      ∧ (RunWalletKeylist x env d).trace
          = [.display (recs.map (fun r => ⟨r.Name, r.Address, r.PublicKey⟩))]
      ∧ recs.length = (d.filter (fun f => matchUTC f.name)).length
      ∧ (RunWalletKeylist x env d).dir = d := by
  have hs : ∀ f ∈ d, scannable x f = true := by
    intro f hf
    unfold scannable
    cases hm : matchUTC f.name with
    | false => rfl
    | true =>
      obtain ⟨kf, key, hc, hu⟩ := hdec f hf hm
      have := (recordOf_eq_some x f key).mpr ⟨hm, kf, hc, hu⟩
      simp [this]
  have hloop := keylistLoop_spec x d [] hs
  have hall := records_forall₂ x d hs
  refine ⟨records x d, hall, ?_, hall.length_eq.symm, ?_⟩
  · simp [RunWalletKeylist, hloop]
  · simp [RunWalletKeylist, hloop]

/-- C10 on a directory holding the records al and bob and a file that does not
match `UTC*`: the two matching files decode, and the statement holds there. -/
theorem keylist_metadata_in_order_witness :
    (∀ f ∈ demoDir, matchUTC f.name = true →
      ∃ kf key, f.content = .ok kf ∧ demoExt.Unmarshal kf = .ok key)
    ∧ ∃ recs, List.Forall₂ (fun f r => recordOf demoExt f = some r)
        (demoDir.filter (fun f => matchUTC f.name)) recs
      ∧ (RunWalletKeylist demoExt demoEnv demoDir).trace
          = [.display (recs.map (fun r => ⟨r.Name, r.Address, r.PublicKey⟩))]
      ∧ recs.length = (demoDir.filter (fun f => matchUTC f.name)).length
      ∧ (RunWalletKeylist demoExt demoEnv demoDir).dir = demoDir :=
  have hdec : ∀ f ∈ demoDir, matchUTC f.name = true →
      ∃ kf key, f.content = .ok kf ∧ demoExt.Unmarshal kf = .ok key := by
    intro f hf hm
    simp only [demoDir, List.mem_cons, List.mem_singleton, List.not_mem_nil, or_false] at hf
    rcases hf with rfl | rfl | rfl
    · exact ⟨_, _, rfl, rfl⟩
    · exact ⟨_, _, rfl, rfl⟩
    · exact absurd hm (by decide)
  ⟨hdec, keylist_metadata_in_order demoExt demoEnv demoDir hdec⟩
/-! ## Shuffle: the iterations -/

theorem shuffleTrace_spec (r : Rand) : ∀ (todo i : Nat) (arr ret : List String),
    todo ≤ arr.length → ret.length = i + todo →
    shuffleTrace r todo i arr todo ret
      = (List.range todo).map
          (fun j => (i + j, todo - j, i + todo, some (r (i + j) % (todo - j)))) := by
  intro todo
  induction todo with
  | zero => intro i arr ret _ _; simp [shuffleTrace]
  | succ t ih =>
    intro i arr ret harr hret
    have hk : r i % (t + 1) < t + 1 := Nat.mod_lt _ (Nat.succ_pos t)
    have hk' : r i % (t + 1) < arr.length := by omega
    have hi : i < ret.length := by omega
    have hget : arr[r i % (t + 1)]? = some (arr[r i % (t + 1)]) := List.getElem?_eq_getElem hk'
    have hlen' := length_removeAt arr (t + 1) (r i % (t + 1)) hk harr
    have hrec := ih (i + 1) (removeAt arr (t + 1) (r i % (t + 1)))
      (ret.set i arr[r i % (t + 1)]) (by omega) (by simp; omega)
    rw [shuffleTrace, if_neg (Nat.succ_ne_zero t)]
    simp only [hk, hi, and_self, if_true, hget, Nat.add_sub_cancel]
    rw [hrec, List.range_succ_eq_map, List.map_cons, List.map_map]
    refine congrArg₂ List.cons ?_ (List.map_congr_left fun j _ => ?_)
    · simp [hret]
    · have e1 : i + 1 + j = i + (j + 1) := by omega
      have e2 : t + 1 - (j + 1) = t - j := by omega
      have e3 : i + 1 + t = i + (t + 1) := by omega
      simp only [Function.comp, Nat.succ_eq_add_one, e1, e2, e3]

theorem ShuffleTrace_eq (r : Rand) (l : List String) :
    ShuffleTrace r l = (List.range l.length).map
      (fun i => (i, l.length - i, l.length, some (r i % (l.length - i)))) := by
  have h := shuffleTrace_spec r l.length 0 l (List.replicate l.length "") (le_refl _) (by simp)
  simpa [ShuffleTrace] using h

/-! ## Claim C18 -/

/-- C18: for every input list and random source, Shuffle returns (no panic); it
runs one iteration per element, and in the iteration of index i the bound passed
to `r.Intn` is n - i, which is positive, the drawn index is below that bound (the
length of the remaining slice), and i is below the length of `ret`; on the empty
list no iteration runs and the empty list is returned. -/
theorem Shuffle_never_panics (r : Rand) (l : List String) :
    (∃ p a, Shuffle r l = some (p, a))
    ∧ (ShuffleTrace r l).length = l.length
    ∧ (∀ e ∈ ShuffleTrace r l, ∃ i k, e = (i, l.length - i, l.length, some k)
        ∧ i < l.length ∧ 0 < l.length - i ∧ k < l.length - i ∧ k = r i % (l.length - i))
    ∧ Shuffle r [] = some ([], []) ∧ ShuffleTrace r [] = [] := by
  obtain ⟨a, ha, -, -, -⟩ := Shuffle_eq r l
  refine ⟨⟨_, a, ha⟩, by simp [ShuffleTrace_eq], ?_, rfl, rfl⟩
  intro e he
  rw [ShuffleTrace_eq] at he
  obtain ⟨i, hi, rfl⟩ := List.mem_map.mp he
  have hi' : i < l.length := List.mem_range.mp hi
  exact ⟨i, _, rfl, hi', by omega, Nat.mod_lt _ (by omega), rfl⟩

/-! ## The password cipher: round trip -/

theorem xorStream_xorStream (P : Primitives) (key iv : Bytes) : ∀ (bs : Bytes) (i : Nat),
    xorStream P key iv i (xorStream P key iv i bs) = bs := by
  intro bs
  induction bs with
  | nil => intro i; rfl
  | cons b bs ih =>
    intro i
    simp only [xorStream, ih, Nat.xor_cancel_right]

/-! ## Claim C13 -/

/-- C13: for every private key, password, salt and iv, and structurally valid cost
parameters, encrypting with `EncryptDataV3` succeeds and decrypting its result
with `DecryptDataV3` under the same password succeeds and returns exactly the
original bytes. -/
theorem encrypt_decrypt_round_trip (P : Primitives) (salt iv : Bytes) (scryptR dkLen : Nat)
    (data : Bytes) (auth : String) (scryptN scryptP : Nat)
    (hvalid : validCost scryptN scryptR scryptP = true) :
    ∃ c, EncryptDataV3 P salt iv scryptR dkLen data auth scryptN scryptP = .ok c
      ∧ DecryptDataV3 P c auth = .ok data := by
  have henc : EncryptDataV3 P salt iv scryptR dkLen data auth scryptN scryptP
      = .ok { cipher := P.cipherName,
              cipherText := Encrypt P data
                ((P.kdf auth salt scryptN scryptR scryptP dkLen).take (dkLen / 2)) iv,
              iv := iv, kdf := P.kdfName, salt := salt, costN := scryptN, costR := scryptR,
              costP := scryptP, dkLen := dkLen,
              mac := ComputeMAC P ((P.kdf auth salt scryptN scryptR scryptP dkLen).drop (dkLen / 2))
                (Encrypt P data
                  ((P.kdf auth salt scryptN scryptR scryptP dkLen).take (dkLen / 2)) iv) } := by
    simp [EncryptDataV3, DeriveKey, hvalid]
  refine ⟨_, henc, ?_⟩
  simp [DecryptDataV3, DeriveKey, hvalid, Decrypt, Encrypt, xorStream_xorStream]

/-- C13 on the key k1 and the password pw, with N = 262144, r = 8, p = 1. -/
theorem encrypt_decrypt_round_trip_witness :
    validCost 262144 8 1 = true
    ∧ ∃ c, EncryptDataV3 demoPrimitives [1, 2] [3] 8 32 [107, 49] "pw" 262144 1 = .ok c
      ∧ DecryptDataV3 demoPrimitives c "pw" = .ok [107, 49] :=
  ⟨by decide, encrypt_decrypt_round_trip demoPrimitives [1, 2] [3] 8 32 [107, 49] "pw"
    262144 1 (by decide)⟩

/-! ## Keystore: what is written -/

theorem importkeyCreate_write (x : Ext) (env : Env) (name : String)
    (key : EncryptedKeyJSONV3) (d : Dir) (file : String) (data : Bytes)
    (h : Event.write file data ∈ (importkeyCreate x env name key d).trace) :
    ∃ pw pk, env.password = .ok pw ∧ x.DecryptDataV3 key.Crypto pw = .ok pk
      ∧ x.Marshal { key with Name := name } = .ok data
      ∧ file = "UTC--" ++ env.now ++ "--" ++ key.Address := by
  unfold importkeyCreate at h
  dsimp only at h
  repeat' split at h
  all_goals simp [errorLine] at h
  all_goals
    obtain ⟨rfl, rfl⟩ := h
    exact ⟨_, _, by assumption, by assumption, by assumption, rfl⟩

theorem importkeyCreate_decrypt_fails (x : Ext) (env : Env) (name : String)
    (key : EncryptedKeyJSONV3) (d : Dir)
    (h : ∀ pw, env.password = .ok pw → ∃ e, x.DecryptDataV3 key.Crypto pw = .error e) :
    (importkeyCreate x env name key d).dir = d
      ∧ (∀ file, Event.keyFileWriter file ∉ (importkeyCreate x env name key d).trace)
      ∧ ∀ file data, Event.write file data ∉ (importkeyCreate x env name key d).trace := by
  unfold importkeyCreate
  dsimp only
  cases hp : env.password with
  | error e => simp [errorLine]
  | ok pw =>
    obtain ⟨e, he⟩ := h pw hp
    simp [he, errorLine]

theorem importkey_reaches_create (x : Ext) (env : Env) (c : CmdConfig) (d : Dir)
    (P : Result → Prop)
    (hd : ∀ t e, (∀ ev ∈ t, ∃ m, ev = Event.stderr m) → P ⟨d, t, e⟩)
    (hc : ∀ name rest kf key, c.Args = name :: rest → env.keyFile = .ok kf →
      x.Unmarshal kf = .ok key → P (importkeyCreate x env name key d)) :
    P (RunWalletImportkey x env c d) := by
  unfold RunWalletImportkey
  cases hargs : c.Args with
  | nil => exact hd _ _ (by simp)
  | cons name rest =>
    dsimp only
    cases hflag : env.keyFileFlag with
    | error e => exact hd _ _ (by simp)
    | ok ks =>
      dsimp only
      cases hkf : env.keyFile with
      | error e => exact hd _ _ (by simp [errorLine])
      | ok kf =>
        dsimp only
        cases hu : x.Unmarshal kf with
        | error e => exact hd _ _ (by simp [errorLine])
        | ok key =>
          dsimp only
          cases hs : scanName x name d with
          | readErr e => exact hd _ _ (by simp [errorLine])
          | decodeErr e => exact hd _ _ (by simp [errorLine])
          | found f k => exact hd _ _ (by simp)
          | absent => exact hc name rest kf key hargs hkf hu

theorem importkey_write (x : Ext) (env : Env) (c : CmdConfig) (d : Dir) (file : String)
    (data : Bytes) (h : Event.write file data ∈ (RunWalletImportkey x env c d).trace) :
    ∃ name rest kf key pw pk, c.Args = name :: rest ∧ env.keyFile = .ok kf
      ∧ x.Unmarshal kf = .ok key ∧ env.password = .ok pw
      ∧ x.DecryptDataV3 key.Crypto pw = .ok pk
      ∧ x.Marshal { key with Name := name } = .ok data
      ∧ file = "UTC--" ++ env.now ++ "--" ++ key.Address := by
  revert h
  refine importkey_reaches_create x env c d
    (fun res => Event.write file data ∈ res.trace → _) ?_ ?_
  · intro t e ht hmem
    obtain ⟨m, hm⟩ := ht _ hmem
    cases hm
  · intro name rest kf key hargs hkf hu hmem
    obtain ⟨pw, pk, hp, hdec, hmar, hfile⟩ := importkeyCreate_write x env name key d file data hmem
    exact ⟨name, rest, kf, key, pw, pk, hargs, hkf, hu, hp, hdec, hmar, hfile⟩

theorem importkey_success (x : Ext) (env : Env) (c : CmdConfig) (d : Dir)
    (name : String) (rest : List String) (ks : String) (kf : Bytes)
    (key : EncryptedKeyJSONV3) (pw : String) (pk jsonKey : Bytes)
    (hargs : c.Args = name :: rest) (hflag : env.keyFileFlag = .ok ks)
    (hkf : env.keyFile = .ok kf) (hu : x.Unmarshal kf = .ok key)
    (hscan : scanName x name d = .absent) (hp : env.password = .ok pw)
    (hdec : x.DecryptDataV3 key.Crypto pw = .ok pk)
    (hmar : x.Marshal { key with Name := name } = .ok jsonKey)
    (hcreate : env.create = .ok ()) :
    (RunWalletImportkey x env c d).dir
        = putFile ("UTC--" ++ env.now ++ "--" ++ key.Address) (written env jsonKey) d
    ∧ (RunWalletImportkey x env c d).err = none
    ∧ (∃ last, (RunWalletImportkey x env c d).trace
        = [.stdout "please input the keystore password: ", .readPassword,
            .keyFileWriter ("UTC--" ++ env.now ++ "--" ++ key.Address),
            .write ("UTC--" ++ env.now ++ "--" ++ key.Address) jsonKey, last])
    ∧ (env.writeFail = none →
      (RunWalletImportkey x env c d).dir
          = putFile ("UTC--" ++ env.now ++ "--" ++ key.Address) jsonKey d
      ∧ (RunWalletImportkey x env c d).trace
        = [.stdout "please input the keystore password: ", .readPassword,
            .keyFileWriter ("UTC--" ++ env.now ++ "--" ++ key.Address),
            .write ("UTC--" ++ env.now ++ "--" ++ key.Address) jsonKey,
            .stdout ("\nkeystore imported: " ++ x.configHome ++ "/"
              ++ ("UTC--" ++ env.now ++ "--" ++ key.Address) ++ "\n\n")]) := by
  have hrun : RunWalletImportkey x env c d = importkeyCreate x env name key d := by
    unfold RunWalletImportkey
    rw [hargs]
    dsimp only
    rw [hflag]
    dsimp only
    rw [hkf]
    dsimp only
    rw [hu]
    dsimp only
    rw [hscan]
  rw [hrun]
  unfold importkeyCreate
  dsimp only
  rw [hp]
  dsimp only
  rw [hdec]
  dsimp only
  rw [hmar]
  dsimp only
  rw [hcreate]
  dsimp only
  cases hw : env.writeFail with
  | none =>
    dsimp only
    refine ⟨rfl, rfl, ⟨_, rfl⟩, fun _ => ⟨?_, rfl⟩⟩
    simp [written, hw]
  | some k =>
    dsimp only
    exact ⟨rfl, rfl, ⟨_, rfl⟩, fun h => by cases h⟩

/-! ## Claim C20 -/

/-- C20: for every key file and entered password, if `DecryptDataV3` fails on the
crypto section of the decoded key file, `RunWalletImportkey` does not open or
write any file and the directory is unchanged; whenever it writes, the
decryption succeeded and the bytes written are the encoding of the decoded input
record with only the name replaced by the requested name; and when the
decryption succeeds (no stored record has the requested name, the record is
encoded and the file is created), the command does write: the record written is
the decoded input record with the name replaced by the requested name and every
other field unchanged, its encoding is written once, after the password was
read, to the file named by the time and the address of the input record, the
directory afterwards is the one before with that file put in, and when the write
succeeds the file holds exactly that encoding and the success line is printed. -/
theorem importkey_writes_after_decrypt (x : Ext) (env : Env) (c : CmdConfig) (d : Dir) :
    (∀ kf key, env.keyFile = .ok kf → x.Unmarshal kf = .ok key →
      (∀ pw, env.password = .ok pw → ∃ e, x.DecryptDataV3 key.Crypto pw = .error e) →
      (RunWalletImportkey x env c d).dir = d
        ∧ (∀ file, Event.keyFileWriter file ∉ (RunWalletImportkey x env c d).trace)
        ∧ ∀ file data, Event.write file data ∉ (RunWalletImportkey x env c d).trace)
    ∧ (∀ file data, Event.write file data ∈ (RunWalletImportkey x env c d).trace →
      ∃ name rest kf key pw pk, c.Args = name :: rest ∧ env.keyFile = .ok kf
        ∧ x.Unmarshal kf = .ok key ∧ env.password = .ok pw
        ∧ x.DecryptDataV3 key.Crypto pw = .ok pk
        ∧ x.Marshal { key with Name := name } = .ok data)
    ∧ (∀ name rest ks kf key pw pk, c.Args = name :: rest → env.keyFileFlag = .ok ks →
      env.keyFile = .ok kf → x.Unmarshal kf = .ok key → scanName x name d = .absent →
      env.password = .ok pw → x.DecryptDataV3 key.Crypto pw = .ok pk →
      ∀ jsonKey, x.Marshal ⟨name, key.Address, key.PublicKey, key.Crypto, key.KeyJSONVersion⟩
          = .ok jsonKey →
      env.create = .ok () →
      (RunWalletImportkey x env c d).dir
          = putFile ("UTC--" ++ env.now ++ "--" ++ key.Address) (written env jsonKey) d
      ∧ (RunWalletImportkey x env c d).err = none
      ∧ (∃ last, (RunWalletImportkey x env c d).trace
          = [.stdout "please input the keystore password: ", .readPassword,
              .keyFileWriter ("UTC--" ++ env.now ++ "--" ++ key.Address),
              .write ("UTC--" ++ env.now ++ "--" ++ key.Address) jsonKey, last])
      ∧ (env.writeFail = none →
        (RunWalletImportkey x env c d).dir
            = putFile ("UTC--" ++ env.now ++ "--" ++ key.Address) jsonKey d
        ∧ (RunWalletImportkey x env c d).trace
          = [.stdout "please input the keystore password: ", .readPassword,
              .keyFileWriter ("UTC--" ++ env.now ++ "--" ++ key.Address),
              .write ("UTC--" ++ env.now ++ "--" ++ key.Address) jsonKey,
              .stdout ("\nkeystore imported: " ++ x.configHome ++ "/"
                ++ ("UTC--" ++ env.now ++ "--" ++ key.Address) ++ "\n\n")])) := by
  refine ⟨fun kf key hkf hu hfail => ?_, fun file data h => ?_,
    fun name rest ks kf key pw pk hargs hflag hkf hu hscan hp hdec jsonKey hmar hcreate => ?_⟩
  · refine importkey_reaches_create x env c d
      (fun res => res.dir = d ∧ (∀ file, Event.keyFileWriter file ∉ res.trace)
        ∧ ∀ file data, Event.write file data ∉ res.trace) ?_ ?_
    · intro t e ht
      refine ⟨rfl, fun file hmem => ?_, fun file data hmem => ?_⟩
      · obtain ⟨m, hm⟩ := ht _ hmem
        cases hm
      · obtain ⟨m, hm⟩ := ht _ hmem
        cases hm
    · intro name rest kf' key' _ hkf' hu'
      have hkk : kf' = kf := Except.ok.inj (hkf'.symm.trans hkf)
      subst hkk
      have hkey : key' = key := Except.ok.inj (hu'.symm.trans hu)
      subst hkey
      exact importkeyCreate_decrypt_fails x env name key' d hfail
  · obtain ⟨name, rest, kf, key, pw, pk, hargs, hkf, hu, hp, hdec, hmar, -⟩ :=
      importkey_write x env c d file data h
    exact ⟨name, rest, kf, key, pw, pk, hargs, hkf, hu, hp, hdec, hmar⟩
  · exact importkey_success x env c d name rest ks kf key pw pk jsonKey hargs hflag hkf hu
      hscan hp hdec hmar hcreate

/-- C20 on the key file of the record bob, imported as al into the empty
directory. Under the password pw, which the codec of the examples rejects,
nothing is written. With the codec whose records the password pw decrypts, the
record of bob is written under the name al, with the address A1 of the input. -/
theorem importkey_writes_after_decrypt_witness :
    (∀ pw, demoEnv.password = .ok pw →
      ∃ e, demoExt.DecryptDataV3 ⟨"", [], [], "", [], 0, 0, 0, 0, []⟩ pw = .error e)
    ∧ (RunWalletImportkey demoExt demoEnv ⟨["al"], "wallet"⟩ []).dir = []
    ∧ (∀ file, Event.keyFileWriter file
        ∉ (RunWalletImportkey demoExt demoEnv ⟨["al"], "wallet"⟩ []).trace)
    ∧ (∀ file data, Event.write file data
        ∉ (RunWalletImportkey demoExt demoEnv ⟨["al"], "wallet"⟩ []).trace)
    ∧ demoSendExt.Unmarshal [3, 2, 98, 111, 98, 65, 49, 0]
        = .ok ⟨"bob", "A1", "", ⟨"aes-128-ctr", [107, 49], [1], "scrypt", [2], 262144, 8, 1, 32,
            [112, 119]⟩, 3⟩
    ∧ demoSendExt.DecryptDataV3 ⟨"aes-128-ctr", [107, 49], [1], "scrypt", [2], 262144, 8, 1, 32,
          [112, 119]⟩ "pw" = .ok [107, 49]
    ∧ demoSendExt.Marshal ⟨"al", "A1", "", ⟨"aes-128-ctr", [107, 49], [1], "scrypt", [2],
          262144, 8, 1, 32, [112, 119]⟩, 3⟩ = .ok [2, 2, 97, 108, 65, 49, 0]
    ∧ (RunWalletImportkey demoSendExt demoEnv ⟨["al"], "wallet"⟩ []).dir
        = [⟨"UTC--2020-01-01T00-00-00Z--A1", .ok [2, 2, 97, 108, 65, 49, 0]⟩]
    ∧ (RunWalletImportkey demoSendExt demoEnv ⟨["al"], "wallet"⟩ []).trace
        = [.stdout "please input the keystore password: ", .readPassword,
            .keyFileWriter "UTC--2020-01-01T00-00-00Z--A1",
            .write "UTC--2020-01-01T00-00-00Z--A1" [2, 2, 97, 108, 65, 49, 0],
            .stdout "\nkeystore imported: /home/u/.ankr/UTC--2020-01-01T00-00-00Z--A1\n\n"] :=
  have hfail : ∀ pw, demoEnv.password = .ok pw →
      ∃ e, demoExt.DecryptDataV3 ⟨"", [], [], "", [], 0, 0, 0, 0, []⟩ pw = .error e := by
    intro pw hpw
    have : pw = "pw" := (Except.ok.inj hpw).symm
    subst this
    exact ⟨_, rfl⟩
  have hgood := ((importkey_writes_after_decrypt demoSendExt demoEnv ⟨["al"], "wallet"⟩ []).2.2
    "al" [] "key.json" [3, 2, 98, 111, 98, 65, 49, 0]
    ⟨"bob", "A1", "", ⟨"aes-128-ctr", [107, 49], [1], "scrypt", [2], 262144, 8, 1, 32,
      [112, 119]⟩, 3⟩ "pw" [107, 49] rfl rfl rfl
    (by decide) rfl rfl (by decide) [2, 2, 97, 108, 65, 49, 0] (by decide) rfl).2.2.2 rfl
  ⟨hfail, (importkey_writes_after_decrypt demoExt demoEnv ⟨["al"], "wallet"⟩ []).1
    [3, 2, 98, 111, 98, 65, 49, 0] _ rfl rfl hfail |>.1,
    (importkey_writes_after_decrypt demoExt demoEnv ⟨["al"], "wallet"⟩ []).1
    [3, 2, 98, 111, 98, 65, 49, 0] _ rfl rfl hfail |>.2.1,
    (importkey_writes_after_decrypt demoExt demoEnv ⟨["al"], "wallet"⟩ []).1
    [3, 2, 98, 111, 98, 65, 49, 0] _ rfl rfl hfail |>.2.2,
    by decide, by decide, by decide, hgood.1.trans (by decide), hgood.2.trans (by decide)⟩
theorem genkeyCreate_write (x : Ext) (env : Env) (name : String) (d : Dir) (file : String)
    (data : Bytes) (h : Event.write file data ∈ (genkeyCreate x env name d).trace) :
    ∃ pw cs, env.password = .ok pw ∧ env.encrypted = .ok cs
      ∧ Event.encryptDataV3 env.account.1 pw ∈ (genkeyCreate x env name d).trace
      ∧ x.Marshal ⟨name, env.account.2, "", cs, x.keyJSONVersion⟩ = .ok data := by
  unfold genkeyCreate at h ⊢
  dsimp only at h ⊢
  cases hconf : env.confirm with
  | false => simp [hconf] at h
  | true =>
    by_cases hempty : env.account.1 = "" ∨ env.account.2 = ""
    · simp [hconf, hempty] at h
    · cases hp : env.password with
      | error e => simp [hconf, hempty, hp, errorLine] at h
      | ok pw =>
        cases hcp : env.confirmPassword with
        | error e => simp [hconf, hempty, hp, hcp, errorLine] at h
        | ok cpw =>
          by_cases hsame : pw = cpw
          · cases he : env.encrypted with
            | error e => simp [hconf, hempty, hp, hcp, hsame, he, errorLine] at h
            | ok cs =>
              cases hm : x.Marshal ⟨name, env.account.2, "", cs, x.keyJSONVersion⟩ with
              | error e => simp [hconf, hempty, hp, hcp, hsame, he, hm, errorLine] at h
              | ok jsonKey =>
                cases hcr : env.create with
                | error e => simp [hconf, hempty, hp, hcp, hsame, he, hm, hcr, errorLine] at h
                | ok u =>
                  refine ⟨pw, cs, rfl, rfl, ?_, ?_⟩
                  · cases hw : env.writeFail <;>
                      simp [hconf, hempty, hp, hcp, hsame, he, hm, hcr, hw]
                  · cases hw : env.writeFail <;>
                      simp [hconf, hempty, hp, hcp, hsame, he, hm, hcr, hw, errorLine] at h <;>
                      rw [h.2] <;> exact hm
          · simp [hconf, hempty, hp, hcp, hsame, errorLine] at h

theorem genkey_write (x : Ext) (env : Env) (c : CmdConfig) (d : Dir) (file : String)
    (data : Bytes) (h : Event.write file data ∈ (RunWalletGenkey x env c d).trace) :
    ∃ name rest pw cs, c.Args = name :: rest ∧ env.password = .ok pw
      ∧ env.encrypted = .ok cs
      ∧ Event.encryptDataV3 env.account.1 pw ∈ (RunWalletGenkey x env c d).trace
      ∧ x.Marshal ⟨name, env.account.2, "", cs, x.keyJSONVersion⟩ = .ok data := by
  unfold RunWalletGenkey at h ⊢
  cases hargs : c.Args with
  | nil => rw [hargs] at h; simp at h
  | cons name rest =>
    rw [hargs] at h
    dsimp only at h ⊢
    cases hs : scanName x name d with
    | readErr e => rw [hs] at h; simp [errorLine] at h
    | decodeErr e => rw [hs] at h; simp [errorLine] at h
    | found f key => rw [hs] at h; simp [errorLine] at h
    | absent =>
      rw [hs] at h
      obtain ⟨pw, cs, hp, he, henc, hmar⟩ := genkeyCreate_write x env name d file data h
      exact ⟨name, rest, pw, cs, rfl, hp, he, henc, hmar⟩

/-! ## Claim C14 -/

/-- C14 fails: `RunWalletImportkey` stores the address field of the key file as it
is. With the codec of the examples, two key files whose crypto sections decrypt
to the same key under the empty password, one with the address A1 and one with
the address B2, are both stored, so no derivation of the address from the
decrypted key agrees with every stored record. -/
theorem importkey_stores_unchecked_address :
    ¬ ∃ derive : Bytes → String, ∀ (env : Env) (c : CmdConfig) (d : Dir) (file : String)
        (data : Bytes),
        Event.write file data ∈ (RunWalletImportkey demoExt env c d).trace →
        ∀ r pw pk, demoExt.Unmarshal data = .ok r →
          demoExt.DecryptDataV3 r.Crypto pw = .ok pk → r.Address = derive pk := by
  rintro ⟨derive, h⟩
  have h1 := h { demoEnv with password := .ok "", keyFile := .ok [3, 2, 98, 111, 98, 65, 49, 0] }
    ⟨["al"], "wallet"⟩ [] "UTC--2020-01-01T00-00-00Z--A1" [2, 2, 97, 108, 65, 49, 0]
    (by decide) _ "" [] rfl rfl
  have h2 := h { demoEnv with password := .ok "", keyFile := .ok [3, 2, 98, 111, 98, 66, 50, 0] }
    ⟨["al"], "wallet"⟩ [] "UTC--2020-01-01T00-00-00Z--B2" [2, 2, 97, 108, 66, 50, 0]
    (by decide) _ "" [] rfl rfl
  have h3 : ("A1" : String) = "B2" := h1.trans h2.symm
  exact absurd h3 (by decide)

/-- C14 as amended: the record that `RunWalletGenkey` writes carries the address
returned by `GenAccount()` together with the private key that is passed to
`EncryptDataV3`, whose result is the crypto section of the record; the record
that `RunWalletImportkey` writes carries the address and the crypto section of
the decoded key file unchanged, after `DecryptDataV3` accepted the password,
without comparing the address with the decrypted key. -/
theorem stored_address_source (x : Ext) (env : Env) (c : CmdConfig) (d : Dir)
    (file : String) (data : Bytes) :
    (Event.write file data ∈ (RunWalletGenkey x env c d).trace →
      ∃ name rest pw cs, c.Args = name :: rest ∧ env.password = .ok pw
        ∧ env.encrypted = .ok cs
        ∧ Event.encryptDataV3 env.account.1 pw ∈ (RunWalletGenkey x env c d).trace
        ∧ x.Marshal ⟨name, env.account.2, "", cs, x.keyJSONVersion⟩ = .ok data)
    ∧ (Event.write file data ∈ (RunWalletImportkey x env c d).trace →
      ∃ name rest kf key pw pk, c.Args = name :: rest ∧ env.keyFile = .ok kf
        ∧ x.Unmarshal kf = .ok key ∧ env.password = .ok pw
        ∧ x.DecryptDataV3 key.Crypto pw = .ok pk
        ∧ x.Marshal ⟨name, key.Address, key.PublicKey, key.Crypto, key.KeyJSONVersion⟩
            = .ok data) := by
  refine ⟨genkey_write x env c d file data, fun h => ?_⟩
  obtain ⟨name, rest, kf, key, pw, pk, hargs, hkf, hu, hp, hdec, hmar, -⟩ :=
    importkey_write x env c d file data h
  exact ⟨name, rest, kf, key, pw, pk, hargs, hkf, hu, hp, hdec, hmar⟩

/-- C14 as amended, at the creation of bob in the empty directory: the write
event is there, and the statement holds for it. -/
theorem stored_address_source_witness :
    Event.write "UTC--2020-01-01T00-00-00Z--A1" [3, 2, 98, 111, 98, 65, 49, 0]
        ∈ (RunWalletGenkey demoExt demoEnv ⟨["bob"], "wallet"⟩ []).trace
    ∧ ∃ name rest pw cs, (⟨["bob"], "wallet"⟩ : CmdConfig).Args = name :: rest
        ∧ demoEnv.password = .ok pw ∧ demoEnv.encrypted = .ok cs
        ∧ Event.encryptDataV3 demoEnv.account.1 pw
            ∈ (RunWalletGenkey demoExt demoEnv ⟨["bob"], "wallet"⟩ []).trace
        ∧ demoExt.Marshal ⟨name, demoEnv.account.2, "", cs, demoExt.keyJSONVersion⟩
            = .ok [3, 2, 98, 111, 98, 65, 49, 0] :=
  ⟨by decide, (stored_address_source demoExt demoEnv ⟨["bob"], "wallet"⟩ []
    "UTC--2020-01-01T00-00-00Z--A1" [3, 2, 98, 111, 98, 65, 49, 0]).1 (by decide)⟩

/-! ## Claim C16 -/

/-- C16 at a failing input: `RunWalletGenkey` creating bob in the empty directory
when `kfw.Write` fails after 3 of the 8 bytes. The command prints that it is
unable to write the keystore and then that the keystore was created, and the
file with the 3 bytes is in the directory; `RunWalletImportkey` at the same
failure prints the first line only. -/
theorem genkey_reports_created_after_failed_write :
    (RunWalletGenkey demoExt { demoEnv with writeFail := some 3 } ⟨["bob"], "wallet"⟩
          []).trace.drop 11
        = [.write "UTC--2020-01-01T00-00-00Z--A1" [3, 2, 98, 111, 98, 65, 49, 0],
            errorLine "unable to write keystore",
            .stderr "\ncreated keystore: /home/u/.ankr/UTC--2020-01-01T00-00-00Z--A1\n\n"]
    ∧ (RunWalletGenkey demoExt { demoEnv with writeFail := some 3 } ⟨["bob"], "wallet"⟩ []).dir
        = [⟨"UTC--2020-01-01T00-00-00Z--A1", .ok [3, 2, 98]⟩]
    ∧ (RunWalletImportkey demoSendExt { demoEnv with writeFail := some 3 } ⟨["al"], "wallet"⟩
          []).trace
        = [.stdout "please input the keystore password: ", .readPassword,
            .keyFileWriter "UTC--2020-01-01T00-00-00Z--A1",
            .write "UTC--2020-01-01T00-00-00Z--A1" [2, 2, 97, 108, 65, 49, 0],
            errorLine "unable to write keystore"] :=
  ⟨by decide, by decide, by decide⟩
/-! ## Transfers: the stages of `RunWalletSendCoins` -/

theorem splitSemi_ne_nil : ∀ (cs cur : List Char), splitSemi cs cur ≠ [] := by
  intro cs
  induction cs with
  | nil => intro cur; simp [splitSemi]
  | cons c cs ih =>
    intro cur
    rw [splitSemi]
    split
    · simp
    · exact ih _

theorem selectEndpoint_isSome (r : Rand) (get : String → ProbeResult) (port : String)
    (urls : List String) (hne : urls ≠ []) :
    ∃ url probed, selectEndpoint r get port urls = some (url, probed) := by
  obtain ⟨a, ha, -, -, -⟩ := Shuffle_eq r urls
  have hperm := pick_perm r _ 0 urls rfl
  cases hord : pick r urls.length 0 urls with
  | nil =>
    rw [hord] at hperm
    exact absurd hperm.symm.eq_nil hne
  | cons e rest =>
    rw [hord] at ha
    exact ⟨_, _, by rw [selectEndpoint_of_Shuffle r get port urls e rest a ha]⟩

theorem commits_append (t u : List SendEvent) : commits (t ++ u) = commits t ++ commits u := by
  simp [commits]

theorem probes_append (t u : List SendEvent) : probes (t ++ u) = probes t ++ probes u := by
  simp [probes]

theorem commits_nil : commits [] = [] := rfl

theorem probes_nil : probes [] = [] := rfl

theorem commits_cons (e : SendEvent) (t : List SendEvent) :
    commits (e :: t)
      = (match e with
        | .buildAndCommit _ _ _ _ => [e]
        | _ => []) ++ commits t := by
  cases e <;> rfl

theorem probes_cons (e : SendEvent) (t : List SendEvent) :
    probes (e :: t)
      = (match e with
        | .httpGet _ => [e]
        | _ => []) ++ probes t := by
  cases e <;> rfl

theorem commits_probeEvents (l : List String) : commits (probeEvents l) = [] := by
  induction l with
  | nil => rfl
  | cons u us ih =>
    show commits (SendEvent.httpGet u :: probeEvents us) = []
    rw [commits_cons, ih]
    rfl

theorem probes_probeEvents (l : List String) : probes (probeEvents l) = probeEvents l := by
  induction l with
  | nil => rfl
  | cons u us ih =>
    show probes (SendEvent.httpGet u :: probeEvents us) = SendEvent.httpGet u :: probeEvents us
    rw [probes_cons, ih]
    rfl

/-- The last stage: without confirmation nothing is probed or submitted; with it,
the selection returns, its probes are the probes of the run, and there is exactly
one submission, of the header and message built from the arguments, to the
selected endpoint. -/
theorem sendSubmit_spec (env : SendEnv) (txSymbol target txVersion txMemo : String)
    (a g : Int) (address privateKey : String) (t : List SendEvent)
    (hc : commits t = []) (hp : probes t = []) :
    (sendSubmit env txSymbol target txVersion txMemo a g address privateKey t).err = none
    ∧ (env.confirm = false →
        commits (sendSubmit env txSymbol target txVersion txMemo a g address privateKey t).trace
          = []
        ∧ probes (sendSubmit env txSymbol target txVersion txMemo a g address privateKey t).trace
          = [])
    ∧ (env.confirm = true → ∃ url probed,
        selectEndpoint env.rand env.get (effectivePort env) (Split (effectiveURL env))
          = some (url, probed)
        ∧ commits (sendSubmit env txSymbol target txVersion txMemo a g address privateKey t).trace
          = [.buildAndCommit (url ++ ":" ++ effectivePort env) (headerOf txVersion txMemo g)
              (messageOf txSymbol address target a) privateKey]
        ∧ probes (sendSubmit env txSymbol target txVersion txMemo a g address privateKey t).trace
          = probeEvents probed) := by
  obtain ⟨url, probed, hsel⟩ := selectEndpoint_isSome env.rand env.get (effectivePort env)
    (Split (effectiveURL env)) (splitSemi_ne_nil _ _)
  unfold sendSubmit
  dsimp only
  cases hconf : env.confirm with
  | false =>
    simp [commits_append, probes_append, commits_cons, probes_cons, commits_nil, probes_nil,
      hc, hp]
  | true =>
    rw [hsel]
    cases hcm : env.commit with
    | error e =>
      simp [commits_append, probes_append, commits_cons, probes_cons, commits_nil, probes_nil,
        hc, hp, commits_probeEvents, probes_probeEvents, sendErrorLine]
      exact ⟨url, probed, ⟨rfl, rfl⟩, rfl, rfl⟩
    | ok res =>
      obtain ⟨txHash, txHeight⟩ := res
      simp [commits_append, probes_append, commits_cons, probes_cons, commits_nil, probes_nil,
        hc, hp, commits_probeEvents, probes_probeEvents]
      exact ⟨url, probed, ⟨rfl, rfl⟩, rfl, rfl⟩

theorem quiet_of_stderr (t : List SendEvent) (h : ∀ ev ∈ t, ∃ m, ev = SendEvent.stderr m) :
    commits t = [] ∧ probes t = [] := by
  induction t with
  | nil => exact ⟨rfl, rfl⟩
  | cons e t ih =>
    obtain ⟨m, rfl⟩ := h e (List.mem_cons_self e t)
    obtain ⟨h1, h2⟩ := ih (fun ev hev => h ev (List.mem_cons_of_mem _ hev))
    rw [commits_cons, probes_cons, h1, h2]
    exact ⟨rfl, rfl⟩

/-- The middle stage: either the run ends before the confirmation, with nothing
probed or submitted, or the password was read and decrypted the record, address
and private key are non-empty (those of the record, or those typed by the user
when one of the record's is empty), and the run continues with the last stage. -/
theorem sendWithKey_cases (x : Ext) (env : SendEnv)
    (txSymbol target txVersion txMemo : String) (a g : Int) (key : EncryptedKeyJSONV3)
    (P : SendResult → Prop)
    (hd : ∀ t, commits t = [] → probes t = [] → P ⟨t, none⟩)
    (hc : ∀ pw pk address privateKey t, env.password = .ok pw →
      x.DecryptDataV3 key.Crypto pw = .ok pk →
      address.length ≠ 0 → privateKey.length ≠ 0 → commits t = [] → probes t = [] →
      ((key.Address.length ≠ 0 ∧ (stringOfBytes pk).length ≠ 0
          ∧ address = key.Address ∧ privateKey = stringOfBytes pk)
        ∨ ((key.Address.length = 0 ∨ (stringOfBytes pk).length = 0)
          ∧ env.inputAddress = .ok address ∧ env.inputPrivateKey = .ok privateKey)) →
      P (sendSubmit env txSymbol target txVersion txMemo a g address privateKey t)) :
    P (sendWithKey x env txSymbol target txVersion txMemo a g key) := by
  unfold sendWithKey
  dsimp only
  cases hp : env.password with
  | error e => exact hd _ rfl rfl
  | ok pw =>
    dsimp only
    cases hdec : x.DecryptDataV3 key.Crypto pw with
    | error e => exact hd _ rfl rfl
    | ok pk =>
      dsimp only
      by_cases hempty : key.Address.length = 0 ∨ (stringOfBytes pk).length = 0
      · rw [if_pos hempty]
        cases hia : env.inputAddress with
        | error e => exact hd _ rfl rfl
        | ok address =>
          dsimp only
          cases hik : env.inputPrivateKey with
          | error e => exact hd _ rfl rfl
          | ok privateKey =>
            dsimp only
            by_cases hempty2 : address.length = 0 ∨ privateKey.length = 0
            · rw [if_pos hempty2]
              exact hd _ rfl rfl
            · rw [if_neg hempty2]
              have h1 : address.length ≠ 0 := fun h => hempty2 (Or.inl h)
              have h2 : privateKey.length ≠ 0 := fun h => hempty2 (Or.inr h)
              exact hc pw pk address privateKey _ hp hdec h1 h2 rfl rfl
                (Or.inr ⟨hempty, hia, hik⟩)
      · rw [if_neg hempty]
        have h1 : key.Address.length ≠ 0 := fun h => hempty (Or.inl h)
        have h2 : (stringOfBytes pk).length ≠ 0 := fun h => hempty (Or.inr h)
        exact hc pw pk key.Address (stringOfBytes pk) _ hp hdec h1 h2 rfl rfl
          (Or.inl ⟨h1, h2, rfl, rfl⟩)

/-- The first stage: either the run ends with at most error lines on stderr, or
every flag was read, amount and gas price parsed, the keystore record was loaded,
and the run continues with the middle stage. -/
theorem RunWalletSendCoins_cases (x : Ext) (env : SendEnv) (c : CmdConfig) (d : Dir)
    (P : SendResult → Prop)
    (hd : ∀ t e, (∀ ev ∈ t, ∃ m, ev = SendEvent.stderr m) →
      (e = none ∨ (∃ m, e = some (.flag m)) ∨ e = some (.missingArgs c.NS)) → P ⟨t, e⟩)
    (hc : ∀ txSymbol rest target amount a txVersion txMemo gasPrice g keystore key,
      c.Args = txSymbol :: rest → env.target = .ok target → env.amount = .ok amount →
      SetString10 amount = some a → env.txVersion = .ok txVersion →
      env.txMemo = .ok txMemo → env.gasPrice = .ok gasPrice →
      SetString10 gasPrice = some g → env.keystore = .ok keystore →
      loadKeystore x env.readFile keystore d = .ok key →
      P (sendWithKey x env txSymbol target txVersion txMemo a g key)) :
    P (RunWalletSendCoins x env c d) := by
  unfold RunWalletSendCoins
  cases hargs : c.Args with
  | nil => exact hd _ _ (by simp) (Or.inr (Or.inr rfl))
  | cons txSymbol rest =>
    dsimp only
    cases h1 : env.target with
    | error e => exact hd _ _ (by simp) (Or.inr (Or.inl ⟨e, rfl⟩))
    | ok target =>
      dsimp only
      cases h2 : env.amount with
      | error e => exact hd _ _ (by simp) (Or.inr (Or.inl ⟨e, rfl⟩))
      | ok amount =>
        dsimp only
        cases h3 : SetString10 amount with
        | none => exact hd _ _ (by simp) (Or.inl rfl)
        | some a =>
          dsimp only
          cases h4 : env.txVersion with
          | error e => exact hd _ _ (by simp [sendErrorLine]) (Or.inl rfl)
          | ok txVersion =>
            dsimp only
            cases h5 : env.txMemo with
            | error e => exact hd _ _ (by simp [sendErrorLine]) (Or.inl rfl)
            | ok txMemo =>
              dsimp only
              cases h6 : env.gasPrice with
              | error e => exact hd _ _ (by simp [sendErrorLine]) (Or.inl rfl)
              | ok gasPrice =>
                dsimp only
                cases h7 : SetString10 gasPrice with
                | none => exact hd _ _ (by simp) (Or.inl rfl)
                | some g =>
                  dsimp only
                  cases h8 : env.keystore with
                  | error e => exact hd _ _ (by simp [sendErrorLine]) (Or.inl rfl)
                  | ok keystore =>
                    dsimp only
                    cases h9 : loadKeystore x env.readFile keystore d with
                    | error e => exact hd _ _ (by simp [sendErrorLine]) (Or.inl rfl)
                    | ok key =>
                      exact hc txSymbol rest target amount a txVersion txMemo gasPrice g
                        keystore key hargs h1 h2 h3 h4 h5 h6 h7 h8 h9
/-! ## Amounts: the bytes of `Bytes()` -/

theorem bytesAux_eq : ∀ (fuel n : Nat) (acc : Bytes), n ≤ fuel →
    bytesAux fuel n acc = (Nat.digits 256 n).reverse ++ acc := by
  intro fuel
  induction fuel with
  | zero =>
    intro n acc hn
    have : n = 0 := by omega
    subst this
    simp [bytesAux]
  | succ fuel ih =>
    intro n acc hn
    rw [bytesAux]
    by_cases h0 : n = 0
    · subst h0
      simp
    · rw [if_neg h0]
      have hdiv : n / 256 ≤ fuel := by
        have : n / 256 < n := Nat.div_lt_self (Nat.pos_of_ne_zero h0) (by norm_num)
        omega
      rw [ih (n / 256) _ hdiv, Nat.digits_def' (by norm_num) (Nat.pos_of_ne_zero h0)]
      simp

/-- The bytes of `Bytes()` are the base-256 digits of the absolute value, most
significant first. -/
theorem bigBytes_eq (z : Int) : bigBytes z = (Nat.digits 256 z.natAbs).reverse := by
  unfold bigBytes
  rw [bytesAux_eq _ _ _ (le_refl _)]
  simp

theorem bigBytes_neg (z : Int) : bigBytes (-z) = bigBytes z := by
  simp [bigBytes]

/-- Every run of `RunWalletSendCoins`: either nothing is probed and nothing is
submitted, or every stage before the submission succeeded and the run probes the
endpoints of the selection and submits exactly once. -/
theorem RunWalletSendCoins_spec (x : Ext) (env : SendEnv) (c : CmdConfig) (d : Dir) :
    (commits (RunWalletSendCoins x env c d).trace = []
      ∧ probes (RunWalletSendCoins x env c d).trace = [])
    ∨ SubmittedOnce x env c d (RunWalletSendCoins x env c d) := by
  refine RunWalletSendCoins_cases x env c d
    (fun res => (commits res.trace = [] ∧ probes res.trace = []) ∨ SubmittedOnce x env c d res)
    ?_ ?_
  · intro t e ht _
    exact Or.inl (quiet_of_stderr t ht)
  · intro txSymbol rest target amount a txVersion txMemo gasPrice g keystore key
      hargs h1 h2 h3 h4 h5 h6 h7 h8 h9
    refine sendWithKey_cases x env txSymbol target txVersion txMemo a g key
      (fun res => (commits res.trace = [] ∧ probes res.trace = [])
        ∨ SubmittedOnce x env c d res) ?_ ?_
    · intro t hc hp
      exact Or.inl ⟨hc, hp⟩
    · intro pw pk address privateKey t hpw hdec ha hk hc hp hsrc
      obtain ⟨-, hno, hyes⟩ := sendSubmit_spec env txSymbol target txVersion txMemo a g
        address privateKey t hc hp
      cases hconf : env.confirm with
      | false => exact Or.inl (hno hconf)
      | true =>
        obtain ⟨url, probed, hsel, hcm, hpr⟩ := hyes hconf
        exact Or.inr ⟨txSymbol, rest, target, amount, a, txVersion, txMemo, gasPrice, g,
          keystore, key, pw, pk, address, privateKey, url, probed, hargs, h1, h2, h3, h4, h5,
          h6, h7, h8, h9, hpw, hdec, ha, hk, hsrc, hconf, hsel, hcm, hpr⟩

theorem mem_commits (t : List SendEvent) (node : String) (h : TxMsgHeader) (m : TransferMsg)
    (k : String) :
    SendEvent.buildAndCommit node h m k ∈ commits t ↔ SendEvent.buildAndCommit node h m k ∈ t := by
  simp [commits]

theorem probes_eq_nil_iff (t : List SendEvent) :
    probes t = [] ↔ ∀ url, SendEvent.httpGet url ∉ t := by
  constructor
  · intro h url hmem
    have : SendEvent.httpGet url ∈ probes t := by simp [probes, hmem]
    rw [h] at this
    cases this
  · intro h
    unfold probes
    rw [List.filter_eq_nil_iff]
    intro e he
    cases e <;> simp
    exact h _ he

/-! ## Claim C15 -/

/-- C15: in every run of `RunWalletSendCoins` there is at most one `BuildAndCommit`,
and if there is one, or if any endpoint is probed, then amount and gas price
parsed as base-10 integers, the keystore record was read and decoded, the
password was read and `DecryptDataV3` succeeded under it, the address and private
key used are non-empty, and the user confirmed; so when any of these fails, and on
a wrong password in particular, nothing is probed and nothing is submitted. -/
theorem transfer_submitted_once (x : Ext) (env : SendEnv) (c : CmdConfig) (d : Dir) :
    (commits (RunWalletSendCoins x env c d).trace).length ≤ 1
    ∧ (((∃ node h m k, SendEvent.buildAndCommit node h m k ∈ (RunWalletSendCoins x env c d).trace)
        ∨ ∃ url, SendEvent.httpGet url ∈ (RunWalletSendCoins x env c d).trace) →
      ∃ amount a gasPrice g keystore key pw pk,
        env.amount = .ok amount ∧ SetString10 amount = some a
        ∧ env.gasPrice = .ok gasPrice ∧ SetString10 gasPrice = some g
        ∧ env.keystore = .ok keystore
        ∧ loadKeystore x env.readFile keystore d = .ok key
        ∧ env.password = .ok pw ∧ x.DecryptDataV3 key.Crypto pw = .ok pk
        ∧ env.confirm = true
        ∧ ∀ node h m k, SendEvent.buildAndCommit node h m k
            ∈ (RunWalletSendCoins x env c d).trace →
            m.FromAddr.length ≠ 0 ∧ k.length ≠ 0)
    ∧ (∀ keystore key pw e, env.keystore = .ok keystore →
        loadKeystore x env.readFile keystore d = .ok key → env.password = .ok pw →
        x.DecryptDataV3 key.Crypto pw = .error e →
        commits (RunWalletSendCoins x env c d).trace = []
        ∧ probes (RunWalletSendCoins x env c d).trace = []) := by
  rcases RunWalletSendCoins_spec x env c d with ⟨hc, hp⟩ | ⟨txSymbol, rest, target, amount, a,
    txVersion, txMemo, gasPrice, g, keystore, key, pw, pk, address, privateKey, url, probed,
    hargs, h1, h2, h3, h4, h5, h6, h7, h8, h9, hpw, hdec, ha, hk, hsrc, hconf, hsel, hcm, hpr⟩
  · refine ⟨by simp [hc], ?_, fun _ _ _ _ _ _ _ _ => ⟨hc, hp⟩⟩
    rintro (⟨node, h, m, k, hmem⟩ | ⟨url, hmem⟩)
    · rw [← mem_commits, hc] at hmem
      cases hmem
    · exact absurd hmem ((probes_eq_nil_iff _).mp hp url)
  · refine ⟨by simp [hcm], fun _ => ?_, ?_⟩
    · refine ⟨amount, a, gasPrice, g, keystore, key, pw, pk, h2, h3, h6, h7, h8, h9, hpw,
        hdec, hconf, ?_⟩
      intro node h m k hmem
      rw [← mem_commits, hcm] at hmem
      simp only [List.mem_singleton, SendEvent.buildAndCommit.injEq] at hmem
      obtain ⟨-, -, rfl, rfl⟩ := hmem
      exact ⟨ha, hk⟩
    · intro keystore' key' pw' e hks hload hpw' hfail
      have e1 : keystore' = keystore := Except.ok.inj (hks.symm.trans h8)
      subst e1
      have e2 : key' = key := Except.ok.inj (hload.symm.trans h9)
      subst e2
      have e3 : pw' = pw := Except.ok.inj (hpw'.symm.trans hpw)
      subst e3
      rw [hdec] at hfail
      cases hfail

/-- C15 on the transfer of the examples: one submission, after the probe of the
second endpoint succeeded. -/
theorem transfer_submitted_once_witness :
    (∃ url, SendEvent.httpGet url
        ∈ (RunWalletSendCoins demoSendExt demoSendEnv ⟨["ANKR"], "wallet"⟩ demoDir).trace)
    ∧ (commits (RunWalletSendCoins demoSendExt demoSendEnv ⟨["ANKR"], "wallet"⟩
        demoDir).trace).length ≤ 1
    ∧ demoSendEnv.confirm = true :=
  have h := transfer_submitted_once demoSendExt demoSendEnv ⟨["ANKR"], "wallet"⟩ demoDir
  have hprobe : ∃ url, SendEvent.httpGet url
      ∈ (RunWalletSendCoins demoSendExt demoSendEnv ⟨["ANKR"], "wallet"⟩ demoDir).trace :=
    ⟨"https://chain-01.dccn.ankr.com:443/net_info", by decide⟩
  ⟨hprobe, h.1, by
    obtain ⟨_, _, _, _, _, _, _, _, _, _, _, _, _, _, _, _, hconf, _⟩ := h.2.1 (Or.inr hprobe)
    exact hconf⟩
/-! ## Claim C17 -/

/-- C17 fails as stated: the record bob of the example directory has the address
A0 and a crypto section that the codec of the examples decrypts, under the empty
password, to the empty key; the command then asks for address and private key,
and the transfer is submitted from the typed address A7. -/
theorem transfer_from_typed_address :
    ¬ ∀ (x : Ext) (env : SendEnv) (c : CmdConfig) (d : Dir) (node : String)
        (h : TxMsgHeader) (m : TransferMsg) (k keystore : String) (key : EncryptedKeyJSONV3),
        SendEvent.buildAndCommit node h m k ∈ (RunWalletSendCoins x env c d).trace →
        env.keystore = .ok keystore → loadKeystore x env.readFile keystore d = .ok key →
        m.FromAddr = key.Address := by
  intro h
  have h1 := h demoExt { demoSendEnv with password := .ok "" } ⟨["ANKR"], "wallet"⟩ demoDir
    "https://chain-02.dccn.ankr.com:443" (headerOf "1.0" "" 10000000000000000)
    (messageOf "ANKR" "A7" "B" 100) "k7" "bob"
    ⟨"bob", "A0", "", ⟨"", [], [], "", [], 0, 0, 0, 0, []⟩, 3⟩ (by decide) rfl (by decide)
  exact absurd h1 (by decide)

/-- C17 as amended: every submission of `RunWalletSendCoins` carries the header with
chain id ankr-chain, gas limit the bytes 78, 32 (20000 big-endian), gas price in
ANKR with 18 decimals and the bytes of the parsed gas-price flag, and the memo and
version of the flags; its message goes to the target flag with exactly one amount,
whose symbol is the command argument and whose value is the bytes of the parsed
amount (the bytes being the base-256 digits of the absolute value, most
significant first); the sender is the address of the keystore record when that address and
the decrypted private key are both non-empty, and the address typed by the user
otherwise. -/
theorem transfer_header_and_message (x : Ext) (env : SendEnv) (c : CmdConfig) (d : Dir)
    (node : String) (h : TxMsgHeader) (m : TransferMsg) (k : String)
    (hmem : SendEvent.buildAndCommit node h m k ∈ (RunWalletSendCoins x env c d).trace) :
    ∃ txSymbol rest target amount a txVersion txMemo gasPrice g keystore key pw pk,
      c.Args = txSymbol :: rest ∧ env.target = .ok target ∧ env.amount = .ok amount
      ∧ SetString10 amount = some a ∧ env.txVersion = .ok txVersion
      ∧ env.txMemo = .ok txMemo ∧ env.gasPrice = .ok gasPrice
      ∧ SetString10 gasPrice = some g ∧ env.keystore = .ok keystore
      ∧ loadKeystore x env.readFile keystore d = .ok key
      ∧ env.password = .ok pw ∧ x.DecryptDataV3 key.Crypto pw = .ok pk
      ∧ h = ⟨"ankr-chain", [78, 32], ⟨⟨"ANKR", 18⟩, bigBytes g⟩, txMemo, txVersion⟩
      ∧ bigBytes 20000 = [78, 32]
      ∧ m.ToAddr = target ∧ m.Amounts = [⟨⟨txSymbol, 0⟩, bigBytes a⟩]
      ∧ ((key.Address.length ≠ 0 ∧ (stringOfBytes pk).length ≠ 0
            ∧ m.FromAddr = key.Address)
          ∨ ((key.Address.length = 0 ∨ (stringOfBytes pk).length = 0)
            ∧ env.inputAddress = .ok m.FromAddr))
      ∧ bigBytes a = (Nat.digits 256 a.natAbs).reverse
      ∧ bigBytes g = (Nat.digits 256 g.natAbs).reverse := by
  rcases RunWalletSendCoins_spec x env c d with ⟨hc, -⟩ | ⟨txSymbol, rest, target, amount, a,
    txVersion, txMemo, gasPrice, g, keystore, key, pw, pk, address, privateKey, url, probed,
    hargs, h1, h2, h3, h4, h5, h6, h7, h8, h9, hpw, hdec, ha, hk, hsrc, hconf, hsel, hcm, hpr⟩
  · rw [← mem_commits, hc] at hmem
    cases hmem
  · rw [← mem_commits, hcm] at hmem
    simp only [List.mem_singleton, SendEvent.buildAndCommit.injEq] at hmem
    obtain ⟨-, rfl, rfl, rfl⟩ := hmem
    refine ⟨txSymbol, rest, target, amount, a, txVersion, txMemo, gasPrice, g, keystore, key,
      pw, pk, hargs, h1, h2, h3, h4, h5, h6, h7, h8, h9, hpw, hdec, ?_, by decide, rfl, rfl, ?_,
      bigBytes_eq a, bigBytes_eq g⟩
    · have hlim : bigBytes ankrGasLimit = [78, 32] := by decide
      simp only [headerOf, hlim, ankrChainId, ankrCurrency]
    · rcases hsrc with ⟨e1, e2, e3, -⟩ | ⟨e1, e2, -⟩
      · exact Or.inl ⟨e1, e2, e3⟩
      · exact Or.inr ⟨e1, e2⟩

/-- C17 as amended, on the transfer of the examples: 100 ANKR from the address of
the record bob to B. -/
theorem transfer_header_and_message_witness :
    SendEvent.buildAndCommit "https://chain-02.dccn.ankr.com:443"
        ⟨"ankr-chain", [78, 32], ⟨⟨"ANKR", 18⟩, [35, 134, 242, 111, 193, 0, 0]⟩, "", "1.0"⟩
        ⟨"A0", "B", [⟨⟨"ANKR", 0⟩, [100]⟩]⟩ "k1"
      ∈ (RunWalletSendCoins demoSendExt demoSendEnv ⟨["ANKR"], "wallet"⟩ demoDir).trace
    ∧ ∃ txSymbol rest target amount a,
        (⟨["ANKR"], "wallet"⟩ : CmdConfig).Args = txSymbol :: rest
        ∧ demoSendEnv.target = .ok target ∧ demoSendEnv.amount = .ok amount
        ∧ SetString10 amount = some a
        ∧ [(⟨⟨"ANKR", 0⟩, [100]⟩ : Amount)] = [⟨⟨txSymbol, 0⟩, bigBytes a⟩] := by
  have hmem : SendEvent.buildAndCommit "https://chain-02.dccn.ankr.com:443"
      ⟨"ankr-chain", [78, 32], ⟨⟨"ANKR", 18⟩, [35, 134, 242, 111, 193, 0, 0]⟩, "", "1.0"⟩
      ⟨"A0", "B", [⟨⟨"ANKR", 0⟩, [100]⟩]⟩ "k1"
      ∈ (RunWalletSendCoins demoSendExt demoSendEnv ⟨["ANKR"], "wallet"⟩ demoDir).trace := by
    decide
  obtain ⟨txSymbol, rest, target, amount, a, _, _, _, _, _, _, _, _, hargs, h1, h2, h3, _, _,
    _, _, _, _, _, _, _, _, _, hamt, _⟩ := transfer_header_and_message demoSendExt demoSendEnv
      ⟨["ANKR"], "wallet"⟩ demoDir _ _ _ _ hmem
  exact ⟨hmem, txSymbol, rest, target, amount, a, hargs, h1, h2, h3, hamt⟩

/-! ## Claim C11 -/

theorem scanName_found_isNamed (x : Ext) (name : String) : ∀ (d : Dir) (f : File)
    (key : EncryptedKeyJSONV3), scanName x name d = .found f key →
    f ∈ d ∧ recordOf x f = some key ∧ key.Name = name := by
  intro d
  induction d with
  | nil => intro f key h; simp [scanName] at h
  | cons g gs ih =>
    intro f key h
    rw [scanName] at h
    cases hm : matchUTC g.name with
    | false =>
      simp only [hm, Bool.false_eq_true, if_false] at h
      obtain ⟨h1, h2⟩ := ih f key h
      exact ⟨List.mem_cons_of_mem g h1, h2⟩
    | true =>
      cases hc : g.content with
      | error e => simp [hm, hc] at h
      | ok kf =>
        cases hu : x.Unmarshal kf with
        | error e => simp [hm, hc, hu] at h
        | ok k =>
          by_cases hkn : k.Name = name
          · simp only [hm, hc, hu, hkn, if_true, Scan.found.injEq] at h
            obtain ⟨rfl, rfl⟩ := h
            exact ⟨List.mem_cons_self _ _, (recordOf_eq_some x _ _).mpr ⟨hm, kf, hc, hu⟩, hkn⟩
          · simp only [hm, hc, hu, hkn, if_true, if_false] at h
            obtain ⟨h1, h2⟩ := ih f key h
            exact ⟨List.mem_cons_of_mem g h1, h2⟩

/-- C11 fails: with no record in the directory, the lookup of `key.json` reads the
file of that path and yields its record. -/
theorem lookup_falls_back_to_path :
    ¬ ∀ (x : Ext) (readFile : String → Except String Bytes) (d : Dir) (keystore : String),
        (∀ r ∈ records x d, r.Name ≠ keystore) →
        ∃ e, loadKeystore x readFile keystore d = .error e := by
  intro h
  obtain ⟨e, he⟩ := h demoExt (fun _ => .ok [3, 2, 98, 111, 98, 65, 49, 0]) [] "key.json"
    (by simp [records])
  have hok : loadKeystore demoExt (fun _ => .ok [3, 2, 98, 111, 98, 65, 49, 0]) "key.json" []
      = .ok ⟨"bob", "A1", "", ⟨"", [], [], "", [], 0, 0, 0, 0, []⟩, 3⟩ := by decide
  rw [hok] at he
  cases he

/-- C11 as amended: when no stored record has the name, the lookup of
`RunWalletSendCoins` yields a record only by reading and decoding the file whose
path is the name; when that file cannot be read the lookup fails; and whenever
the lookup fails, the command asks for no password, probes no endpoint and
submits nothing, and what it returns is nil or the error of a flag. -/
theorem lookup_absent_name (x : Ext) (env : SendEnv) (c : CmdConfig) (d : Dir)
    (keystore : String) (habs : ∀ r ∈ records x d, r.Name ≠ keystore) :
    (∀ key, loadKeystore x env.readFile keystore d = .ok key →
      ∃ ks, env.readFile keystore = .ok ks ∧ x.Unmarshal ks = .ok key)
    ∧ (∀ e, env.readFile keystore = .error e →
      ∃ e', loadKeystore x env.readFile keystore d = .error e')
    ∧ (∀ e, env.keystore = .ok keystore →
      loadKeystore x env.readFile keystore d = .error e →
      SendEvent.readPassword ∉ (RunWalletSendCoins x env c d).trace
      ∧ commits (RunWalletSendCoins x env c d).trace = []
      ∧ probes (RunWalletSendCoins x env c d).trace = []
      ∧ ((RunWalletSendCoins x env c d).err = none
        ∨ (∃ m, (RunWalletSendCoins x env c d).err = some (.flag m))
        ∨ (RunWalletSendCoins x env c d).err = some (.missingArgs c.NS))) := by
  have hnf : ∀ f key, scanName x keystore d ≠ .found f key := by
    intro f key hfound
    obtain ⟨hf, hrec, hname⟩ := scanName_found_isNamed x keystore d f key hfound
    exact habs key (List.mem_filterMap.mpr ⟨f, hf, hrec⟩) hname
  refine ⟨fun key hload => ?_, fun e hread => ?_, fun e hks hload => ?_⟩
  · unfold loadKeystore at hload
    cases hs : scanName x keystore d with
    | readErr e => simp [hs] at hload
    | decodeErr e => simp [hs] at hload
    | found f k => exact absurd hs (hnf f k)
    | absent =>
      simp only [hs] at hload
      cases hr : env.readFile keystore with
      | error e => simp [hr] at hload
      | ok ks => exact ⟨ks, rfl, by simpa [hr] using hload⟩
  · unfold loadKeystore
    cases hs : scanName x keystore d with
    | readErr e' => exact ⟨e', rfl⟩
    | decodeErr e' => exact ⟨e', rfl⟩
    | found f k => exact absurd hs (hnf f k)
    | absent => exact ⟨e, by simp [hread]⟩
  · refine RunWalletSendCoins_cases x env c d
      (fun res => SendEvent.readPassword ∉ res.trace ∧ commits res.trace = []
        ∧ probes res.trace = []
        ∧ (res.err = none ∨ (∃ m, res.err = some (.flag m))
          ∨ res.err = some (.missingArgs c.NS))) ?_ ?_
    · intro t e' ht herr
      obtain ⟨hc, hp⟩ := quiet_of_stderr t ht
      refine ⟨fun hmem => ?_, hc, hp, herr⟩
      obtain ⟨m, hm⟩ := ht _ hmem
      cases hm
    · intro txSymbol rest target amount a txVersion txMemo gasPrice g keystore' key
        _ _ _ _ _ _ _ _ h8 h9
      have e1 : keystore' = keystore := Except.ok.inj (h8.symm.trans hks)
      subst e1
      rw [hload] at h9
      cases h9

/-- C11 as amended, at the name carol, which no record of the example directory
has, with no file of that path to read. -/
theorem lookup_absent_name_witness :
    (∀ r ∈ records demoExt demoDir, r.Name ≠ "carol")
    ∧ ∃ e, loadKeystore demoExt demoSendEnv.readFile "carol" demoDir = .error e :=
  have habs : ∀ r ∈ records demoExt demoDir, r.Name ≠ "carol" := by decide
  ⟨habs, (lookup_absent_name demoExt demoSendEnv ⟨["ANKR"], "wallet"⟩ demoDir "carol"
    habs).2.1 "no such file or directory" rfl⟩

/-! ## Claim C12 -/

/-- C12 fails: `RunWalletGenkey` at a name that the scan finds returns nil. -/
theorem duplicate_name_returns_nil :
    ¬ ∀ (x : Ext) (env : Env) (c : CmdConfig) (d : Dir) (name : String) (rest : List String)
        (f : File) (key : EncryptedKeyJSONV3),
        c.Args = name :: rest → scanName x name d = .found f key →
        (RunWalletGenkey x env c d).err ≠ none := by
  intro h
  exact h demoExt demoEnv ⟨["bob"], "wallet"⟩ demoDir "bob" []
    ⟨"UTC--2019--A0", .ok [3, 2, 98, 111, 98, 65, 48, 0]⟩
    ⟨"bob", "A0", "", ⟨"", [], [], "", [], 0, 0, 0, 0, []⟩, 3⟩ rfl (by decide) (by decide)

/-- C12 as amended: in each of the three situations the command returns nil and the
failure is a line on stderr. When the scan finds the name, `RunWalletGenkey` prints
the line `key name already exists` and `RunWalletImportkey` the line that the key
of that name already exists; when the scan of a confirmed `RunWalletDeletekey`
finds no record of the name, it prints that no keystore of that name was found;
when `DecryptDataV3` fails, `RunWalletImportkey` and `RunWalletSendCoins` print the
message of its error. The duplicate-name lines differ from the not-found line
whatever the names are. -/
theorem keystore_failures_printed (x : Ext) :
    (∀ (env : Env) (c : CmdConfig) (d : Dir) (name : String) (rest : List String) (f : File)
        (key : EncryptedKeyJSONV3),
        c.Args = name :: rest → scanName x name d = .found f key →
        (RunWalletGenkey x env c d).err = none
        ∧ (RunWalletGenkey x env c d).trace = [.stderr "\nERROR: key name already exists\n"])
    ∧ (∀ (env : Env) (c : CmdConfig) (d : Dir) (name : String) (rest : List String)
        (ks : String) (kf : Bytes) (k0 : EncryptedKeyJSONV3) (f : File)
        (key : EncryptedKeyJSONV3),
        c.Args = name :: rest → env.keyFileFlag = .ok ks → env.keyFile = .ok kf →
        x.Unmarshal kf = .ok k0 → scanName x name d = .found f key →
        (RunWalletImportkey x env c d).err = none
        ∧ (RunWalletImportkey x env c d).trace
            = [.stderr ("\nERROR: key \x27" ++ name ++ "\x27 already exists.\n")])
    ∧ (∀ (env : Env) (c : CmdConfig) (d : Dir) (name : String) (rest : List String),
        c.Args = name :: rest → env.confirm = true → scanName x name d = .absent →
        (RunWalletDeletekey x env c d).err = none
        ∧ .stderr ("\nERROR: no keystore found with name \x27" ++ name ++ "\x27\n")
            ∈ (RunWalletDeletekey x env c d).trace)
    ∧ (∀ (env : Env) (c : CmdConfig) (d : Dir) (name : String) (rest : List String)
        (ks : String) (kf : Bytes) (k0 : EncryptedKeyJSONV3) (pw e : String),
        c.Args = name :: rest → env.keyFileFlag = .ok ks → env.keyFile = .ok kf →
        x.Unmarshal kf = .ok k0 → scanName x name d = .absent → env.password = .ok pw →
        x.DecryptDataV3 k0.Crypto pw = .error e →
        (RunWalletImportkey x env c d).err = none
        ∧ .stderr ("\nERROR: " ++ e ++ "\n") ∈ (RunWalletImportkey x env c d).trace)
    ∧ (∀ (env : SendEnv) (c : CmdConfig) (d : Dir) (txSymbol : String) (rest : List String)
        (target amount txVersion txMemo gasPrice keystore pw e : String) (a g : Int)
        (key : EncryptedKeyJSONV3),
        c.Args = txSymbol :: rest → env.target = .ok target → env.amount = .ok amount →
        SetString10 amount = some a → env.txVersion = .ok txVersion →
        env.txMemo = .ok txMemo → env.gasPrice = .ok gasPrice →
        SetString10 gasPrice = some g → env.keystore = .ok keystore →
        loadKeystore x env.readFile keystore d = .ok key → env.password = .ok pw →
        x.DecryptDataV3 key.Crypto pw = .error e →
        (RunWalletSendCoins x env c d).err = none
        ∧ .stderr ("\nERROR: " ++ e ++ "\n") ∈ (RunWalletSendCoins x env c d).trace)
    ∧ (∀ name : String, "\nERROR: key name already exists\n"
        ≠ "\nERROR: no keystore found with name \x27" ++ name ++ "\x27\n")
    ∧ (∀ name name' : String, "\nERROR: key \x27" ++ name ++ "\x27 already exists.\n"
        ≠ "\nERROR: no keystore found with name \x27" ++ name' ++ "\x27\n") := by
  refine ⟨?_, ?_, ?_, ?_, ?_, ?_, ?_⟩
  · intro env c d name rest f key hargs hs
    simp [RunWalletGenkey, hargs, hs, errorLine]
  · intro env c d name rest ks kf k0 f key hargs hflag hkf hu hs
    obtain ⟨-, -, hname⟩ := scanName_found_isNamed x name d f key hs
    simp [RunWalletImportkey, hargs, hflag, hkf, hu, hs, hname]
  · intro env c d name rest hargs hconf hs
    simp [RunWalletDeletekey, hargs, hconf, hs]
  · intro env c d name rest ks kf k0 pw e hargs hflag hkf hu hs hpw hdec
    simp [RunWalletImportkey, hargs, hflag, hkf, hu, hs, importkeyCreate, hpw, hdec, errorLine]
  · intro env c d txSymbol rest target amount txVersion txMemo gasPrice keystore pw e a g key
      hargs h1 h2 h3 h4 h5 h6 h7 h8 h9 hpw hdec
    simp [RunWalletSendCoins, hargs, h1, h2, h3, h4, h5, h6, h7, h8, h9, sendWithKey, hpw,
      hdec, sendErrorLine]
  · intro name h
    have h2 := congrArg (fun s => s.data.take 10) h
    simp [String.data_append] at h2
  · intro name name' h
    have h2 := congrArg (fun s => s.data.take 10) h
    simp [String.data_append] at h2

/-- C12 as amended, at the creation of bob in the example directory, which holds a
record of that name. -/
theorem keystore_failures_printed_witness :
    scanName demoExt "bob" demoDir
      = .found ⟨"UTC--2019--A0", .ok [3, 2, 98, 111, 98, 65, 48, 0]⟩
          ⟨"bob", "A0", "", ⟨"", [], [], "", [], 0, 0, 0, 0, []⟩, 3⟩
    ∧ (RunWalletGenkey demoExt demoEnv ⟨["bob"], "wallet"⟩ demoDir).err = none
    ∧ (RunWalletGenkey demoExt demoEnv ⟨["bob"], "wallet"⟩ demoDir).trace
        = [.stderr "\nERROR: key name already exists\n"] :=
  have hs : scanName demoExt "bob" demoDir
      = .found ⟨"UTC--2019--A0", .ok [3, 2, 98, 111, 98, 65, 48, 0]⟩
          ⟨"bob", "A0", "", ⟨"", [], [], "", [], 0, 0, 0, 0, []⟩, 3⟩ := by decide
  ⟨hs, (keystore_failures_printed demoExt).1 demoEnv ⟨["bob"], "wallet"⟩ demoDir "bob" [] _ _
    rfl hs⟩
/-! ## Amounts: sign and bytes -/

theorem sendSubmit_commits_congr (e1 e2 : SendEnv) (hconf : e1.confirm = e2.confirm)
    (hrand : e1.rand = e2.rand) (hget : e1.get = e2.get)
    (hurl : e1.tendermintURL = e2.tendermintURL)
    (hport : e1.tendermintPort = e2.tendermintPort)
    (txSymbol target txVersion txMemo : String) (a1 a2 g1 g2 : Int)
    (address privateKey : String) (t1 t2 : List SendEvent)
    (ha : bigBytes a1 = bigBytes a2) (hg : bigBytes g1 = bigBytes g2)
    (hc1 : commits t1 = []) (hp1 : probes t1 = [])
    (hc2 : commits t2 = []) (hp2 : probes t2 = []) :
    commits (sendSubmit e1 txSymbol target txVersion txMemo a1 g1 address privateKey t1).trace
      = commits
          (sendSubmit e2 txSymbol target txVersion txMemo a2 g2 address privateKey t2).trace := by
  obtain ⟨-, hno1, hyes1⟩ := sendSubmit_spec e1 txSymbol target txVersion txMemo a1 g1
    address privateKey t1 hc1 hp1
  obtain ⟨-, hno2, hyes2⟩ := sendSubmit_spec e2 txSymbol target txVersion txMemo a2 g2
    address privateKey t2 hc2 hp2
  have hP : effectivePort e1 = effectivePort e2 := by simp [effectivePort, hport]
  have hU : effectiveURL e1 = effectiveURL e2 := by simp [effectiveURL, hurl]
  cases hc : e1.confirm with
  | false => rw [(hno1 hc).1, (hno2 (hconf ▸ hc)).1]
  | true =>
    obtain ⟨url1, probed1, hsel1, hcm1, -⟩ := hyes1 hc
    obtain ⟨url2, probed2, hsel2, hcm2, -⟩ := hyes2 (hconf ▸ hc)
    rw [hrand, hget, hP, hU, hsel2] at hsel1
    have hurl12 : url2 = url1 := by
      have := Option.some.inj hsel1
      exact congrArg Prod.fst this
    rw [hcm1, hcm2, hurl12, hP]
    simp [headerOf, messageOf, ha, hg]

theorem sendWithKey_commits_congr (x : Ext) (e1 e2 : SendEnv)
    (hpw : e1.password = e2.password) (hia : e1.inputAddress = e2.inputAddress)
    (hik : e1.inputPrivateKey = e2.inputPrivateKey) (hconf : e1.confirm = e2.confirm)
    (hrand : e1.rand = e2.rand) (hget : e1.get = e2.get)
    (hurl : e1.tendermintURL = e2.tendermintURL)
    (hport : e1.tendermintPort = e2.tendermintPort)
    (txSymbol target txVersion txMemo : String) (a1 a2 g1 g2 : Int)
    (key : EncryptedKeyJSONV3)
    (ha : bigBytes a1 = bigBytes a2) (hg : bigBytes g1 = bigBytes g2) :
    commits (sendWithKey x e1 txSymbol target txVersion txMemo a1 g1 key).trace
      = commits (sendWithKey x e2 txSymbol target txVersion txMemo a2 g2 key).trace := by
  unfold sendWithKey
  dsimp only
  rw [← hpw, ← hia, ← hik]
  cases hp : e1.password with
  | error e => rfl
  | ok pw =>
    dsimp only
    cases hdec : x.DecryptDataV3 key.Crypto pw with
    | error e => rfl
    | ok pk =>
      dsimp only
      by_cases hempty : key.Address.length = 0 ∨ (stringOfBytes pk).length = 0
      · rw [if_pos hempty, if_pos hempty]
        cases hia' : e1.inputAddress with
        | error e => rfl
        | ok address =>
          dsimp only
          cases hik' : e1.inputPrivateKey with
          | error e => rfl
          | ok privateKey =>
            dsimp only
            by_cases hempty2 : address.length = 0 ∨ privateKey.length = 0
            · rw [if_pos hempty2, if_pos hempty2]
            · rw [if_neg hempty2, if_neg hempty2]
              exact sendSubmit_commits_congr e1 e2 hconf hrand hget hurl hport _ _ _ _ _ _ _ _
                _ _ _ _ ha hg rfl rfl rfl rfl
      · rw [if_neg hempty, if_neg hempty]
        exact sendSubmit_commits_congr e1 e2 hconf hrand hget hurl hport _ _ _ _ _ _ _ _
          _ _ _ _ ha hg rfl rfl rfl rfl

theorem amount_commits_congr (x : Ext) (env : SendEnv) (c : CmdConfig) (d : Dir)
    (s s' : String) (z z' : Int) (hs : SetString10 s = some z) (hs' : SetString10 s' = some z')
    (hb : bigBytes z = bigBytes z') :
    commits (RunWalletSendCoins x { env with amount := .ok s } c d).trace
      = commits (RunWalletSendCoins x { env with amount := .ok s' } c d).trace := by
  unfold RunWalletSendCoins
  dsimp only
  rw [hs, hs']
  cases hargs : c.Args with
  | nil => rfl
  | cons txSymbol rest =>
    dsimp only
    cases h1 : env.target with
    | error e => rfl
    | ok target =>
      dsimp only
      cases h4 : env.txVersion with
      | error e => rfl
      | ok txVersion =>
        dsimp only
        cases h5 : env.txMemo with
        | error e => rfl
        | ok txMemo =>
          dsimp only
          cases h6 : env.gasPrice with
          | error e => rfl
          | ok gasPrice =>
            dsimp only
            cases h7 : SetString10 gasPrice with
            | none => rfl
            | some g =>
              dsimp only
              cases h8 : env.keystore with
              | error e => rfl
              | ok keystore =>
                dsimp only
                cases h9 : loadKeystore x env.readFile keystore d with
                | error e => rfl
                | ok key =>
                  exact sendWithKey_commits_congr x _ _ rfl rfl rfl rfl rfl rfl rfl rfl _ _ _ _
                    _ _ _ _ key hb rfl

theorem gasPrice_commits_congr (x : Ext) (env : SendEnv) (c : CmdConfig) (d : Dir)
    (s s' : String) (z z' : Int) (hs : SetString10 s = some z) (hs' : SetString10 s' = some z')
    (hb : bigBytes z = bigBytes z') :
    commits (RunWalletSendCoins x { env with gasPrice := .ok s } c d).trace
      = commits (RunWalletSendCoins x { env with gasPrice := .ok s' } c d).trace := by
  unfold RunWalletSendCoins
  dsimp only
  rw [hs, hs']
  cases hargs : c.Args with
  | nil => rfl
  | cons txSymbol rest =>
    dsimp only
    cases h1 : env.target with
    | error e => rfl
    | ok target =>
      dsimp only
      cases h2 : env.amount with
      | error e => rfl
      | ok amount =>
        dsimp only
        cases h3 : SetString10 amount with
        | none => rfl
        | some a =>
          dsimp only
          cases h4 : env.txVersion with
          | error e => rfl
          | ok txVersion =>
            dsimp only
            cases h5 : env.txMemo with
            | error e => rfl
            | ok txMemo =>
              dsimp only
              cases h8 : env.keystore with
              | error e => rfl
              | ok keystore =>
                dsimp only
                cases h9 : loadKeystore x env.readFile keystore d with
                | error e => rfl
                | ok key =>
                  exact sendWithKey_commits_congr x _ _ rfl rfl rfl rfl rfl rfl rfl rfl _ _ _ _
                    _ _ _ _ key rfl hb

/-! ## Claim C19 -/

/-- C19: an amount string that parses as the negative integer -k is not rejected:
the run submits exactly what the run with an amount string parsing as k submits,
and the value in the message of every submission is the big-endian base-256
encoding of k; the same holds for the gas price in the header. -/
theorem negative_amount_sign_discarded (x : Ext) (env : SendEnv) (c : CmdConfig) (d : Dir)
    (s s' : String) (k : Nat) (hs : SetString10 s = some (-(k : Int)))
    (hs' : SetString10 s' = some (k : Int)) :
    bigBytes (-(k : Int)) = (Nat.digits 256 k).reverse
    ∧ commits (RunWalletSendCoins x { env with amount := .ok s } c d).trace
        = commits (RunWalletSendCoins x { env with amount := .ok s' } c d).trace
    ∧ (∀ node h m key, SendEvent.buildAndCommit node h m key
          ∈ (RunWalletSendCoins x { env with amount := .ok s } c d).trace →
        ∃ txSymbol, m.Amounts = [⟨⟨txSymbol, 0⟩, (Nat.digits 256 k).reverse⟩])
    ∧ commits (RunWalletSendCoins x { env with gasPrice := .ok s } c d).trace
        = commits (RunWalletSendCoins x { env with gasPrice := .ok s' } c d).trace
    ∧ (∀ node h m key, SendEvent.buildAndCommit node h m key
          ∈ (RunWalletSendCoins x { env with gasPrice := .ok s } c d).trace →
        h.GasPrice.Value = (Nat.digits 256 k).reverse) := by
  have hb : bigBytes (-(k : Int)) = bigBytes (k : Int) := bigBytes_neg _
  have hd : bigBytes (-(k : Int)) = (Nat.digits 256 k).reverse := by
    rw [bigBytes_eq]
    simp
  refine ⟨hd, amount_commits_congr x env c d s s' _ _ hs hs' hb, ?_,
    gasPrice_commits_congr x env c d s s' _ _ hs hs' hb, ?_⟩
  · intro node h m key hmem
    rcases RunWalletSendCoins_spec x { env with amount := .ok s } c d with
      ⟨hc, -⟩ | ⟨txSymbol, rest, target, amount, a, txVersion, txMemo, gasPrice, g, keystore,
        rec, pw, pk, address, privateKey, url, probed, hargs, h1, h2, h3, h4, h5, h6, h7, h8,
        h9, hpw, hdec, ha, hk, hsrc, hconf, hsel, hcm, hpr⟩
    · rw [← mem_commits, hc] at hmem
      cases hmem
    · rw [← mem_commits, hcm] at hmem
      simp only [List.mem_singleton, SendEvent.buildAndCommit.injEq] at hmem
      obtain ⟨-, -, rfl, -⟩ := hmem
      have hamt : amount = s := (Except.ok.inj h2).symm
      subst hamt
      rw [hs] at h3
      have ha' : a = -(k : Int) := (Option.some.inj h3).symm
      subst ha'
      exact ⟨txSymbol, by simp [messageOf, hd]⟩
  · intro node h m key hmem
    rcases RunWalletSendCoins_spec x { env with gasPrice := .ok s } c d with
      ⟨hc, -⟩ | ⟨txSymbol, rest, target, amount, a, txVersion, txMemo, gasPrice, g, keystore,
        rec, pw, pk, address, privateKey, url, probed, hargs, h1, h2, h3, h4, h5, h6, h7, h8,
        h9, hpw, hdec, ha, hk, hsrc, hconf, hsel, hcm, hpr⟩
    · rw [← mem_commits, hc] at hmem
      cases hmem
    · rw [← mem_commits, hcm] at hmem
      simp only [List.mem_singleton, SendEvent.buildAndCommit.injEq] at hmem
      obtain ⟨-, rfl, -, -⟩ := hmem
      have hgp : gasPrice = s := (Except.ok.inj h6).symm
      subst hgp
      rw [hs] at h7
      have hg' : g = -(k : Int) := (Option.some.inj h7).symm
      subst hg'
      simp [headerOf, hd]

/-- C19 at the amount strings -100 and 100 on the transfer of the examples: both
parse, and the run with -100 submits the amount bytes of 100. -/
theorem negative_amount_sign_discarded_witness :
    SetString10 "-100" = some (-((100 : Nat) : Int))
    ∧ SetString10 "100" = some ((100 : Nat) : Int)
    ∧ commits (RunWalletSendCoins demoSendExt { demoSendEnv with amount := .ok "-100" }
        ⟨["ANKR"], "wallet"⟩ demoDir).trace
      = commits (RunWalletSendCoins demoSendExt { demoSendEnv with amount := .ok "100" }
        ⟨["ANKR"], "wallet"⟩ demoDir).trace
    ∧ commits (RunWalletSendCoins demoSendExt { demoSendEnv with amount := .ok "100" }
        ⟨["ANKR"], "wallet"⟩ demoDir).trace
      = [.buildAndCommit "https://chain-02.dccn.ankr.com:443"
          ⟨"ankr-chain", [78, 32], ⟨⟨"ANKR", 18⟩, [35, 134, 242, 111, 193, 0, 0]⟩, "", "1.0"⟩
          ⟨"A0", "B", [⟨⟨"ANKR", 0⟩, [100]⟩]⟩ "k1"] :=
  ⟨by decide, by decide,
    (negative_amount_sign_discarded demoSendExt demoSendEnv ⟨["ANKR"], "wallet"⟩ demoDir
      "-100" "100" 100 (by decide) (by decide)).2.1, by decide⟩
/-! ## Claim C21 -/

/-- C21: `RunWalletGenAddress` issues the remote `CreateAddress` request only with
the values of the type and purpose flags and only if both are one of MAINNET, ERC20
and BEP2, compared exactly; if either is not, the error line is printed on stderr
and that is all the command does (no access token read, no connection, nil
returned); if a flag cannot be read, its error is returned and nothing else
happens. -/
theorem genaddress_validates_first (env : GenAddressEnv) :
    (∀ t p, GenAddressEvent.createAddress t p ∈ (RunWalletGenAddress env).trace →
      env.addressType = .ok t ∧ env.addressPurpose = .ok p
      ∧ t ∈ ["MAINNET", "ERC20", "BEP2"] ∧ p ∈ ["MAINNET", "ERC20", "BEP2"])
    ∧ (∀ t p, env.addressType = .ok t → env.addressPurpose = .ok p →
      (t ∉ ["MAINNET", "ERC20", "BEP2"] ∨ p ∉ ["MAINNET", "ERC20", "BEP2"]) →
      (RunWalletGenAddress env).trace
          = [.stderr "\nERROR: type or purpose not one of MAINNET/ERC20/BEP2..\n"]
      ∧ (RunWalletGenAddress env).err = none)
    ∧ (∀ e, (env.addressType = .error e
        ∨ ((∃ t, env.addressType = .ok t) ∧ env.addressPurpose = .error e)) →
      (RunWalletGenAddress env).trace = [] ∧ (RunWalletGenAddress env).err = some (.flag e)) := by
  refine ⟨fun t p hmem => ?_, fun t p ht hp hbad => ?_, fun e he => ?_⟩
  · unfold RunWalletGenAddress at hmem
    cases ht : env.addressType with
    | error e => simp [ht] at hmem
    | ok t' =>
      cases hp : env.addressPurpose with
      | error e => simp [ht, hp] at hmem
      | ok p' =>
        simp only [ht, hp] at hmem
        by_cases hok : t' ∈ addressKinds ∧ p' ∈ addressKinds
        · have hif : (!decide (t' ∈ addressKinds) || !decide (p' ∈ addressKinds)) = false := by
            simp [hok.1, hok.2]
          rw [hif] at hmem
          simp only [Bool.false_eq_true, if_false] at hmem
          have hboth : t = t' ∧ p = p' := by
            by_cases htok : env.accessToken.length = 0
            · simp [htok] at hmem
            · cases hd : env.dialErr with
              | some e => simp [htok, hd] at hmem
              | none =>
                cases hc : env.created with
                | error e => simpa [htok, hd, hc] using hmem
                | ok a => simpa [htok, hd, hc] using hmem
          obtain ⟨rfl, rfl⟩ := hboth
          exact ⟨rfl, rfl, hok.1, hok.2⟩
        · have hif : (!decide (t' ∈ addressKinds) || !decide (p' ∈ addressKinds)) = true := by
            by_cases h1 : t' ∈ addressKinds
            · have h2 : p' ∉ addressKinds := fun h2 => hok ⟨h1, h2⟩
              simp [h1, h2]
            · simp [h1]
          rw [hif] at hmem
          simp at hmem
  · have hif : (!decide (t ∈ addressKinds) || !decide (p ∈ addressKinds)) = true := by
      rcases hbad with h | h
      · have h' : t ∉ addressKinds := h
        simp [h']
      · have h' : p ∉ addressKinds := h
        simp [h']
    unfold RunWalletGenAddress
    simp only [ht, hp]
    rw [hif]
    exact ⟨rfl, rfl⟩
  · unfold RunWalletGenAddress
    rcases he with h | ⟨⟨t, ht⟩, hp⟩
    · simp [h]
    · simp [ht, hp]

/-- C21 at the type erc20, in lower case, with the purpose MAINNET. -/
theorem genaddress_validates_first_witness :
    ("erc20" ∉ ["MAINNET", "ERC20", "BEP2"] ∨ "MAINNET" ∉ ["MAINNET", "ERC20", "BEP2"])
    ∧ (RunWalletGenAddress { demoGenAddressEnv with addressType := .ok "erc20" }).trace
        = [.stderr "\nERROR: type or purpose not one of MAINNET/ERC20/BEP2..\n"]
    ∧ (RunWalletGenAddress { demoGenAddressEnv with addressType := .ok "erc20" }).err = none :=
  ⟨Or.inl (by decide),
    (genaddress_validates_first { demoGenAddressEnv with addressType := .ok "erc20" }).2.1
      "erc20" "MAINNET" rfl rfl (Or.inl (by decide))⟩

/-! ## Domain commands: the deletion loop -/

theorem deleteCalls_append (t u : List DomainEvent) :
    deleteCalls (t ++ u) = deleteCalls t ++ deleteCalls u := by
  simp [deleteCalls]

theorem callsOf_append (domainName : String) (a b : List String) :
    callsOf domainName (a ++ b) = callsOf domainName a ++ callsOf domainName b := by
  simp [callsOf]

theorem deleteCalls_callsOf (domainName : String) (ids : List String) :
    deleteCalls (callsOf domainName ids) = callsOf domainName ids := by
  induction ids with
  | nil => rfl
  | cons i ids ih =>
    unfold callsOf at ih ⊢
    cases h : Atoi i with
    | none => simpa [List.filterMap_cons, h] using ih
    | some id =>
      simp only [List.filterMap_cons, h, Option.map_some']
      show deleteCalls (DomainEvent.deleteRecord domainName id :: _) = _
      unfold deleteCalls at ih ⊢
      rw [List.filter_cons, ih]
      rfl

/-- The loop over a run of ids that parse and whose deletions succeed: one call
per id, in order, and the loop goes on with what follows. -/
theorem deleteLoop_good (env : DomainEnv) (domainName : String) :
    ∀ (pre rest : List String) (n : Nat) (t : List DomainEvent),
    (∀ j, j < pre.length → ∃ i id, pre[j]? = some i ∧ Atoi i = some id
      ∧ env.deleteRecordErr (n + j) domainName id = none) →
    deleteLoop env domainName (pre ++ rest) n t
        = deleteLoop env domainName rest (n + pre.length) (t ++ callsOf domainName pre)
      ∧ (callsOf domainName pre).length = pre.length := by
  intro pre
  induction pre with
  | nil => intro rest n t _; simp [callsOf]
  | cons i pre ih =>
    intro rest n t h
    obtain ⟨i', id, hi, hat, hdel⟩ := h 0 (by simp)
    have hii : i' = i := by simpa using hi.symm
    subst hii
    have htail : ∀ j, j < pre.length → ∃ i id, pre[j]? = some i ∧ Atoi i = some id
        ∧ env.deleteRecordErr (n + 1 + j) domainName id = none := by
      intro j hj
      obtain ⟨i2, id2, h1, h2, h3⟩ := h (j + 1) (by simp; omega)
      refine ⟨i2, id2, by simpa using h1, h2, ?_⟩
      have e : n + (j + 1) = n + 1 + j := by omega
      rw [← e]
      exact h3
    obtain ⟨hloop, hlen⟩ := ih rest (n + 1) (t ++ [.deleteRecord domainName id]) htail
    have hdel0 : env.deleteRecordErr n domainName id = none := by simpa using hdel
    have hcalls : callsOf domainName (i' :: pre)
        = DomainEvent.deleteRecord domainName id :: callsOf domainName pre := by
      simp [callsOf, List.filterMap_cons, hat]
    refine ⟨?_, by rw [hcalls, List.length_cons, hlen, List.length_cons]⟩
    rw [List.cons_append, deleteLoop]
    simp only [hat, hdel0]
    rw [hloop, hcalls]
    have e : n + 1 + pre.length = n + (i' :: pre).length := by simp; omega
    rw [e]
    simp

theorem deletesAt_initial (env : DomainEnv) (domainName : String) (pre rest : List String)
    (h : ∀ j, j < pre.length → deletesAt env domainName (pre ++ rest) j) :
    ∀ j, j < pre.length → ∃ i id, pre[j]? = some i ∧ Atoi i = some id
      ∧ env.deleteRecordErr (0 + j) domainName id = none := by
  intro j hj
  obtain ⟨i, id, h1, h2, h3⟩ := h j hj
  rw [List.getElem?_append_left hj] at h1
  exact ⟨i, id, h1, h2, by simpa using h3⟩

/-- The three ways the loop of `RunRecordDelete` ends, from the state `t` with no
call made yet. -/
theorem deleteLoop_spec (env : DomainEnv) (domainName : String) (ids : List String)
    (t : List DomainEvent) :
    (∀ pre bad post, ids = pre ++ bad :: post →
      (∀ j, j < pre.length → deletesAt env domainName ids j) →
      (Atoi bad = none →
        deleteLoop env domainName ids 0 t
          = ⟨t ++ callsOf domainName pre, some (.invalidRecordId bad)⟩)
      ∧ (∀ id e, Atoi bad = some id → env.deleteRecordErr pre.length domainName id = some e →
        deleteLoop env domainName ids 0 t
          = ⟨t ++ callsOf domainName pre ++ [.deleteRecord domainName id], some (.remote e)⟩)
      ∧ (callsOf domainName pre).length = pre.length)
    ∧ ((∀ j, j < ids.length → deletesAt env domainName ids j) →
      deleteLoop env domainName ids 0 t = ⟨t ++ callsOf domainName ids, none⟩
      ∧ (callsOf domainName ids).length = ids.length) := by
  refine ⟨fun pre bad post hsplit hgood => ?_, fun hgood => ?_⟩
  · subst hsplit
    obtain ⟨hloop, hlen⟩ := deleteLoop_good env domainName pre (bad :: post) 0 t
      (deletesAt_initial env domainName pre (bad :: post) hgood)
    refine ⟨fun hbad => ?_, fun id e hat hdel => ?_, hlen⟩
    · rw [hloop, deleteLoop]
      simp only [hbad]
    · rw [hloop, deleteLoop]
      have hdel' : env.deleteRecordErr (0 + pre.length) domainName id = some e := by
        simpa using hdel
      simp only [hat, hdel']
  · have hgood' : ∀ j, j < ids.length → deletesAt env domainName (ids ++ []) j := by
      simpa using hgood
    obtain ⟨hloop, hlen⟩ := deleteLoop_good env domainName ids [] 0 t
      (deletesAt_initial env domainName ids [] hgood')
    rw [List.append_nil] at hloop
    exact ⟨by rw [hloop, deleteLoop], hlen⟩

/-- The command `RunRecordDelete` with at least two arguments, forced or confirmed,
is its loop started after the events `t0`, which hold no deletion call. -/
theorem RunRecordDelete_proceeds (env : DomainEnv) (c : CmdConfig) (domainName : String)
    (ids : List String) (hargs : c.Args = domainName :: ids) (hlen : 2 ≤ c.Args.length)
    (hgo : env.force = .ok true ∨ (env.force = .ok false ∧ env.confirm = true)) :
    ∃ t0, deleteCalls t0 = []
      ∧ RunRecordDelete env c = deleteLoop env domainName ids 0 t0 := by
  cases ids with
  | nil => rw [hargs] at hlen; simp at hlen
  | cons id0 ids =>
    unfold RunRecordDelete
    rw [hargs]
    rcases hgo with hf | ⟨hf, hc⟩
    · exact ⟨[.domains], rfl, by simp [hf]⟩
    · exact ⟨[.askForConfirm "delete record(s)", .domains], rfl, by simp [hf, hc]⟩

theorem Atoi_eq_none (s : String) :
    Atoi s = none ↔
      (SetString10 s = none
        ∨ ∃ z, SetString10 s = some z ∧ (z < -(2 ^ 63 : Int) ∨ (2 ^ 63 : Int) ≤ z)) := by
  unfold Atoi
  cases h : SetString10 s with
  | none => simp
  | some z =>
    by_cases hr : -(2 ^ 63 : Int) ≤ z ∧ z < (2 ^ 63 : Int)
    · simp only [hr, and_self, if_true]
      constructor
      · intro h'
        cases h'
      · rintro (h' | ⟨z', hz', hout⟩)
        · cases h'
        · have := Option.some.inj hz'
          subst this
          omega
    · simp only [hr, if_false, true_iff]
      refine Or.inr ⟨z, rfl, ?_⟩
      by_cases h1 : z < -(2 ^ 63 : Int)
      · exact Or.inl h1
      · refine Or.inr ?_
        by_contra h2
        exact hr ⟨by omega, by omega⟩

/-! ## Claim C22 -/

/-- C22: `RunRecordDelete` with fewer than two arguments returns the
missing-arguments error and does nothing. With at least two, forced or confirmed:
if the ids before some id all parse and are deleted, and that id does not parse
(`strconv.Atoi` rejects it), the error `invalid record id` of that id is returned
and the deletion calls of the run are exactly those of the ids before it, one
each, in argument order; if that id parses and its deletion fails, the error of
the service is returned and the calls are those of the ids before it followed by
the failed one; nothing after it is attempted in either case. When every id
parses and is deleted, nil is returned and the calls are those of all ids, one
each, in order. An id does not parse when it is not an optionally signed run of
decimal digits or when its value is outside the range of a 64-bit `int`. -/
theorem record_delete_in_order (env : DomainEnv) (c : CmdConfig) :
    (c.Args.length < 2 →
      (RunRecordDelete env c).err = some (.missingArgs c.NS)
      ∧ (RunRecordDelete env c).trace = [])
    ∧ (∀ domainName ids, c.Args = domainName :: ids → 2 ≤ c.Args.length →
      (env.force = .ok true ∨ (env.force = .ok false ∧ env.confirm = true)) →
      (∀ pre bad post, ids = pre ++ bad :: post →
        (∀ j, j < pre.length → deletesAt env domainName ids j) →
        (Atoi bad = none →
          (RunRecordDelete env c).err = some (.invalidRecordId bad)
          ∧ deleteCalls (RunRecordDelete env c).trace = callsOf domainName pre)
        ∧ (∀ id e, Atoi bad = some id →
          env.deleteRecordErr pre.length domainName id = some e →
          (RunRecordDelete env c).err = some (.remote e)
          ∧ deleteCalls (RunRecordDelete env c).trace
              = callsOf domainName pre ++ [.deleteRecord domainName id])
        ∧ (callsOf domainName pre).length = pre.length)
      ∧ ((∀ j, j < ids.length → deletesAt env domainName ids j) →
        (RunRecordDelete env c).err = none
        ∧ deleteCalls (RunRecordDelete env c).trace = callsOf domainName ids
        ∧ (callsOf domainName ids).length = ids.length))
    ∧ (∀ s, Atoi s = none ↔
      (SetString10 s = none
        ∨ ∃ z, SetString10 s = some z ∧ (z < -(2 ^ 63 : Int) ∨ (2 ^ 63 : Int) ≤ z))) := by
  refine ⟨fun hlt => ?_, fun domainName ids hargs hlen hgo => ?_, Atoi_eq_none⟩
  · unfold RunRecordDelete
    cases hargs : c.Args with
    | nil => exact ⟨rfl, rfl⟩
    | cons a rest =>
      cases rest with
      | nil => exact ⟨rfl, rfl⟩
      | cons b rest =>
        rw [hargs] at hlt
        simp only [List.length_cons] at hlt
        omega
  · obtain ⟨t0, ht0, hrun⟩ := RunRecordDelete_proceeds env c domainName ids hargs hlen hgo
    obtain ⟨hbad, hall⟩ := deleteLoop_spec env domainName ids t0
    rw [hrun]
    refine ⟨fun pre bad post hsplit hgood => ?_, fun hgood => ?_⟩
    · obtain ⟨h1, h2, h3⟩ := hbad pre bad post hsplit hgood
      refine ⟨fun hb => ?_, fun id e hat hdel => ?_, h3⟩
      · rw [h1 hb]
        exact ⟨rfl, by simp [deleteCalls_append, ht0, deleteCalls_callsOf]⟩
      · rw [h2 id e hat hdel]
        refine ⟨rfl, ?_⟩
        simp only [deleteCalls_append, ht0, deleteCalls_callsOf, List.nil_append]
        rfl
    · obtain ⟨h1, h2⟩ := hall hgood
      rw [h1]
      exact ⟨rfl, by simp [deleteCalls_append, ht0, deleteCalls_callsOf], h2⟩

/-- C22 at the ids 1, 2, x, 4 of the domain d.com, confirmed: the ids 1 and 2 are
deleted, x is reported and 4 is not attempted. -/
theorem record_delete_in_order_witness :
    (∀ j, j < ["1", "2"].length → deletesAt demoDomainEnv "d.com" ["1", "2", "x", "4"] j)
    ∧ Atoi "x" = none
    ∧ (RunRecordDelete demoDomainEnv ⟨["d.com", "1", "2", "x", "4"], "domain"⟩).err
        = some (.invalidRecordId "x")
    ∧ deleteCalls (RunRecordDelete demoDomainEnv ⟨["d.com", "1", "2", "x", "4"], "domain"⟩).trace
        = callsOf "d.com" ["1", "2"] :=
  have hgood : ∀ j, j < ["1", "2"].length →
      deletesAt demoDomainEnv "d.com" ["1", "2", "x", "4"] j := by
    intro j hj
    have hj' : j = 0 ∨ j = 1 := by simp at hj; omega
    rcases hj' with rfl | rfl
    · exact ⟨"1", 1, rfl, by decide, rfl⟩
    · exact ⟨"2", 2, rfl, by decide, rfl⟩
  have hx : Atoi "x" = none := by decide
  ⟨hgood, hx,
    (((record_delete_in_order demoDomainEnv ⟨["d.com", "1", "2", "x", "4"], "domain"⟩).2.1
      "d.com" ["1", "2", "x", "4"] rfl (by decide) (Or.inr ⟨rfl, rfl⟩)).1
      ["1", "2"] "x" ["4"] rfl hgood).1 hx⟩

/-! ## Claim C23 -/

/-- C23: with an argument list whose length is not 1, `RunDomainCreate`,
`RunDomainGet`, `RunRecordList` and `RunRecordCreate` return the missing-arguments
error and do nothing, not even construct the service. `RunRecordCreate` with one
argument and a request whose record type is empty returns the error
`record request is missing type` and makes no remote call. Besides, whenever the
record type flag is empty, `CreateRecord` is not called, also when another flag
cannot be read (the error of that flag is returned then). -/
theorem single_argument_commands (env : DomainEnv) (c : CmdConfig) :
    (c.Args.length ≠ 1 →
      ((RunDomainCreate env c).err = some (.missingArgs c.NS)
        ∧ (RunDomainCreate env c).trace = [])
      ∧ ((RunDomainGet env c).err = some (.missingArgs c.NS)
        ∧ (RunDomainGet env c).trace = [])
      ∧ ((RunRecordList env c).err = some (.missingArgs c.NS)
        ∧ (RunRecordList env c).trace = [])
      ∧ ((RunRecordCreate env c).err = some (.missingArgs c.NS)
        ∧ (RunRecordCreate env c).trace = []))
    ∧ (∀ name drcr, c.Args = [name] → recordFlags env = .ok drcr →
      drcr.RecordType.length = 0 →
      (RunRecordCreate env c).err = some (.message "record request is missing type")
      ∧ (RunRecordCreate env c).trace = [.domains])
    ∧ (∀ name t, c.Args = [name] → env.rType = .ok t → t.length = 0 →
      (∀ n req, DomainEvent.createRecord n req ∉ (RunRecordCreate env c).trace)
      ∧ (∀ e, recordFlags env = .error e → (RunRecordCreate env c).err = some (.flag e))) := by
  refine ⟨fun hne => ?_, fun name drcr hargs hflags hzero => ?_,
    fun name t hargs ht hlen => ?_⟩
  · have hmatch : ∀ a, c.Args ≠ [a] := by
      intro a ha
      rw [ha] at hne
      exact hne rfl
    unfold RunDomainCreate RunDomainGet RunRecordList RunRecordCreate
    cases hargs : c.Args with
    | nil => exact ⟨⟨rfl, rfl⟩, ⟨rfl, rfl⟩, ⟨rfl, rfl⟩, ⟨rfl, rfl⟩⟩
    | cons a rest =>
      cases rest with
      | nil => exact absurd hargs (hmatch a)
      | cons b rest => exact ⟨⟨rfl, rfl⟩, ⟨rfl, rfl⟩, ⟨rfl, rfl⟩, ⟨rfl, rfl⟩⟩
  · unfold RunRecordCreate
    rw [hargs]
    dsimp only
    rw [hflags]
    dsimp only
    rw [if_pos hzero]
    exact ⟨rfl, rfl⟩
  · have htype : ∀ drcr, recordFlags env = .ok drcr → drcr.RecordType = t := by
      intro drcr hflags
      unfold recordFlags at hflags
      rw [ht] at hflags
      dsimp only at hflags
      repeat' split at hflags
      all_goals first
        | (cases hflags
           rfl)
        | cases hflags
    unfold RunRecordCreate
    rw [hargs]
    dsimp only
    cases hflags : recordFlags env with
    | error e =>
      refine ⟨?_, ?_⟩
      · intro n req hmem
        simp at hmem
      · intro e' h
        rw [Except.error.inj h]
    | ok drcr =>
      have hzero : drcr.RecordType.length = 0 := by rw [htype drcr hflags]; exact hlen
      dsimp only
      rw [if_pos hzero]
      refine ⟨?_, ?_⟩
      · intro n req hmem
        simp at hmem
      · intro e h
        cases h

/-- C23 at a command with two arguments, and at one argument with the empty record
type of the examples. -/
theorem single_argument_commands_witness :
    (⟨["a.com", "b.com"], "domain"⟩ : CmdConfig).Args.length ≠ 1
    ∧ (RunRecordList demoDomainEnv ⟨["a.com", "b.com"], "domain"⟩).err
        = some (.missingArgs "domain")
    ∧ recordFlags demoDomainEnv = .ok ⟨"", "www", "10.0.0.1", 0, 0, 1800, 0, 0, ""⟩
    ∧ (RunRecordCreate demoDomainEnv ⟨["a.com"], "domain"⟩).err
        = some (.message "record request is missing type")
    ∧ (RunRecordCreate demoDomainEnv ⟨["a.com"], "domain"⟩).trace = [.domains] :=
  ⟨by decide,
    ((single_argument_commands demoDomainEnv ⟨["a.com", "b.com"], "domain"⟩).1
      (by decide)).2.2.1.1,
    rfl,
    (single_argument_commands demoDomainEnv ⟨["a.com"], "domain"⟩).2.1 "a.com" _ rfl rfl rfl⟩

end Ankrctl
